import Mathlib

/-!
Verification of the serde_someip payload codec (SOME/IP serialization format).

This file is a shallow embedding of the crate's core modules:
  - length_fields.rs : LengthFieldSize and minimum_length_for
  - wire_type.rs     : WireType, tag disection, compatibility check
  - options.rs       : SomeIpOptions, select_length_field_size
  - error.rs         : Error taxonomy
  - types.rs         : SomeIpType schema model
  - ser.rs           : the serializer state machine
  - de.rs            : the deserializer state machine

Machine integers are modelled as Nat bit patterns (Rust's casts such as
`v as u16` are the identity on bit patterns); byte buffers are List Nat
with every element < 256.  Rust panics and unimplemented code paths are
modelled by a distinguished Error.fatal variant, which is not part of the
crate's public Error enum.  Stateful code becomes explicit state passing.
-/

namespace SerdeSomeIp

/-- From length_fields.rs: the possible length field sizes supported by SomeIp. -/
inductive LengthFieldSize where
  | oneByte
  | twoBytes
  | fourBytes
deriving DecidableEq, Repr

namespace LengthFieldSize

/-- From length_fields.rs: `impl From<LengthFieldSize> for usize`. -/
def toBytes : LengthFieldSize → Nat
  | .oneByte => 1
  | .twoBytes => 2
  | .fourBytes => 4

/-- From length_fields.rs: the `Ord` impl, as a boolean `≤` test.
The source tabulates all nine cases; the table is exactly the order of `toBytes`. -/
def ble (a b : LengthFieldSize) : Bool :=
  match a, b with
  | .oneByte, _ => true
  | .twoBytes, .oneByte => false
  | .twoBytes, _ => true
  | .fourBytes, .fourBytes => true
  | .fourBytes, _ => false

/-- Strict version of the `Ord` impl (`a < b`). -/
def blt (a b : LengthFieldSize) : Bool := ¬ b.ble a

/-- `std::cmp::max` over the `Ord` impl. -/
def bmax (a b : LengthFieldSize) : LengthFieldSize := if a.ble b then b else a

/-- The largest length representable in a length field of this size
(u8/u16/u32::max_value). -/
def unsignedMax : LengthFieldSize → Nat
  | .oneByte => 255
  | .twoBytes => 65535
  | .fourBytes => 4294967295

/-- From length_fields.rs: `LengthFieldSize::minimum_length_for`.
The source panics when `len` exceeds `u32::max_value()`; the panic is
modelled as `none`. -/
def minimumLengthFor (len : Nat) : Option LengthFieldSize :=
  if len ≤ 255 then some .oneByte
  else if len ≤ 65535 then some .twoBytes
  else if len ≤ 4294967295 then some .fourBytes
  else none

end LengthFieldSize

/-- From error.rs: the error type used by both the serializer and deserializer.
`IoError` is omitted (no `std::io` in this model) and `fatal` is added to
model Rust panics, failed assertions and `unimplemented!` paths. -/
inductive Error where
  | message (msg : String)
  | invalidBool (value : Nat)
  | invalidEnumValue (value : String) (name : String)
  | invalidWireType (expected : String) (actual : String)
  | cannotCodeString (reason : String)
  | notEnoughData (min actual : Nat)
  | tooMuchData (max actual : Nat)
  | tooShort
  | tooLong (actualLength : Nat) (lengthFieldSize : LengthFieldSize)
  | notAllBytesConsumed (remaining : Nat)
  | fatal (msg : String)
deriving DecidableEq, Repr

/-- From wire_type.rs: the wiretypes available inside the tags of TLV
serialized structs. -/
inductive WireType where
  | oneByte
  | twoBytes
  | fourBytes
  | eightBytes
  | lengthDelimitedFromConfig
  | lengthDelimitedOneByte
  | lengthDelimitedTwoBytes
  | lengthDelimitedFourBytes
deriving DecidableEq, Repr

namespace WireType

/-- From wire_type.rs: `WireType::get_length_field_size`. -/
def getLengthFieldSize : WireType → Option LengthFieldSize
  | .lengthDelimitedOneByte => some .oneByte
  | .lengthDelimitedTwoBytes => some .twoBytes
  | .lengthDelimitedFourBytes => some .fourBytes
  | _ => none

/-- From wire_type.rs: `WireType::get_fixed_size`. -/
def getFixedSize : WireType → Option Nat
  | .oneByte => some 1
  | .twoBytes => some 2
  | .fourBytes => some 4
  | .eightBytes => some 8
  | _ => none

/-- From wire_type.rs: the `Display` impl. -/
def display : WireType → String
  | .oneByte => "one byte(0)"
  | .twoBytes => "two bytes(1)"
  | .fourBytes => "four bytes(2)"
  | .eightBytes => "eight bytes(3)"
  | .lengthDelimitedFromConfig => "length delimited from config(4)"
  | .lengthDelimitedOneByte => "length delimited one byte(5)"
  | .lengthDelimitedTwoBytes => "length delimited two bytes(6)"
  | .lengthDelimitedFourBytes => "length delimited four bytes(7)"

/-- From wire_type.rs: `impl From<LengthFieldSize> for WireType`. -/
def ofLengthFieldSize : LengthFieldSize → WireType
  | .oneByte => .lengthDelimitedOneByte
  | .twoBytes => .lengthDelimitedTwoBytes
  | .fourBytes => .lengthDelimitedFourBytes

/-- From wire_type.rs: `impl From<WireType> for u16`. -/
def toU16 : WireType → Nat
  | .oneByte => 0x0000
  | .twoBytes => 0x1000
  | .fourBytes => 0x2000
  | .eightBytes => 0x3000
  | .lengthDelimitedFromConfig => 0x4000
  | .lengthDelimitedOneByte => 0x5000
  | .lengthDelimitedTwoBytes => 0x6000
  | .lengthDelimitedFourBytes => 0x7000

/-- The match over the three extracted bits in `impl From<u16> for WireType`;
the source's unreachable `panic!()` arm is modelled as `none`. -/
def ofCode : Nat → Option WireType
  | 0 => some .oneByte
  | 1 => some .twoBytes
  | 2 => some .fourBytes
  | 3 => some .eightBytes
  | 4 => some .lengthDelimitedFromConfig
  | 5 => some .lengthDelimitedOneByte
  | 6 => some .lengthDelimitedTwoBytes
  | 7 => some .lengthDelimitedFourBytes
  | _ => none

/-- From wire_type.rs: `impl From<u16> for WireType`, i.e.
`let bits = (v >> 12) & 0x7` followed by the match. -/
def ofU16 (v : Nat) : Option WireType := ofCode ((v >>> 12) &&& 0x7)

/-- From wire_type.rs: `WireType::disect_tag`. -/
def disectTag (tag : Nat) : Option WireType × Nat := (ofU16 tag, 0xFFF &&& tag)

/-- Is this one of the four length delimited wiretypes (codes 4 to 7)? -/
def isLengthDelimited : WireType → Bool
  | .lengthDelimitedFromConfig => true
  | .lengthDelimitedOneByte => true
  | .lengthDelimitedTwoBytes => true
  | .lengthDelimitedFourBytes => true
  | _ => false

/-- From wire_type.rs: `WireType::check`. -/
def check (self other : WireType) : Except Error Unit :=
  let isMatch : Bool :=
    match self with
    | .oneByte => other == .oneByte
    | .twoBytes => other == .twoBytes
    | .fourBytes => other == .fourBytes
    | .eightBytes => other == .eightBytes
    | _ => other == .lengthDelimitedFromConfig || other == .lengthDelimitedOneByte
        || other == .lengthDelimitedTwoBytes || other == .lengthDelimitedFourBytes
  if isMatch then .ok ()
  else .error (.invalidWireType self.display other.display)

end WireType

/-- From options.rs: the byte order enum. -/
inductive ByteOrder where
  | bigEndian
  | littleEndian
deriving DecidableEq, Repr

/-- From options.rs: the supported string encodings. -/
inductive StringEncoding where
  | utf8
  | utf16
  | ascii
deriving DecidableEq, Repr

/-- From options.rs: how the serializer picks LengthFieldSizes in TLV structs. -/
inductive LengthFieldSizeSelection where
  | asConfigured
  | smallest
deriving DecidableEq, Repr

/-- From options.rs: what the deserializer does on too much data. -/
inductive ActionOnTooMuchData where
  | fail
  | discard
  | keep
deriving DecidableEq, Repr

/-- From options.rs: the `SomeIpOptions` trait, with its associated constants
as fields.  The field defaults are the trait's default values. -/
structure SomeIpOptions where
  byteOrder : ByteOrder := .bigEndian
  stringWithBom : Bool := false
  stringEncoding : StringEncoding := .utf8
  stringWithTerminator : Bool := false
  defaultLengthFieldSize : Option LengthFieldSize := some .fourBytes
  overwriteLengthFieldSize : Option LengthFieldSize := none
  serializerUseLegacyWireType : Bool := false
  serializerLengthFieldSizeSelection : LengthFieldSizeSelection := .smallest
  deserializerStrictBool : Bool := false
  deserializerActionOnTooMuchData : ActionOnTooMuchData := .discard
deriving DecidableEq, Repr

/-- From options.rs: `ExampleOptions`, the options type with all defaults. -/
def exampleOptions : SomeIpOptions := {}

namespace SomeIpOptions

/-- From options.rs: `SomeIpOptions::overwrite_length_field_size`. -/
def overwriteLfs (o : SomeIpOptions) (fromType : Option LengthFieldSize) :
    Option LengthFieldSize :=
  if o.overwriteLengthFieldSize.isSome then o.overwriteLengthFieldSize
  else if fromType.isSome then fromType
  else o.defaultLengthFieldSize

/-- From options.rs: `SomeIpOptions::select_length_field_size`.  The panic
inside `minimum_length_for` (len beyond u32) is modelled as `Error.fatal`. -/
def selectLengthFieldSize (o : SomeIpOptions) (configured : LengthFieldSize)
    (len : Nat) (isInTlvStruct : Bool) : Except Error LengthFieldSize :=
  match LengthFieldSize.minimumLengthFor len with
  | none => .error (.fatal "Cannot handle message with this len")
  | some minimumNeeded =>
    if isInTlvStruct then
      match o.serializerLengthFieldSizeSelection with
      | .asConfigured =>
        if minimumNeeded.ble configured then .ok configured else .ok minimumNeeded
      | .smallest => .ok minimumNeeded
    else if configured.blt minimumNeeded then
      .error (.tooLong len configured)
    else
      .ok configured

end SomeIpOptions

/-- From types.rs: all primitives defined by SomeIp. -/
inductive SomeIpPrimitive where
  | bool
  | u8
  | u16
  | u32
  | u64
  | i8
  | i16
  | i32
  | i64
  | f32
  | f64
deriving DecidableEq, Repr

namespace SomeIpPrimitive

/-- From types.rs: `SomeIpPrimitive::get_wire_type`. -/
def getWireType : SomeIpPrimitive → WireType
  | .bool | .u8 | .i8 => .oneByte
  | .u16 | .i16 => .twoBytes
  | .u32 | .i32 | .f32 => .fourBytes
  | .u64 | .i64 | .f64 => .eightBytes

/-- From types.rs: `SomeIpPrimitive::get_len`. -/
def getLen : SomeIpPrimitive → Nat
  | .bool | .u8 | .i8 => 1
  | .u16 | .i16 => 2
  | .u32 | .i32 | .f32 => 4
  | .u64 | .i64 | .f64 => 8

end SomeIpPrimitive

/-- From types.rs: the `SomeIpType` schema model, with `SomeIpEnum`,
`SomeIpString`, `SomeIpSequence`, `SomeIpStruct` and `SomeIpField` inlined
into the constructors.  An enum value (`SomeIpEnumValue`) is modelled as the
bit pattern of its raw primitive (the variant kind always matches
`raw_type`); a field is the triple (name, optional id, field type). -/
inductive SomeIpType where
  | primitive (p : SomeIpPrimitive)
  | enum (name : String) (rawType : SomeIpPrimitive) (values : List (String × Nat))
  | string (minSize maxSize : Nat) (lengthFieldSize : Option LengthFieldSize)
  | sequence (minElements maxElements : Nat) (elementType : SomeIpType)
      (lengthFieldSize : Option LengthFieldSize)
  | struct (name : String) (fields : List (String × Option Nat × SomeIpType))
      (usesTlv isMessageWrapper : Bool) (lengthFieldSize : Option LengthFieldSize)

/-- A schema field: (name, optional TLV id, field type). -/
abbrev SomeIpField := String × Option Nat × SomeIpType

/-- From types.rs: `SomeIpStruct::field_by_name`. -/
def fieldByName (fields : List SomeIpField) (name : String) : Option SomeIpField :=
  fields.find? (fun f => f.1 == name)

/-- From types.rs: `SomeIpStruct::field_by_id`. -/
def fieldById (fields : List SomeIpField) (id : Nat) : Option SomeIpField :=
  fields.find? (fun f => f.2.1 == some id)

namespace SomeIpType

/-- From types.rs: `SomeIpType::get_wire_type`. -/
def getWireType : SomeIpType → WireType
  | .primitive p => p.getWireType
  | .enum _ rawType _ => rawType.getWireType
  | _ => .lengthDelimitedFromConfig

/-- From types.rs: `SomeIpSize::is_const_size` for every kind of type. -/
def isConstSize : SomeIpType → Bool
  | .primitive _ => true
  | .enum _ _ _ => true
  | .string minSize maxSize _ => minSize == maxSize
  | .sequence minElements maxElements elementType _ =>
    minElements == maxElements && elementType.isConstSize
  | .struct _ fields usesTlv _ _ =>
    !usesTlv && fieldsConstSize fields
where
  /-- `fields.iter().all(|f| f.field_type.is_const_size())` -/
  fieldsConstSize : List SomeIpField → Bool
    | [] => true
    | f :: rest => f.2.2.isConstSize && fieldsConstSize rest

/-- From types.rs: `SomeIpSize::wanted_length_field` for every kind of type.
The panics on a required-but-missing length field size are `Error.fatal`. -/
def wantedLengthField (o : SomeIpOptions) (t : SomeIpType) (isInTlvStruct : Bool) :
    Except Error (Option LengthFieldSize) :=
  match t with
  | .primitive _ | .enum _ _ _ => .ok none
  | .string _ _ lengthFieldSize =>
    if !t.isConstSize || isInTlvStruct then
      match o.overwriteLfs lengthFieldSize with
      | none => .error (.fatal "Required a length field size but none was specified")
      | some s => .ok (some s)
    else .ok none
  | .sequence _ _ _ lengthFieldSize =>
    if !t.isConstSize || isInTlvStruct then
      match o.overwriteLfs lengthFieldSize with
      | none => .error (.fatal "Required a length field size but none was specified")
      | some s => .ok (some s)
    else .ok none
  | .struct name _ usesTlv isMessageWrapper lengthFieldSize =>
    if isMessageWrapper then .ok none
    else
      let needsLengthField := isInTlvStruct || usesTlv
      let size := if needsLengthField || lengthFieldSize.isSome then
          o.overwriteLfs lengthFieldSize
        else none
      if needsLengthField && size.isNone then
        .error (.fatal ("Required a length field size for struct " ++ name))
      else .ok size

/-- From types.rs: `SomeIpSize::max_len` for every kind of type. -/
def maxLen (o : SomeIpOptions) : SomeIpType → Bool → Except Error Nat
  | .primitive p, _ => .ok p.getLen
  | .enum _ rawType _, _ => .ok rawType.getLen
  | .string minSize maxSize lengthFieldSize, isInTlvStruct => do
    let size ← wantedLengthField o (.string minSize maxSize lengthFieldSize) isInTlvStruct
    match size with
    | some size => do
      let size ← o.selectLengthFieldSize size maxSize isInTlvStruct
      .ok (maxSize + size.toBytes)
    | none => .ok maxSize
  | .sequence minElements maxElements elementType lengthFieldSize, isInTlvStruct => do
    let size ← wantedLengthField o
      (.sequence minElements maxElements elementType lengthFieldSize) isInTlvStruct
    let len := maxElements * (← maxLen o elementType false)
    match size with
    | some size => do
      let size ← o.selectLengthFieldSize size len isInTlvStruct
      .ok (len + size.toBytes)
    | none => .ok len
  | .struct name fields usesTlv isMessageWrapper lengthFieldSize, isInTlvStruct => do
    let size ← wantedLengthField o
      (.struct name fields usesTlv isMessageWrapper lengthFieldSize) isInTlvStruct
    let len ← fieldsMaxLen o fields usesTlv
    match size with
    | some size => do
      let size ← o.selectLengthFieldSize size len isInTlvStruct
      .ok (len + size.toBytes)
    | none => .ok len
where
  /-- the loop `for f in self.fields` summing `f.field_type.max_len(uses_tlv)` -/
  fieldsMaxLen (o : SomeIpOptions) : List SomeIpField → Bool → Except Error Nat
    | [], _ => .ok 0
    | f :: rest, usesTlv => do
      let l ← maxLen o f.2.2 usesTlv
      let ls ← fieldsMaxLen o rest usesTlv
      .ok (l + ls)

end SomeIpType

/-- A Rust value driven through the serde data model, as the serializer sees
it.  Integer and float primitives appear as their bit patterns together with
their byte width (Rust's `v as uN` casts are the identity on bit patterns,
floats are serialized via `to_bits`).  A struct value lists its field values
in declaration order; the field names come from the schema. -/
inductive Value where
  | bool (b : Bool)
  | prim (width : Nat) (bits : Nat)
  | str (s : String)
  | seq (elems : List Value)
  | vstruct (vals : List Value)
  | enumv (variant : String)
  | opt (o : Option Value)

/-- From ser.rs `SomeIpWriter::write_ux`: the bytes of an unsigned value of
the given byte width in the given byte order
(`array[i] = (data >> (8 * (size - i - 1))) & 0xFF` for big endian and
`array[i] = (data >> (8 * i)) & 0xFF` for little endian). -/
def uxBytes (size : Nat) (data : Nat) (byteOrder : ByteOrder) : List Nat :=
  match byteOrder with
  | .bigEndian => (List.range size).map (fun i => (data >>> (8 * (size - i - 1))) &&& 0xFF)
  | .littleEndian => (List.range size).map (fun i => (data >>> (8 * i)) &&& 0xFF)

/-- `str::as_bytes` of a Rust string: its UTF-8 encoding. -/
def utf8Bytes (s : String) : List Nat :=
  s.data.flatMap (fun c => (String.utf8EncodeChar c).map UInt8.toNat)

/-- `char::encode_utf16` of Rust: the UTF-16 code units of one char. -/
def utf16EncodeChar (c : Char) : List Nat :=
  let v := c.toNat
  if v < 0x10000 then [v]
  else
    let v := v - 0x10000
    [0xD800 + (v >>> 10), 0xDC00 + (v &&& 0x3FF)]

/-- `str::encode_utf16` of Rust: the UTF-16 code units of a string. -/
def utf16Units (s : String) : List Nat := s.data.flatMap utf16EncodeChar

/-- `str::is_ascii` of Rust: every char is in the ASCII range. -/
def isAsciiString (s : String) : Bool := s.data.all (fun c => c.toNat ≤ 127)

/-- From ser.rs: the state of `SomeIpSerializer` (minus `next_type`, which is
passed as an argument during recursion).  The output buffer is the `Vec<u8>`
writer; `sections` is `length_delimited_sections` with the innermost section
at the head (the source pushes to and pops from the end of a `Vec`). -/
structure SerState where
  buf : List Nat
  isInTlvStruct : Bool
  lastLengthField : Option (LengthFieldSize × Bool)
  sections : List (Nat × LengthFieldSize × Bool)
deriving Repr

namespace SerState

/-- From ser.rs: `SomeIpWriter::write_u8` (appends the raw byte). -/
def writeU8 (b : Nat) (st : SerState) : SerState := { st with buf := st.buf ++ [b] }

/-- From ser.rs: `SomeIpWriter::write_ux`. -/
def writeUx (size data : Nat) (byteOrder : ByteOrder) (st : SerState) : SerState :=
  { st with buf := st.buf ++ uxBytes size data byteOrder }

/-- From ser.rs: `SomeIpSerializer::begin_length_delimited_section`
(records the position, reserves `max(configured, maximum_needed)` zero
bytes, and remembers whether we were inside a TLV struct). -/
def beginLds (configured maximumNeeded : LengthFieldSize) (st : SerState) : SerState :=
  let pos := st.buf.length
  let reserved := configured.bmax maximumNeeded
  { st with sections := (pos, reserved, st.isInTlvStruct) :: st.sections,
            buf := st.buf ++ List.replicate reserved.toBytes 0 }

/-- From ser.rs: `SomeIpSerializer::write_at_previous_pos` (truncate to
`pos`, serialize the value there, restore the original length); its
`assert!(pos < end)` is modelled as `Error.fatal`. -/
def writeAtPreviousPos (pos : Nat) (bytes : List Nat) (st : SerState) :
    Except Error SerState :=
  if pos < st.buf.length then
    .ok { st with buf := st.buf.take pos ++ bytes ++ st.buf.drop (pos + bytes.length) }
  else .error (.fatal "assertion failed: pos < end")

/-- From ser.rs: `SomeIpSerializer::end_length_delimited_section`.  Pops the
innermost section, selects the actual length field size, shifts the payload
left when the reservation was larger (`copy_within` + `set_len`), and writes
the measured length at the recorded position.  The `assert!(reserved >
actual)` and the `unwrap` on the section stack are modelled as `Error.fatal`. -/
def endLds (o : SomeIpOptions) (configured : LengthFieldSize) (st : SerState) :
    Except Error SerState :=
  match st.sections with
  | [] => .error (.fatal "Ended more length delimited sections than where started")
  | (pos, reserved, wasInTlv) :: rest => do
    let endPos := st.buf.length
    let len := endPos - pos - reserved.toBytes
    let actual ← o.selectLengthFieldSize configured len wasInTlv
    let st1 : SerState :=
      { st with
        sections := rest
        lastLengthField := some (actual, actual == configured) }
    let st2 ←
      if actual ≠ reserved then
        if actual.blt reserved then
          .ok { st1 with
                buf := st1.buf.take (pos + actual.toBytes)
                    ++ st1.buf.drop (pos + reserved.toBytes) }
        else .error (.fatal "assertion failed: reserved > actual")
      else .ok st1
    match actual with
    | .oneByte =>
      if len > 255 then .error (.tooLong len actual)
      else writeAtPreviousPos pos [len] st2
    | .twoBytes =>
      if len > 65535 then .error (.tooLong len actual)
      else writeAtPreviousPos pos (uxBytes 2 len o.byteOrder) st2
    | .fourBytes =>
      if len > 4294967295 then .error (.tooLong len actual)
      else writeAtPreviousPos pos (uxBytes 4 len o.byteOrder) st2

end SerState

/-- The bytes appended by `SomeIpSerializer::internal_write_str` for a given
string: its UTF-8 bytes as-is, or its UTF-16 code units serialized as u16
values in the configured byte order. -/
def strBytes (o : SomeIpOptions) (v : String) : List Nat :=
  if o.stringEncoding ≠ .utf16 then utf8Bytes v
  else (utf16Units v).flatMap (fun c => uxBytes 2 c o.byteOrder)

/-- From ser.rs: `SomeIpSerializer::internal_write_str`. -/
def internalWriteStr (o : SomeIpOptions) (v : String) (st : SerState) : SerState :=
  { st with buf := st.buf ++ strBytes o v }

/-- The full encoded content of a string between the length field and the
end of the string section: optional BOM, the encoded string, optional
terminator (the three `internal_write_str` calls of `serialize_str`). -/
def encodedStrBytes (o : SomeIpOptions) (s : String) : List Nat :=
  (if o.stringWithBom then strBytes o "\uFEFF" else [])
    ++ strBytes o s
    ++ (if o.stringWithTerminator then strBytes o "\x00" else [])

/-- The `actual_len` measured by `serialize_str`: the byte length of the
optional BOM, the encoded string and the optional terminator. -/
def encodedStrLen (o : SomeIpOptions) (s : String) : Nat :=
  (encodedStrBytes o s).length

/-- From ser.rs: the begin half of `SomeIpSeqSerializer::start` /
`SomeIpStructSerializer::start` / the string and bytes paths: open a length
delimited section reserving
`max(configured, minimum_length_for(max_len))` bytes. -/
def startSection (o : SomeIpOptions) (t : SomeIpType) (configured : LengthFieldSize)
    (st : SerState) : Except Error SerState := do
  let ml ← SomeIpType.maxLen o t st.isInTlvStruct
  match LengthFieldSize.minimumLengthFor ml with
  | none => .error (.fatal "Cannot handle message with this len")
  | some maximumNeeded => .ok (st.beginLds configured maximumNeeded)

mutual

/-- From ser.rs: the `Serializer` impl for `SomeIpSerializer` together with
`SomeIpSeqSerializer` and `SomeIpStructSerializer`, dispatched on the value
as serde does.  `next_type` is the `t` argument.  Panics and
`unimplemented!` arms are `Error.fatal`. -/
def serValue (o : SomeIpOptions) (t : SomeIpType) (v : Value) (st : SerState) :
    Except Error SerState :=
  match v with
  | .bool b => .ok (st.writeU8 (if b then 1 else 0))
  | .prim width bits =>
    if width == 1 then .ok (st.writeU8 bits)
    else .ok (st.writeUx width bits o.byteOrder)
  | .enumv variant =>
    match t with
    | .enum name rawType values =>
      match values.find? (fun nv => nv.1 == variant) with
      | none => .error (.fatal ("Enum " ++ name ++ " has no field " ++ variant))
      | some nv =>
        if rawType.getLen == 1 then .ok (st.writeU8 nv.2)
        else .ok (st.writeUx rawType.getLen nv.2 o.byteOrder)
    | _ => .error (.fatal "Expeceted an enum")
  | .str s =>
    match t with
    | .string minSize maxSize _lengthFieldSize => do
      if o.stringEncoding == .ascii && !isAsciiString s then
        .error (.cannotCodeString "Encoding is ASCII but str contains non ASCII chars")
      else do
        let lfs ← SomeIpType.wantedLengthField o t st.isInTlvStruct
        let st ← match lfs with
          | some configured => startSection o t configured st
          | none => .ok st
        let beginPos := st.buf.length
        let st := if o.stringWithBom then internalWriteStr o "\uFEFF" st else st
        let st := internalWriteStr o s st
        let st := if o.stringWithTerminator then internalWriteStr o "\x00" st else st
        let actualLen := st.buf.length - beginPos
        if actualLen < minSize then .error (.notEnoughData minSize actualLen)
        else if actualLen > maxSize then .error (.tooMuchData maxSize actualLen)
        else match lfs with
          | some s2 => st.endLds o s2
          | none => .ok st
    | _ => .error (.fatal "Expeceted a string")
  | .seq vs =>
    match t with
    | .sequence minElements maxElements elementType _lengthFieldSize => do
      -- SomeIpSeqSerializer::new with len = Some(vs.len())
      if vs.length < minElements then .error (.notEnoughData minElements vs.length)
      else if vs.length > maxElements then .error (.tooMuchData maxElements vs.length)
      else do
        let lfs ← SomeIpType.wantedLengthField o t st.isInTlvStruct
        let st ← match lfs with
          | some configured => startSection o t configured st
          | none => .ok st
        let st ← serElems o elementType vs st
        -- SomeIpSeqSerializer::end re-checks the element count
        if vs.length < minElements then .error (.notEnoughData minElements vs.length)
        else if vs.length > maxElements then .error (.tooMuchData maxElements vs.length)
        else match lfs with
          | some s2 => st.endLds o s2
          | none => .ok st
    | _ => .error (.fatal "Expeceted a sequence")
  | .vstruct vals =>
    match t with
    | .struct _ fields usesTlv _ _ => do
      -- SomeIpStructSerializer::new
      if vals.length ≠ fields.length then
        .error (.fatal "Cannot serialize more fields than struct has")
      else do
        let lfs ← SomeIpType.wantedLengthField o t st.isInTlvStruct
        let st ← match lfs with
          | some configured => startSection o t configured st
          | none => .ok st
        let st ← serFields o fields usesTlv fields vals st
        let st ← match lfs with
          | some s2 => st.endLds o s2
          | none => .ok st
        .ok { st with isInTlvStruct := false }
    | _ => .error (.fatal "Expeceted a struct")
  | .opt vo =>
    match vo with
    | none =>
      -- serialize_none: retract the pre-written tag by truncating two bytes
      if st.isInTlvStruct then
        .ok { st with buf := st.buf.take (st.buf.length - 2) }
      else .error (.fatal "Options are only supported in tlv structs")
    | some v2 =>
      if st.isInTlvStruct then serValue o t v2 st
      else .error (.fatal "Options are only supported in tlv structs")

/-- From ser.rs: `SomeIpSeqSerializer::serialize_element` iterated: set
`is_in_tlv_struct = false` and `next_type` to the element type, then
serialize each element. -/
def serElems (o : SomeIpOptions) (elementType : SomeIpType) (vs : List Value)
    (st : SerState) : Except Error SerState :=
  match vs with
  | [] => .ok st
  | v :: rest => do
    let st ← serValue o elementType v { st with isInTlvStruct := false }
    serElems o elementType rest st

/-- From ser.rs: `SomeIpStructSerializer::serialize_field` iterated over the
declared fields (serde's derive calls it once per field, in declaration
order, passing the field's name).  In a TLV struct the tag is written first
and re-written afterwards for length delimited fields, unless legacy wire
types are requested and the configured size was used. -/
def serFields (o : SomeIpOptions) (allFields : List SomeIpField) (usesTlv : Bool)
    (fields : List SomeIpField) (vals : List Value) (st : SerState) :
    Except Error SerState :=
  match fields, vals with
  | [], _ => .ok st
  | _, [] => .ok st
  | f :: fr, v :: vr => do
    let st ← match fieldByName allFields f.1 with
      | none => .error (.fatal "Cannot find field in struct")
      | some field =>
        if usesTlv then
          match field.2.1 with
          | none => .error (.fatal "Field has no id despite the struct using tlv")
          | some id => do
            let wireType := field.2.2.getWireType
            let tag := wireType.toU16 ||| id
            let tagPos := st.buf.length
            let st := st.writeUx 2 tag o.byteOrder
            let st := { st with isInTlvStruct := usesTlv }
            let st ← serValue o field.2.2 v st
            if wireType == .lengthDelimitedFromConfig then
              match st.lastLengthField with
              | none => .error (.fatal "take on empty last_length_field")
              | some al =>
                let st := { st with lastLengthField := none }
                if !al.2 || !o.serializerUseLegacyWireType then
                  let tag2 := (WireType.ofLengthFieldSize al.1).toU16 ||| id
                  st.writeAtPreviousPos tagPos (uxBytes 2 tag2 o.byteOrder)
                else .ok st
            else .ok st
        else
          serValue o field.2.2 v { st with isInTlvStruct := usesTlv }
    serFields o allFields usesTlv fr vr st

end

/-- From ser.rs: `to_vec` / `to_vec_manuel` (the `debug_assertions` schema
verification is a no-op in release builds and is not modelled here). -/
def toVec (o : SomeIpOptions) (t : SomeIpType) (v : Value) : Except Error (List Nat) := do
  let st ← serValue o t v { buf := [], isInTlvStruct := false,
                            lastLengthField := none, sections := [] }
  .ok st.buf

/-- From de.rs `SomeIpReader::read_ux`: the big endian parser folds
`res = res << 8 | b` over the slice; the little endian parser folds
`res = res | (b << (i * 8))` over the enumerated slice. -/
def parseUx (byteOrder : ByteOrder) (bytes : List Nat) : Nat :=
  match byteOrder with
  | .bigEndian => bytes.foldl (fun res b => (res <<< 8) ||| b) 0
  | .littleEndian =>
    (bytes.enum.foldl (fun res ib => res ||| (ib.2 <<< (ib.1 * 8))) 0)

/-- From de.rs: the state of `SomeIpDeserializer` for a slice reader (minus
`next_type`, `next_length_field_size` and `next_field_name`, which are
passed as arguments during recursion).  `input` is the reader's remaining
bytes; `sections` is `length_delimited_sections` with the innermost counter
at the head (the source pushes to and pops from the end of a `Vec`). -/
structure DeState where
  input : List Nat
  sections : List Nat
deriving DecidableEq, Repr

namespace DeState

/-- From de.rs: `SomeIpReader::remaining` for `SomeIpDeserializer`: the
innermost section counter, or the reader's remaining bytes when no section
is open. -/
def remaining (st : DeState) : Nat := st.sections.head?.getD st.input.length

/-- From de.rs: `SomeIpDeserializer::before_read`. -/
def beforeRead (st : DeState) (len : Nat) : Except Error DeState :=
  if st.remaining < len then .error .tooShort
  else .ok { st with sections := match st.sections with
                                 | [] => []
                                 | v :: rest => (v - len) :: rest }

/-- From de.rs: `SomeIpDeserializer::read` over the slice reader
(`before_read` followed by `next_slice`, which fails `TooShort` when the
slice is exhausted). -/
def readBytes (st : DeState) (len : Nat) : Except Error (List Nat × DeState) := do
  let st ← st.beforeRead len
  if st.input.length < len then .error .tooShort
  else .ok (st.input.take len, { st with input := st.input.drop len })

/-- From de.rs: `SomeIpReader::read_u8` (`read(1, |s| Ok(s[0]))`). -/
def readU8 (st : DeState) : Except Error (Nat × DeState) := do
  let (bs, st) ← st.readBytes 1
  .ok (bs.headD 0, st)

/-- From de.rs: `SomeIpReader::read_ux` (read `size` bytes and parse them in
the given byte order). -/
def readUx (st : DeState) (byteOrder : ByteOrder) (size : Nat) :
    Except Error (Nat × DeState) := do
  let (bs, st) ← st.readBytes size
  .ok (parseUx byteOrder bs, st)

/-- From de.rs: `SomeIpDeserializer::begin_known_length_delimited_section`. -/
def beginKnownLds (st : DeState) (len : Nat) : Except Error (Nat × DeState) := do
  let st ← st.beforeRead len
  .ok (len, { st with sections := len :: st.sections })

/-- From de.rs: `SomeIpDeserializer::begin_length_delimited_section`.  The
one-shot `next_length_field_size` override is the `nextLfs` argument. -/
def beginLds (o : SomeIpOptions) (st : DeState) (nextLfs : Option LengthFieldSize)
    (lengthFieldSize : LengthFieldSize) : Except Error (Nat × DeState) := do
  let size := match nextLfs with
    | some size => size
    | none => lengthFieldSize
  let (len, st) ← match size with
    | .oneByte => st.readU8
    | .twoBytes => st.readUx o.byteOrder 2
    | .fourBytes => st.readUx o.byteOrder 4
  st.beginKnownLds len

/-- From de.rs: `SomeIpDeserializer::end_length_delimited_section`; the
panic on an empty section stack is `Error.fatal`. -/
def endLds (st : DeState) : Except Error DeState :=
  match st.sections with
  | v :: rest =>
    if v ≠ 0 then .error (.notAllBytesConsumed v)
    else .ok { st with sections := rest }
  | [] => .error (.fatal "Ended more length delimited sections than where started")

end DeState

/-- From de.rs: `Deserializer::deserialize_bool` (read one byte; with strict
bools a byte above 1 is `InvalidBool`, otherwise any non-zero byte is
`true`). -/
def deserializeBool (o : SomeIpOptions) (st : DeState) : Except Error (Bool × DeState) := do
  let (value, st) ← st.readU8
  if o.deserializerStrictBool ∧ value > 1 then .error (.invalidBool value)
  else .ok (value != 0, st)

/-- From de.rs: `SomeIpReader::discard` for the slice reader (`before_read`
followed by `next_slice`, dropping the bytes). -/
def DeState.discard (st : DeState) (len : Nat) : Except Error DeState := do
  let (_, st) ← st.readBytes len
  .ok st

/-- One step of standard UTF-8 decoding: the code point encoded at the head
byte `b` (with its continuation bytes taken from `rest`) and the remaining
bytes, rejecting truncated or overlong encodings, surrogates and out of
range code points.  Together with `utf8Decode` below this spec-models
Rust's `String::from_utf8` validity check and the resulting chars (std is
not part of this repository).  The code points are assembled from the
subtracted lead byte and continuation payloads. -/
def utf8DecodeHead (b : Nat) (rest : List Nat) : Option (Nat × List Nat) :=
  if b < 0x80 then some (b, rest)
  else if b < 0xC2 then none
  else if b < 0xE0 then
    match rest with
    | c1 :: r =>
      if 0x80 ≤ c1 ∧ c1 < 0xC0 then
        some (((b - 0xC0) <<< 6) ||| (c1 - 0x80), r)
      else none
    | [] => none
  else if b < 0xF0 then
    match rest with
    | c1 :: c2 :: r =>
      if (0x80 ≤ c1 ∧ c1 < 0xC0) ∧ (0x80 ≤ c2 ∧ c2 < 0xC0)
          ∧ (b ≠ 0xE0 ∨ 0xA0 ≤ c1) ∧ (b ≠ 0xED ∨ c1 < 0xA0) then
        some ((((b - 0xE0) <<< 12) ||| ((c1 - 0x80) <<< 6) ||| (c2 - 0x80)), r)
      else none
    | _ => none
  else if b < 0xF5 then
    match rest with
    | c1 :: c2 :: c3 :: r =>
      if (0x80 ≤ c1 ∧ c1 < 0xC0) ∧ (0x80 ≤ c2 ∧ c2 < 0xC0) ∧ (0x80 ≤ c3 ∧ c3 < 0xC0)
          ∧ (b ≠ 0xF0 ∨ 0x90 ≤ c1) ∧ (b ≠ 0xF4 ∨ c1 < 0x90) then
        some ((((b - 0xF0) <<< 18) ||| ((c1 - 0x80) <<< 12)
          ||| ((c2 - 0x80) <<< 6) ||| (c3 - 0x80)), r)
      else none
    | _ => none
  else none

/-- The UTF-8 decoding loop; the fuel only serves as a termination measure
and is in surplus as long as it is at least the list length (each step
consumes at least the lead byte). -/
def utf8DecodeLoop : Nat → List Nat → Option (List Char)
  | _, [] => some []
  | 0, _ :: _ => none
  | fuel + 1, b :: rest =>
    match utf8DecodeHead b rest with
    | some (cp, r) =>
      match utf8DecodeLoop fuel r with
      | some cs => some (Char.ofNat cp :: cs)
      | none => none
    | none => none

/-- Standard UTF-8 decoding of a whole byte list (spec-modelled
`String::from_utf8`). -/
def utf8Decode (bs : List Nat) : Option (List Char) := utf8DecodeLoop bs.length bs

/-- From de.rs: `SomeIpDeserializer::read_utf8_string` (optional BOM check,
`String::from_utf8` on the read bytes, optional terminator strip, ASCII
check). -/
def readUtf8String (o : SomeIpOptions) (len : Nat) (st : DeState) :
    Except Error (List Char × DeState) := do
  let bom := utf8Bytes "\uFEFF"
  let (len, st) ←
    if o.stringWithBom then
      if len < bom.length then
        .error (.cannotCodeString
          "String must begin with BOM and cannot be completely empty")
      else do
        let (bs, st) ← st.readBytes bom.length
        if bs ≠ bom then .error (.cannotCodeString "String must begin with a BOM")
        else .ok (len - bom.length, st)
    else .ok (len, st)
  let (bs, st) ← st.readBytes len
  match utf8Decode bs with
  | none => .error (.cannotCodeString "Invalid utf8")
  | some chars => do
    let chars ←
      if o.stringWithTerminator then
        if chars.getLast? = some (Char.ofNat 0) then .ok chars.dropLast
        else .error (.cannotCodeString "String must end with 0 terminator")
      else .ok chars
    if o.stringEncoding == .ascii && !chars.all (fun c => c.toNat ≤ 127) then
      .error (.cannotCodeString "String contained non ascii chars")
    else .ok (chars, st)

/-- From de.rs: the fused u16 reading and UTF-16 decoding loop of
`read_utf16_string` (`CharIter` feeding `char::decode_utf16`, which
spec-models std): units are read one at a time so that a read failure
surfaces before a decode failure of a later unit, exactly as in the
source. -/
def readUtf16Chars (o : SomeIpOptions) (byteOrder : ByteOrder) :
    Nat → DeState → Except Error (List Char × DeState)
  | 0, st => .ok ([], st)
  | units + 1, st => do
    let (u, st) ← st.readUx byteOrder 2
    if u < 0xD800 ∨ 0xE000 ≤ u then do
      let (cs, st) ← readUtf16Chars o byteOrder units st
      .ok (Char.ofNat u :: cs, st)
    else if u < 0xDC00 then
      match units with
      | 0 => .error (.cannotCodeString "Invalid utf16")
      | units2 + 1 => do
        let (l, st) ← st.readUx byteOrder 2
        if 0xDC00 ≤ l ∧ l < 0xE000 then do
          let (cs, st) ← readUtf16Chars o byteOrder units2 st
          .ok (Char.ofNat (0x10000 + ((u - 0xD800) <<< 10) + (l - 0xDC00)) :: cs, st)
        else .error (.cannotCodeString "Invalid utf16")
    else .error (.cannotCodeString "Invalid utf16")

/-- From de.rs: `SomeIpDeserializer::read_utf16_string` (even length check,
optional BOM resolving the byte order, u16 decoding, optional terminator
strip). -/
def readUtf16String (o : SomeIpOptions) (len : Nat) (st : DeState) :
    Except Error (List Char × DeState) := do
  if len % 2 ≠ 0 then
    .error (.cannotCodeString "UTF-16 strings must always have an even byte length")
  else do
    let units := len / 2
    let (byteOrder, units, st) ←
      if o.stringWithBom then
        if units = 0 then
          .error (.cannotCodeString
            "String must begin with BOM and can never be completely empty")
        else do
          let (bs, st) ← st.readBytes 2
          if bs = [0xFE, 0xFF] then .ok (ByteOrder.bigEndian, units - 1, st)
          else if bs = [0xFF, 0xFE] then .ok (ByteOrder.littleEndian, units - 1, st)
          else .error (.cannotCodeString "String must begin with BOM")
      else .ok (o.byteOrder, units, st)
    let (chars, st) ← readUtf16Chars o byteOrder units st
    let chars ←
      if o.stringWithTerminator then
        if chars.getLast? = some (Char.ofNat 0) then .ok chars.dropLast
        else .error (.cannotCodeString "String must end with 0 terminator")
      else .ok chars
    .ok (chars, st)

/-- From de.rs: the string reading step of `deserialize_string`, dispatching
on the configured encoding. -/
def readStr (o : SomeIpOptions) (len : Nat) (st : DeState) :
    Except Error (String × DeState) := do
  let (chars, st) ←
    if o.stringEncoding == .utf16 then readUtf16String o len st
    else readUtf8String o len st
  .ok (String.mk chars, st)

/-- The spec-modelled tail of serde's derived `visit_map` for a TLV struct:
every collected field may appear at most once, and the struct is rebuilt in
declaration order, reconstructing absent optional fields as `None` and
failing on absent required fields. -/
def buildTlvStruct (isOpt : String → String → Bool) (structName : String)
    (fields : List SomeIpField) (pairs : List (String × Value)) :
    Except Error (List Value) :=
  if (pairs.map (fun p => p.1)).Nodup then
    fields.mapM (fun f =>
      match pairs.find? (fun p => p.1 == f.1) with
      | some p => .ok p.2
      | none =>
        if isOpt structName f.1 then .ok (Value.opt none)
        else .error (.message ("missing field " ++ f.1)))
  else .error (.message "duplicate field")

mutual

/-- From de.rs: the `Deserializer` impl for `SomeIpDeserializer`, driven by
the schema exactly as serde's derived `Deserialize` impls drive it (the
derive glue is spec-modelled: per field of a struct it requests the field
with the schema name, wraps optional TLV fields in `Some` and reconstructs
missing fields; everything else is translated from de.rs).  `isOpt` tells
which TLV struct fields have an `Option` Rust type, `nextLfs` is the one
shot `next_length_field_size`, `isInTlvStruct` the deserializer flag.  The
`fuel` argument makes the translation total: the source loops forever on
certain inputs (zero sized sequence elements inside a non empty section),
which this model reports as `fatal "recursion fuel exhausted"`. -/
def deValue (o : SomeIpOptions) (isOpt : String → String → Bool) :
    Nat → SomeIpType → Bool → Option LengthFieldSize → DeState →
    Except Error (Value × DeState)
  | 0, _, _, _, _ => .error (.fatal "recursion fuel exhausted")
  | fuel + 1, t, isInTlv, nextLfs, st =>
    match t with
    | .primitive p =>
      match p with
      | .bool => do
        let (b, st) ← deserializeBool o st
        .ok (.bool b, st)
      | _ =>
        if p.getLen == 1 then do
          let (v, st) ← st.readU8
          .ok (.prim 1 v, st)
        else do
          let (v, st) ← st.readUx o.byteOrder p.getLen
          .ok (.prim p.getLen v, st)
    | .enum name rawType values =>
      if rawType == .bool || rawType == .f32 || rawType == .f64 then
        .error (.fatal "Unsupported raw type for enums")
      else do
        let (v, st) ←
          if rawType.getLen == 1 then st.readU8
          else st.readUx o.byteOrder rawType.getLen
        match values.find? (fun nv => nv.2 == v) with
        | some nv => .ok (.enumv nv.1, st)
        | none => .error (.invalidEnumValue (toString v) name)
    | .string minSize maxSize lengthFieldSize => do
      let wanted ← SomeIpType.wantedLengthField o
        (.string minSize maxSize lengthFieldSize) isInTlv
      let (len, st) ← match wanted with
        | some size => st.beginLds o nextLfs size
        | none => st.beginKnownLds maxSize
      if len < minSize then .error (.notEnoughData minSize len)
      else do
        let (value, st) ←
          if len > maxSize then
            match o.deserializerActionOnTooMuchData with
            | .fail => .error (.tooMuchData maxSize len)
            | .discard => do
              let (v, st) ← readStr o maxSize st
              let st ← st.discard (len - maxSize)
              .ok (v, st)
            | .keep => readStr o len st
          else readStr o len st
        let st ← st.endLds
        .ok (.str value, st)
    | .sequence minElements maxElements elementType lengthFieldSize => do
      let wanted ← SomeIpType.wantedLengthField o
        (.sequence minElements maxElements elementType lengthFieldSize) isInTlv
      let (_, st) ← match wanted with
        | some size => st.beginLds o nextLfs size
        | none => do
          let el ← SomeIpType.maxLen o elementType false
          st.beginKnownLds (maxElements * el)
      let (elems, st) ← deSeqElems o isOpt fuel elementType minElements maxElements 0 st
      let st ← st.endLds
      .ok (.seq elems, st)
    | .struct name fields usesTlv isMessageWrapper lengthFieldSize => do
      let wanted ← SomeIpType.wantedLengthField o
        (.struct name fields usesTlv isMessageWrapper lengthFieldSize) isInTlv
      let (inSection, st) ← match wanted with
        | some size => do
          let (_, st) ← st.beginLds o nextLfs size
          .ok (true, st)
        | none => .ok (false, st)
      if usesTlv then do
        let (pairs, st) ← deTlvFields o isOpt fuel name fields lengthFieldSize st
        let vals ← buildTlvStruct isOpt name fields pairs
        let st ← if inSection then st.endLds else .ok st
        .ok (.vstruct vals, st)
      else do
        let (vals, st) ← deStructFields o isOpt fuel fields fields inSection st
        let st ← if inSection then st.endLds else .ok st
        .ok (.vstruct vals, st)

/-- From de.rs: `SomeIpSeqAccess::next_element_seed` iterated by the derived
`Vec` visitor: elements are read while the section has bytes left, counted
and checked against the bounds with the configured too much data policy. -/
def deSeqElems (o : SomeIpOptions) (isOpt : String → String → Bool) :
    Nat → SomeIpType → Nat → Nat → Nat → DeState →
    Except Error (List Value × DeState)
  | 0, _, _, _, _, _ => .error (.fatal "recursion fuel exhausted")
  | fuel + 1, elementType, minElements, maxElements, count, st =>
    if st.remaining > 0 then do
      let (v, st) ← deValue o isOpt fuel elementType false none st
      if count + 1 > maxElements then
        match o.deserializerActionOnTooMuchData with
        | .fail => .error (.tooMuchData maxElements 0)
        | .discard => do
          let st ← st.discard st.remaining
          .ok ([], st)
        | .keep => do
          let (rest, st) ← deSeqElems o isOpt fuel elementType minElements
            maxElements (count + 1) st
          .ok (v :: rest, st)
      else do
        let (rest, st) ← deSeqElems o isOpt fuel elementType minElements
          maxElements (count + 1) st
        .ok (v :: rest, st)
    else if count < minElements then .error (.notEnoughData minElements count)
    else .ok ([], st)

/-- From de.rs: the `SeqAccess` impl of `SomeIpStructAccess` iterated by the
derived struct visitor for non TLV structs: one field per declared name, in
declaration order, stopping with a derive error when a section runs out
early. -/
def deStructFields (o : SomeIpOptions) (isOpt : String → String → Bool) :
    Nat → List SomeIpField → List SomeIpField → Bool → DeState →
    Except Error (List Value × DeState)
  | 0, _, _, _, _ => .error (.fatal "recursion fuel exhausted")
  | _ + 1, _, [], _, st => .ok ([], st)
  | fuel + 1, allFields, f :: fr, inSection, st =>
    if inSection ∧ st.remaining = 0 then
      .error (.message "invalid length while deserializing struct")
    else
      match fieldByName allFields f.1 with
      | none => .error (.fatal "Struct has no such field")
      | some field => do
        let (v, st) ← deValue o isOpt fuel field.2.2 false none st
        let (rest, st) ← deStructFields o isOpt fuel allFields fr inSection st
        .ok (v :: rest, st)

/-- From de.rs: the `MapAccess` impl of `SomeIpStructAccess` iterated by the
derived struct visitor for TLV structs: tags are read and disected while the
section has bytes left; known ids have their wire type checked and their
value deserialized (wrapped in `Some` for optional Rust fields), unknown ids
are skipped by fixed size or by their own length field. -/
def deTlvFields (o : SomeIpOptions) (isOpt : String → String → Bool) :
    Nat → String → List SomeIpField → Option LengthFieldSize → DeState →
    Except Error (List (String × Value) × DeState)
  | 0, _, _, _, _ => .error (.fatal "recursion fuel exhausted")
  | fuel + 1, structName, fields, structLfs, st =>
    if st.remaining = 0 then .ok ([], st)
    else do
      let (tagv, st) ← st.readUx o.byteOrder 2
      match WireType.ofU16 tagv with
      | none => .error (.fatal "unreachable wire type code")
      | some wt =>
        let id := 0xFFF &&& tagv
        match fieldById fields id with
        | some field => do
          let _ ← field.2.2.getWireType.check wt
          let (v, st) ← deValue o isOpt fuel field.2.2 true wt.getLengthFieldSize st
          let v := if isOpt structName field.1 then Value.opt (some v) else v
          let (rest, st) ← deTlvFields o isOpt fuel structName fields structLfs st
          .ok ((field.1, v) :: rest, st)
        | none =>
          match wt.getFixedSize with
          | some len => do
            let st ← st.discard len
            deTlvFields o isOpt fuel structName fields structLfs st
          | none =>
            match o.overwriteLfs structLfs with
            | none =>
              .error (.fatal "Require a length field size to deserialize unknown id")
            | some lfsize => do
              let (len, st) ← st.beginLds o wt.getLengthFieldSize lfsize
              let st ← st.discard len
              let st ← st.endLds
              deTlvFields o isOpt fuel structName fields structLfs st

end

/-- From de.rs: `from_slice` (via `from_internal`; the `debug_assertions`
verification is a no-op in release builds and is not modelled).  Unconsumed
trailing bytes are not an error at the top level.  `isOpt` carries the
optionality of TLV struct fields of the Rust target type and `fuel` bounds
the recursion (see `deValue`). -/
def fromSlice (o : SomeIpOptions) (isOpt : String → String → Bool)
    (t : SomeIpType) (fuel : Nat) (input : List Nat) : Except Error Value := do
  let (v, _) ← deValue o isOpt fuel t false none ⟨input, []⟩
  .ok v

/-- All list members map to pairwise distinct keys under `f`. -/
def distinctBy {α β : Type} (f : α → β) [BEq β] : List α → Bool
  | [] => true
  | x :: xs => !(xs.any (fun y => f y == f x)) && distinctBy f xs

/-- Every value of this type occupies at least one byte when serialized in a
non TLV position (sequence element or plain struct field): fixed size
primitives and enums always do, and otherwise either a length field is
present or the constant content is non empty.  Used as a round trip side
condition: a zero sized element makes the deserializer loops of de.rs lose
track of element counts. -/
def posSize (o : SomeIpOptions) : SomeIpType → Bool
  | .primitive _ => true
  | .enum _ _ _ => true
  | .string minSize maxSize _ => if minSize == maxSize then 0 < minSize else true
  | .sequence minElements maxElements elementType _ =>
    if (SomeIpType.sequence minElements maxElements elementType none).isConstSize then
      0 < minElements && posSize o elementType
    else true
  | .struct _ fields usesTlv isMessageWrapper lengthFieldSize =>
    if isMessageWrapper then fieldsPos fields
    else if usesTlv then true
    else if lengthFieldSize.isSome then true
    else fieldsPos fields
where
  /-- `fields.iter().any(..)`: some field always contributes a byte. -/
  fieldsPos : List SomeIpField → Bool
    | [] => false
    | f :: rest => posSize o f.2.2 || fieldsPos rest

/-- Is this schema type a message wrapper struct? -/
def isMsgWrapper : SomeIpType → Bool
  | .struct _ _ _ isMessageWrapper _ => isMessageWrapper
  | _ => false

/-- Is this schema type a TLV message wrapper struct?  Such a struct never
opens its own length delimited section, so its TLV field loop reads until
the whole enclosing reader is exhausted; it only round trips at the top
level of a message and is excluded from nested positions. -/
def isTlvWrapper : SomeIpType → Bool
  | .struct _ _ true true _ => true
  | _ => false

mutual

/-- The schema and value pair is safe for the serialize then deserialize
round trip.  The conditions spell out what holding a value of a Rust type
whose derived `SomeIp` schema is `t` already guarantees (primitive bit
patterns fit their width, the value shape matches the schema shape, field
counts agree, field names and TLV ids are distinct and ids fit the 12 tag
bits, enum values fit the raw type, `isOpt` agrees with the optional
values) together with the genuine restrictions under which the round trip
holds (distinct enum raw values, sequence elements of positive size, plain
struct fields of positive size when the struct carries a length field, no
message wrapper fields inside TLV structs). -/
def rtValid (o : SomeIpOptions) (isOpt : String → String → Bool) :
    Bool → SomeIpType → Value → Bool
  | _, .primitive .bool, .bool _ => true
  | _, .primitive p, .prim width bits =>
    p != .bool && width == p.getLen && bits < 2 ^ (8 * width)
  | _, .enum _ rawType values, .enumv variant =>
    (rawType != .bool && rawType != .f32 && rawType != .f64)
      && distinctBy (fun nv => nv.1) values && distinctBy (fun nv => nv.2) values
      && values.all (fun nv => nv.2 < 2 ^ (8 * rawType.getLen))
      && values.any (fun nv => nv.1 == variant)
  | _, .string _ _ _, .str _ => true
  | _, .sequence _ _ elementType _, .seq vs =>
    posSize o elementType
      && ! (isTlvWrapper elementType)
      && (match SomeIpType.maxLen o elementType false with
          | .ok _ => true
          | .error _ => false)
      && rtValidElems o isOpt elementType vs
  | inTlv, .struct name fields usesTlv isMessageWrapper lengthFieldSize, .vstruct vals =>
    distinctBy (fun f => f.1) fields
      && (if usesTlv then
            fields.all (fun f => match f.2.1 with
              | some id => decide (id < 0x1000)
              | none => false)
            && distinctBy (fun f => f.2.1) fields
            && fields.all (fun f => ! (isMsgWrapper f.2.2))
          else
            fields.all (fun f => ! (isTlvWrapper f.2.2))
            && match SomeIpType.wantedLengthField o
                (.struct name fields usesTlv isMessageWrapper lengthFieldSize) inTlv with
            | .ok (some _) => fields.all (fun f => posSize o f.2.2)
            | _ => true)
      && rtValidFields o isOpt name usesTlv fields vals
  | _, _, _ => false

/-- Element-wise validity for a sequence (elements are serialized outside
any TLV flag). -/
def rtValidElems (o : SomeIpOptions) (isOpt : String → String → Bool)
    (elementType : SomeIpType) : List Value → Bool
  | [] => true
  | v :: rest =>
    rtValid o isOpt false elementType v && rtValidElems o isOpt elementType rest

/-- Field-wise validity for a struct: the field count matches and every
value matches its field type in the struct's TLV flag context, with
`Option` values exactly at the fields `isOpt` declares optional (and only
in TLV structs). -/
def rtValidFields (o : SomeIpOptions) (isOpt : String → String → Bool)
    (structName : String) (usesTlv : Bool) :
    List SomeIpField → List Value → Bool
  | [], [] => true
  | [], _ :: _ => false
  | _ :: _, [] => false
  | f :: fr, v :: vr =>
    (if usesTlv && isOpt structName f.1 then
        match v with
        | .opt none => true
        | .opt (some inner) =>
          rtValid o isOpt usesTlv f.2.2 inner
            && (match inner with | .opt _ => false | _ => true)
        | _ => false
      else
        (match v with | .opt _ => false | _ => true)
          && rtValid o isOpt usesTlv f.2.2 v)
      && rtValidFields o isOpt structName usesTlv fr vr

end

mutual

/-- Enough deserializer fuel for this value (each `deValue`, `deSeqElems`,
`deStructFields` and `deTlvFields` entry burns one unit). -/
def valueFuel : Value → Nat
  | .bool _ => 1
  | .prim _ _ => 1
  | .str _ => 1
  | .enumv _ => 1
  | .seq vs => 1 + listFuel vs
  | .vstruct vals => 1 + listFuel vals
  | .opt none => 1
  | .opt (some v) => 1 + valueFuel v

/-- Fuel for a list of element or field values, one extra unit per loop
iteration plus one for the final emptiness check. -/
def listFuel : List Value → Nat
  | [] => 1
  | v :: rest => 1 + valueFuel v + listFuel rest

end

/-- The (name, value) pairs the TLV field loop of de.rs collects for a
serialized struct: one pair per declared field in declaration order, except
that `None` optional fields are absent from the wire. -/
def tlvPairs : List SomeIpField → List Value → List (String × Value)
  | _, [] => []
  | [], _ :: _ => []
  | f :: fr, v :: vr =>
    match v with
    | .opt none => tlvPairs fr vr
    | _ => (f.1, v) :: tlvPairs fr vr

/-- The bytes about to be read fit into the innermost open length delimited
section (or no section is open). -/
def secOk (n : Nat) : List Nat → Prop
  | [] => True
  | c :: _ => n ≤ c

/-- The innermost section counter after reading `n` bytes. -/
def secConsume (n : Nat) : List Nat → List Nat
  | [] => []
  | c :: rest => (c - n) :: rest

/-- The `next_length_field_size` values under which the deserializer reads
back a value serialized in the given TLV flag context: wherever the
(shared) `wanted_length_field` computation yields a configured width, the
serializer closed its section with the width recorded in
`last_length_field`, so the override must name exactly that width or be
absent when the configured width was used; without a wanted length field no
override may be pending. -/
def nlfsFits (o : SomeIpOptions) (t : SomeIpType) (isInTlv : Bool)
    (llfOut : Option (LengthFieldSize × Bool)) (nlfs : Option LengthFieldSize) : Prop :=
  match SomeIpType.wantedLengthField o t isInTlv with
  | .ok (some _) =>
    ∃ a c, llfOut = some (a, c) ∧ (nlfs = some a ∨ (nlfs = none ∧ c = true))
  | _ => nlfs = none

/-- The deserializer reads the serialized bytes of one value back: for
every sufficient fuel, fitting `next_length_field_size` override, trailing
bytes and section stack with room for the bytes, `deValue` returns the
value and consumes exactly the bytes (a TLV message wrapper reads to the
end of the reader, so it only round trips with nothing behind it). -/
def DeMatches (o : SomeIpOptions) (isOpt : String → String → Bool)
    (t : SomeIpType) (b : Bool) (llf : Option (LengthFieldSize × Bool))
    (B : List Nat) (rv : Value) : Prop :=
  ∀ fuel nlfs tail secs, valueFuel rv ≤ fuel → secOk B.length secs →
    nlfsFits o t b llf nlfs →
    (isTlvWrapper t = true → tail = [] ∧ secs = []) →
    deValue o isOpt fuel t b nlfs ⟨B ++ tail, secs⟩
      = .ok (rv, ⟨tail, secConsume B.length secs⟩)

/-- What a successful `serValue` run guarantees: it appended some bytes
`B` and closed every section it opened; in a non TLV position a constant
size type produced exactly `max_len` bytes and a positive size type at
least one byte; under a wanted length field the recorded
`last_length_field` holds the selected width (the configured one outside
TLV structs); and the deserializer reads `B` back to the value. -/
def SerOk (o : SomeIpOptions) (isOpt : String → String → Bool)
    (t : SomeIpType) (v : Value) (st st' : SerState) (b : Bool) : Prop :=
  ∃ B : List Nat,
    st'.buf = st.buf ++ B ∧
    st'.sections = st.sections ∧
    (b = false → SomeIpType.isConstSize t = true →
      SomeIpType.maxLen o t false = .ok B.length) ∧
    (b = false → posSize o t = true → isTlvWrapper t = false → 1 ≤ B.length) ∧
    (match SomeIpType.wantedLengthField o t b with
     | .ok (some cfg) =>
       ∃ a, st'.lastLengthField = some (a, a == cfg) ∧ (b = false → a = cfg)
     | _ => True) ∧
    DeMatches o isOpt t b st'.lastLengthField B v

/-- What a successful `serialize_element` loop guarantees: bytes appended
and sections preserved, with the byte count tracking the element count for
constant size and positive size element types, and the element loop of the
deserializer reading the elements back from a section holding exactly the
appended bytes. -/
def SerElemsOk (o : SomeIpOptions) (isOpt : String → String → Bool)
    (elementType : SomeIpType) (vs : List Value) (st st' : SerState) : Prop :=
  ∃ B : List Nat,
    st'.buf = st.buf ++ B ∧
    st'.sections = st.sections ∧
    (SomeIpType.isConstSize elementType = true →
      ∀ el, SomeIpType.maxLen o elementType false = .ok el →
        B.length = vs.length * el) ∧
    (posSize o elementType = true → vs.length ≤ B.length) ∧
    (∀ fuel count minE maxE tail rest, listFuel vs ≤ fuel →
      count + vs.length ≤ maxE →
      minE ≤ count + vs.length →
      deSeqElems o isOpt fuel elementType minE maxE count
        ⟨B ++ tail, B.length :: rest⟩
        = .ok (vs, ⟨tail, 0 :: rest⟩))

/-- What a successful `serialize_field` loop of a non TLV struct
guarantees: bytes appended and sections preserved, the byte count matching
the summed `max_len` for constant size fields and positive whenever some
field has positive size, and the struct field loop of the deserializer
reading the fields back, either inside a section holding exactly the
appended bytes (all fields of positive size) or with no section open. -/
def SerFieldsOk (o : SomeIpOptions) (isOpt : String → String → Bool)
    (allFields fields : List SomeIpField) (vals : List Value)
    (st st' : SerState) : Prop :=
  ∃ B : List Nat,
    st'.buf = st.buf ++ B ∧
    st'.sections = st.sections ∧
    (SomeIpType.isConstSize.fieldsConstSize fields = true →
      SomeIpType.maxLen.fieldsMaxLen o fields false = .ok B.length) ∧
    (posSize.fieldsPos o fields = true → 1 ≤ B.length) ∧
    (∀ fuel tail rest, listFuel vals ≤ fuel →
      fields.all (fun f => posSize o f.2.2) = true →
      deStructFields o isOpt fuel allFields fields true
        ⟨B ++ tail, B.length :: rest⟩
        = .ok (vals, ⟨tail, 0 :: rest⟩)) ∧
    (∀ fuel tail secs, listFuel vals ≤ fuel → secOk B.length secs →
      deStructFields o isOpt fuel allFields fields false ⟨B ++ tail, secs⟩
        = .ok (vals, ⟨tail, secConsume B.length secs⟩))

/-- What a successful `serialize_field` loop of a TLV struct guarantees:
bytes appended and sections preserved, and the TLV field loop of the
deserializer collecting exactly the (name, value) pairs of the present
fields, either from a section holding exactly the appended bytes or from
the end of a sectionless reader holding nothing else. -/
def SerTlvFieldsOk (o : SomeIpOptions) (isOpt : String → String → Bool)
    (name : String) (allFields fields : List SomeIpField) (vals : List Value)
    (st st' : SerState) : Prop :=
  ∃ B : List Nat,
    st'.buf = st.buf ++ B ∧
    st'.sections = st.sections ∧
    (∀ fuel structLfs tail rest, listFuel vals ≤ fuel →
      deTlvFields o isOpt fuel name allFields structLfs
        ⟨B ++ tail, B.length :: rest⟩
        = .ok (tlvPairs fields vals, ⟨tail, 0 :: rest⟩)) ∧
    (∀ fuel structLfs, listFuel vals ≤ fuel →
      deTlvFields o isOpt fuel name allFields structLfs ⟨B, []⟩
        = .ok (tlvPairs fields vals, ⟨[], []⟩))

deriving instance DecidableEq for Except

deriving instance Fintype for WireType

deriving instance Fintype for LengthFieldSize

/-! ## Concrete schemas used by the end-to-end claims -/

/-- The TLV test struct of ser.rs `test_struct_tlv`, which is the schema of
claim C2: fields `first: i16 (id 1)`, `second: u32 (id 2)`,
`third: Sequence(u8, min 1, max 5, one byte length field) (id 3)`, TLV, with
a two byte outer length field. -/
def tlvTestType : SomeIpType :=
  .struct "Test"
    [("first", some 1, .primitive .i16),
     ("second", some 2, .primitive .u32),
     ("third", some 3, .sequence 1 5 (.primitive .u8) (some .oneByte))]
    true false (some .twoBytes)

/-- The value of claim C2: `first = -1i16` (bits 0xFFFF), `second = 42u32`,
`third = vec![1, 2, 3]`. -/
def tlvTestValue : Value :=
  .vstruct [.prim 2 0xFFFF, .prim 4 42,
            .seq [.prim 1 1, .prim 1 2, .prim 1 3]]

/-- The value denoted by a little endian byte list. -/
def leVal : List Nat → Nat
  | [] => 0
  | b :: rest => b ||| (leVal rest <<< 8)

/-- The bytes written into a length field of the selected width, as
`write_at_previous_pos` serializes them (a raw byte for u8, `write_ux`
otherwise). -/
def lenBytes (o : SomeIpOptions) (actual : LengthFieldSize) (len : Nat) : List Nat :=
  match actual with
  | .oneByte => [len]
  | .twoBytes => uxBytes 2 len o.byteOrder
  | .fourBytes => uxBytes 4 len o.byteOrder

/-- The 26 u64 fields (ids 0 to 25) of the inner TLV struct used to refute
C10: the schema max length counts 8 bytes per field but the serialized
payload also carries a 2 byte tag per field, 260 bytes in total. -/
def c10InnerFields : List SomeIpField :=
  (List.range 26).map (fun i => ("f" ++ toString i, some i, SomeIpType.primitive .u64))

/-- Inner TLV struct with a one byte length field; its computed max length
is 209 so only one byte is reserved, but the real payload is 260 bytes. -/
def c10Inner : SomeIpType := .struct "U" c10InnerFields true false (some .oneByte)

/-- Outer TLV struct holding the inner struct as its only field. -/
def c10Outer : SomeIpType := .struct "T" [("u", some 0, c10Inner)] true false (some .oneByte)

/-- The value filling every field of the inner struct with a u64. -/
def c10Value : Value := .vstruct [.vstruct (List.replicate 26 (.prim 8 0))]

/-- Is this value anything but an absent optional (which leaves no bytes on
the wire)? -/
def notOptNone : Value → Bool
  | .opt none => false
  | _ => true

/-- An optionality oracle declaring no field optional. -/
def noOptFn : String → String → Bool := fun _ _ => false

/-- A sequence of empty (zero byte) structs: every element count serializes
to the same bytes. -/
def c1SeqT : SomeIpType := .sequence 0 5 (.struct "E" [] false false none) none

/-- Two empty struct elements. -/
def c1SeqV : Value := .seq [.vstruct [], .vstruct []]

/-- An enum with two variants sharing the raw value 0. -/
def c1EnumT : SomeIpType := .enum "E2" .u8 [("A", 0), ("B", 0)]

/-- A length delimited struct whose single field occupies zero bytes. -/
def c1StructT : SomeIpType :=
  .struct "S" [("x", none, .struct "E" [] false false none)] false false (some .oneByte)

/-! ## Claims -/

/-- C2 (counterexample): serializing the TLV test struct with default
options does NOT produce the claimed bytes
`00 10 10 01 FF FF 20 02 00 00 00 2A 40 03 03 01 02 03`: the tag of the
length delimited third field is not `40 03` (wire type 4).  With the default
`SERIALIZER_USE_LEGACY_WIRE_TYPE = false` the serializer always rewrites the
tag to the specific length delimited wire type, here 5 (tag `50 03`); the
crate's own test `test_struct_tlv` asserts the `50 03` bytes. -/
theorem claimC2_counterexample :
    toVec exampleOptions tlvTestType tlvTestValue ≠
      .ok [0x00, 0x10, 0x10, 0x01, 0xFF, 0xFF, 0x20, 0x02,
           0x00, 0x00, 0x00, 0x2A, 0x40, 0x03, 0x03, 0x01, 0x02, 0x03] := by
  decide

/-- C2 (amended): serializing the struct
`{first: i16 = -1, second: u32 = 42, third: Vec<u8> = [1,2,3]}` as a TLV
struct with field ids 1, 2, 3, an outer two byte length field, a one byte
length field on the sequence and default options produces exactly
`00 10 10 01 FF FF 20 02 00 00 00 2A 50 03 03 01 02 03`; in particular the
tag of the length delimited third field is `50 03`, i.e. wire type 5
(length delimited with one byte length field), not wire type 4. -/
theorem claimC2_amended :
    toVec exampleOptions tlvTestType tlvTestValue =
      .ok [0x00, 0x10, 0x10, 0x01, 0xFF, 0xFF, 0x20, 0x02,
           0x00, 0x00, 0x00, 0x2A, 0x50, 0x03, 0x03, 0x01, 0x02, 0x03] := by
  decide

/-- C4: for every pair of wire types, the TLV compatibility check succeeds
exactly when both are the same fixed size wire type (codes 0 to 3) or both
are length delimited wire types (codes 4 to 7, any combination); in every
other case it returns an `InvalidWireType` error naming the expected and the
actual wire type (their `Display` strings). -/
theorem claimC4 :
    ∀ a b : WireType,
      a.check b =
        if (a.getFixedSize.isSome && a == b)
            || (a.isLengthDelimited && b.isLengthDelimited) then
          .ok ()
        else
          .error (.invalidWireType a.display b.display) := by
  decide

/-- C7: for every input byte `b`, deserializing a bool with strict bools
enabled returns `InvalidBool b` when `b > 1` and otherwise returns `b == 1`;
with strict bools disabled it always succeeds, returning `false` for
`b == 0` and `true` for every non-zero byte. -/
theorem claimC7 (o : SomeIpOptions) (b : Nat) (rest : List Nat) (hb : b < 256) :
    (o.deserializerStrictBool = true → 1 < b →
      deserializeBool o ⟨b :: rest, []⟩ = .error (.invalidBool b)) ∧
    (o.deserializerStrictBool = true → b ≤ 1 →
      deserializeBool o ⟨b :: rest, []⟩ = .ok (b == 1, ⟨rest, []⟩)) ∧
    (o.deserializerStrictBool = false →
      deserializeBool o ⟨b :: rest, []⟩ = .ok (b != 0, ⟨rest, []⟩)) := by
  have hread : DeState.readU8 ⟨b :: rest, []⟩ = .ok (b, ⟨rest, []⟩) := by
    simp [DeState.readU8, DeState.readBytes, DeState.beforeRead, DeState.remaining,
      Except.bind, Bind.bind, Except.instMonad]
  refine ⟨?_, ?_, ?_⟩
  · intro hs h1
    simp [deserializeBool, hread, hs, h1, Nat.not_lt.mpr, bind, Except.bind]
  · intro hs h1
    have hb01 : b = 0 ∨ b = 1 := by omega
    rcases hb01 with h | h <;> subst h <;>
      simp [deserializeBool, hread, hs, bind, Except.bind]
  · intro hs
    simp [deserializeBool, hread, hs, bind, Except.bind]

/-- C7 witness: with strict bools and input byte 2 the concrete outcome is
`InvalidBool 2`. -/
theorem claimC7_witness :
    (2 < 256) ∧
    (((SomeIpOptions.mk .bigEndian false .utf8 false (some .fourBytes) none
        false .smallest true .discard).deserializerStrictBool = true → 1 < 2 →
      deserializeBool (SomeIpOptions.mk .bigEndian false .utf8 false
        (some .fourBytes) none false .smallest true .discard) ⟨2 :: [], []⟩ =
        .error (.invalidBool 2)) ∧
     ((SomeIpOptions.mk .bigEndian false .utf8 false (some .fourBytes) none
        false .smallest true .discard).deserializerStrictBool = true → 2 ≤ 1 →
      deserializeBool (SomeIpOptions.mk .bigEndian false .utf8 false
        (some .fourBytes) none false .smallest true .discard) ⟨2 :: [], []⟩ =
        .ok (2 == 1, ⟨[], []⟩)) ∧
     ((SomeIpOptions.mk .bigEndian false .utf8 false (some .fourBytes) none
        false .smallest true .discard).deserializerStrictBool = false →
      deserializeBool (SomeIpOptions.mk .bigEndian false .utf8 false
        (some .fourBytes) none false .smallest true .discard) ⟨2 :: [], []⟩ =
        .ok (2 != 0, ⟨[], []⟩))) :=
  ⟨by decide,
   claimC7 (SomeIpOptions.mk .bigEndian false .utf8 false (some .fourBytes) none
     false .smallest true .discard) 2 [] (by decide)⟩

/-- C5: during deserialization, every read of k bytes first checks the
innermost bounded section counter (or, with no open section, the reader's
total remaining bytes) and fails with TooShort when fewer than k bytes
remain, otherwise decrements that counter by k; closing a bounded section
pops its counter and returns NotAllBytesConsumed(remaining) when the
counter is not zero, and succeeds otherwise. -/
theorem claimC5 (st : DeState) (k : Nat) (hwf : st.remaining ≤ st.input.length) :
    (st.remaining < k → st.readBytes k = .error .tooShort) ∧
    (k ≤ st.remaining →
      st.readBytes k =
        .ok (st.input.take k,
          { input := st.input.drop k
            sections := match st.sections with
                        | [] => []
                        | v :: rest => (v - k) :: rest })) ∧
    (∀ c rest, st.sections = c :: rest →
      (c ≠ 0 → st.endLds = .error (.notAllBytesConsumed c)) ∧
      (c = 0 → st.endLds = .ok { st with sections := rest })) := by
  refine ⟨?_, ?_, ?_⟩
  · intro h
    simp [DeState.readBytes, DeState.beforeRead, h, Except.bind, Bind.bind,
      Except.instMonad]
  · intro h
    have h2 : ¬ st.remaining < k := Nat.not_lt.mpr h
    have h3 : ¬ st.input.length < k := by omega
    simp [DeState.readBytes, DeState.beforeRead, h2, h3, Except.bind, Bind.bind,
      Except.instMonad]
  · intro c rest hsec
    constructor <;> intro hc <;> simp [DeState.endLds, hsec, hc]

/-- C5 witness: on the concrete state with input `[1, 2, 3]` and one open
section of 2 remaining bytes, reading past the counter, reading within it,
and closing all behave as stated. -/
theorem claimC5_witness :
    ((⟨[1, 2, 3], [2]⟩ : DeState).remaining ≤ (⟨[1, 2, 3], [2]⟩ : DeState).input.length) ∧
    (((⟨[1, 2, 3], [2]⟩ : DeState).remaining < 1 →
      (⟨[1, 2, 3], [2]⟩ : DeState).readBytes 1 = .error .tooShort) ∧
     (1 ≤ (⟨[1, 2, 3], [2]⟩ : DeState).remaining →
      (⟨[1, 2, 3], [2]⟩ : DeState).readBytes 1 =
        .ok (([1, 2, 3] : List Nat).take 1,
          { input := ([1, 2, 3] : List Nat).drop 1
            sections := match ([2] : List Nat) with
                        | [] => []
                        | v :: rest => (v - 1) :: rest })) ∧
     (∀ c rest, ([2] : List Nat) = c :: rest →
      (c ≠ 0 → (⟨[1, 2, 3], [2]⟩ : DeState).endLds = .error (.notAllBytesConsumed c)) ∧
      (c = 0 → (⟨[1, 2, 3], [2]⟩ : DeState).endLds =
        .ok { (⟨[1, 2, 3], [2]⟩ : DeState) with sections := rest }))) :=
  ⟨by decide, claimC5 ⟨[1, 2, 3], [2]⟩ 1 (by decide)⟩

/-- C3: for every configured width and every measured length L up to
2^32 - 1, `minimum_length_for` returns the smallest width of 1, 2, 4 whose
unsigned maximum is at least L; when closing a length delimited region
inside a TLV struct the selected width is that minimum under the Smallest
policy and max(configured, minimum) under the AsConfigured policy; outside
TLV the selection returns the configured width if the minimum fits into it
and fails with TooLong otherwise. -/
theorem claimC3 (o : SomeIpOptions) (configured : LengthFieldSize) (L : Nat)
    (hL : L ≤ 4294967295) :
    ∃ m, LengthFieldSize.minimumLengthFor L = some m ∧
      L ≤ m.unsignedMax ∧
      (∀ w, L ≤ w.unsignedMax → m.ble w = true) ∧
      (o.serializerLengthFieldSizeSelection = .smallest →
        o.selectLengthFieldSize configured L true = .ok m) ∧
      (o.serializerLengthFieldSizeSelection = .asConfigured →
        o.selectLengthFieldSize configured L true = .ok (configured.bmax m)) ∧
      (o.selectLengthFieldSize configured L false =
        if m.ble configured then .ok configured
        else .error (.tooLong L configured)) := by
  have hsel : ∀ m : LengthFieldSize, LengthFieldSize.minimumLengthFor L = some m →
      (o.serializerLengthFieldSizeSelection = .smallest →
        o.selectLengthFieldSize configured L true = .ok m) ∧
      (o.serializerLengthFieldSizeSelection = .asConfigured →
        o.selectLengthFieldSize configured L true = .ok (configured.bmax m)) ∧
      (o.selectLengthFieldSize configured L false =
        if m.ble configured then .ok configured
        else .error (.tooLong L configured)) := by
    intro m hm
    refine ⟨?_, ?_, ?_⟩
    · intro hs
      simp [SomeIpOptions.selectLengthFieldSize, hm, hs]
    · intro hs
      simp only [SomeIpOptions.selectLengthFieldSize, hm, hs]
      cases m <;> cases configured <;>
        simp [LengthFieldSize.ble, LengthFieldSize.bmax]
    · simp only [SomeIpOptions.selectLengthFieldSize, hm]
      cases m <;> cases configured <;>
        simp [LengthFieldSize.ble, LengthFieldSize.blt]
  by_cases h1 : L ≤ 255
  · have hm : LengthFieldSize.minimumLengthFor L = some .oneByte := by
      simp [LengthFieldSize.minimumLengthFor, h1]
    refine ⟨.oneByte, hm, ?_, ?_, (hsel _ hm).1, (hsel _ hm).2.1, (hsel _ hm).2.2⟩
    · simpa [LengthFieldSize.unsignedMax] using h1
    · intro w hw; cases w <;> simp [LengthFieldSize.ble]
  · by_cases h2 : L ≤ 65535
    · have hm : LengthFieldSize.minimumLengthFor L = some .twoBytes := by
        simp [LengthFieldSize.minimumLengthFor, h1, h2]
      refine ⟨.twoBytes, hm, ?_, ?_, (hsel _ hm).1, (hsel _ hm).2.1, (hsel _ hm).2.2⟩
      · simpa [LengthFieldSize.unsignedMax] using h2
      · intro w hw
        cases w
        all_goals simp_all [LengthFieldSize.ble, LengthFieldSize.unsignedMax]
        all_goals omega
    · have hm : LengthFieldSize.minimumLengthFor L = some .fourBytes := by
        simp [LengthFieldSize.minimumLengthFor, h1, h2, hL]
      refine ⟨.fourBytes, hm, ?_, ?_, (hsel _ hm).1, (hsel _ hm).2.1, (hsel _ hm).2.2⟩
      · simpa [LengthFieldSize.unsignedMax] using hL
      · intro w hw
        cases w
        all_goals simp_all [LengthFieldSize.ble, LengthFieldSize.unsignedMax]
        all_goals omega

/-- C3 witness: at L = 300 with a configured width of one byte the minimum
width is two bytes, the Smallest policy picks it inside TLV, and outside TLV
the selection fails with TooLong. -/
theorem claimC3_witness :
    (300 ≤ 4294967295) ∧
    (∃ m, LengthFieldSize.minimumLengthFor 300 = some m ∧
      300 ≤ m.unsignedMax ∧
      (∀ w, 300 ≤ w.unsignedMax → m.ble w = true) ∧
      (exampleOptions.serializerLengthFieldSizeSelection = .smallest →
        exampleOptions.selectLengthFieldSize .oneByte 300 true = .ok m) ∧
      (exampleOptions.serializerLengthFieldSizeSelection = .asConfigured →
        exampleOptions.selectLengthFieldSize .oneByte 300 true =
          .ok (LengthFieldSize.bmax .oneByte m)) ∧
      (exampleOptions.selectLengthFieldSize .oneByte 300 false =
        if m.ble .oneByte then .ok .oneByte
        else .error (.tooLong 300 .oneByte))) :=
  ⟨by decide, claimC3 exampleOptions .oneByte 300 (by decide)⟩

/-- Shifting right distributes over bitwise or. -/
theorem lor_shiftRight (a b n : Nat) : (a ||| b) >>> n = (a >>> n) ||| (b >>> n) := by
  apply Nat.eq_of_testBit_eq
  intro i
  simp

/-- C8: tag disection ignores the reserved top bit: for every 16 bit tag t,
`disect_tag t` equals `disect_tag (t ||| 0x8000)`, and in general
`disect_tag` extracts only bits 14 to 12 as the wire type and bits 11 to 0
as the id, so a received tag with bit 15 set decodes exactly like the same
tag with bit 15 clear. -/
theorem claimC8 (t : Nat) (_ht : t < 65536) :
    WireType.disectTag (t ||| 0x8000) = WireType.disectTag t ∧
    WireType.disectTag t = (WireType.ofCode ((t / 4096) % 8), t % 4096) := by
  have hmask7 : ∀ x : Nat, x &&& 7 = x % 8 := by
    intro x
    have := Nat.and_pow_two_sub_one_eq_mod x 3
    norm_num at this
    exact this
  have hmask12 : ∀ x : Nat, x &&& 4095 = x % 4096 := by
    intro x
    have := Nat.and_pow_two_sub_one_eq_mod x 12
    norm_num at this
    exact this
  constructor
  · simp only [WireType.disectTag, WireType.ofU16, Prod.mk.injEq]
    constructor
    · congr 1
      rw [lor_shiftRight]
      have h8 : (0x8000 : Nat) >>> 12 = 8 := by decide
      rw [h8, Nat.and_distrib_right]
      have h0 : (8 : Nat) &&& 7 = 0 := by decide
      rw [h0, Nat.or_zero]
    · rw [Nat.and_comm 0xFFF (t ||| 0x8000), Nat.and_distrib_right]
      have h0 : (0x8000 : Nat) &&& 0xFFF = 0 := by decide
      rw [h0, Nat.or_zero, Nat.and_comm]
  · simp only [WireType.disectTag, WireType.ofU16, Prod.mk.injEq]
    constructor
    · congr 1
      rw [Nat.shiftRight_eq_div_pow]
      have h7 : (t / 2 ^ 12) &&& 7 = (t / 2 ^ 12) % 8 := hmask7 _
      norm_num at h7 ⊢
      exact h7
    · rw [Nat.and_comm]
      have h12 := hmask12 t
      norm_num at h12 ⊢
      exact h12

/-- C8 witness: the concrete tag 0x1234 decodes identically with and without
bit 15 set, with wire type code 1 and id 0x234. -/
theorem claimC8_witness :
    (0x1234 < 65536) ∧
    (WireType.disectTag (0x1234 ||| 0x8000) = WireType.disectTag 0x1234 ∧
     WireType.disectTag 0x1234 =
       (WireType.ofCode ((0x1234 / 4096) % 8), 0x1234 % 4096)) :=
  ⟨by decide, claimC8 0x1234 (by decide)⟩

/-- Shifting left distributes over bitwise or. -/
theorem lor_shiftLeft (a b n : Nat) : (a ||| b) <<< n = (a <<< n) ||| (b <<< n) := by
  apply Nat.eq_of_testBit_eq
  intro i
  simp [Nat.testBit_shiftLeft]
  by_cases h : n ≤ i <;> simp [h]

/-- Or of a shifted value and a small value is their sum. -/
theorem shl_or_eq_add (y x n : Nat) (hx : x < 2 ^ n) :
    (y <<< n) ||| x = y * 2 ^ n + x := by
  rw [Nat.shiftLeft_eq, Nat.mul_comm y (2 ^ n)]
  exact (Nat.mul_add_lt_is_or hx y).symm

/-- Or of a small value and a shifted value is their sum. -/
theorem or_shl_eq_add (x y n : Nat) (hx : x < 2 ^ n) :
    x ||| (y <<< n) = y * 2 ^ n + x := by
  rw [Nat.lor_comm]
  exact shl_or_eq_add y x n hx

/-- A masked byte in div/mod form. -/
theorem shiftRight_and_255 (x k : Nat) : (x >>> k) &&& 255 = x / 2 ^ k % 256 := by
  rw [Nat.shiftRight_eq_div_pow]
  have := Nat.and_pow_two_sub_one_eq_mod (x / 2 ^ k) 8
  norm_num at this
  exact this


theorem enumFrom_foldl_lor (bs : List Nat) :
    ∀ k res, (bs.enumFrom k).foldl (fun res ib => res ||| (ib.2 <<< (ib.1 * 8))) res
      = res ||| (leVal bs <<< (k * 8)) := by
  induction bs with
  | nil => intro k res; simp [leVal]
  | cons b rest ih =>
    intro k res
    simp only [List.enumFrom, List.foldl, leVal]
    rw [ih (k + 1) (res ||| b <<< (k * 8))]
    rw [lor_shiftLeft, ← Nat.shiftLeft_add, Nat.lor_assoc]
    have : 8 + k * 8 = (k + 1) * 8 := by ring
    rw [this]

/-- `parseUx` is the value of the byte list for little endian input. -/
theorem parseUx_le (bs : List Nat) : parseUx .littleEndian bs = leVal bs := by
  simp only [parseUx, List.enum]
  rw [enumFrom_foldl_lor bs 0 0]
  simp

/-- The big endian byte list of a wider value peels off its last byte. -/
theorem uxBytes_be_succ (n data : Nat) :
    uxBytes (n + 1) data .bigEndian
      = uxBytes n (data >>> 8) .bigEndian ++ [data &&& 255] := by
  simp only [uxBytes, List.range_succ, List.map_append, List.map]
  congr 1
  · apply List.map_congr_left
    intro i hi
    have hlt : i < n := List.mem_range.mp hi
    rw [← Nat.shiftRight_add]
    have he : 8 * (n + 1 - i - 1) = 8 + 8 * (n - i - 1) := by omega
    rw [he]
  · simp

/-- The little endian byte list of a wider value peels off its first byte. -/
theorem uxBytes_le_succ (n data : Nat) :
    uxBytes (n + 1) data .littleEndian
      = (data &&& 255) :: uxBytes n (data >>> 8) .littleEndian := by
  simp only [uxBytes, List.range_succ_eq_map, List.map]
  congr 1
  rw [List.map_map]
  apply List.map_congr_left
  intro i _
  simp only [Function.comp_apply]
  rw [← Nat.shiftRight_add]
  have he : 8 * Nat.succ i = 8 + 8 * i := by omega
  rw [he]

/-- Parsing the emitted bytes of a value below the width bound returns the
value, for every byte width and byte order (`read_ux` inverts `write_ux`). -/
theorem parseUx_uxBytes (bo : ByteOrder) (size data : Nat) (h : data < 2 ^ (8 * size)) :
    parseUx bo (uxBytes size data bo) = data := by
  induction size generalizing data with
  | zero =>
    have : data = 0 := by omega
    subst this
    cases bo <;> simp [parseUx, uxBytes, leVal]
  | succ n ih =>
    have hdiv : data >>> 8 < 2 ^ (8 * n) := by
      rw [Nat.shiftRight_eq_div_pow]
      have h2 : data < 2 ^ (8 * n) * 2 ^ 8 := by
        have : 8 * (n + 1) = 8 * n + 8 := by ring
        rw [this, pow_add] at h
        exact h
      exact Nat.div_lt_of_lt_mul (by omega)
    have hmod : data &&& 255 < 256 := by
      have := shiftRight_and_255 data 0
      simp at this
      rw [this]
      omega
    cases bo with
    | bigEndian =>
      rw [uxBytes_be_succ]
      simp only [parseUx] at ih ⊢
      rw [List.foldl_append]
      simp only [List.foldl]
      rw [ih (data >>> 8) hdiv]
      rw [shl_or_eq_add _ _ 8 (by simpa using hmod)]
      have h0 := shiftRight_and_255 data 0
      simp at h0
      rw [h0, Nat.shiftRight_eq_div_pow]
      norm_num
      omega
    | littleEndian =>
      rw [uxBytes_le_succ, parseUx_le, leVal]
      rw [← parseUx_le, ih (data >>> 8) hdiv]
      rw [or_shl_eq_add _ _ 8 (by simpa using hmod)]
      have h0 := shiftRight_and_255 data 0
      simp at h0
      rw [h0, Nat.shiftRight_eq_div_pow]
      norm_num
      omega

/-- `write_ux` emits exactly `size` bytes. -/
theorem uxBytes_length (size data : Nat) (bo : ByteOrder) :
    (uxBytes size data bo).length = size := by
  cases bo <;> simp [uxBytes]

/-- A successful in-bounds read: the checked bytes are split off the input
and the innermost section counter is decremented. -/
theorem readBytes_ok (st : DeState) (k : Nat) (hk : k ≤ st.remaining)
    (hki : k ≤ st.input.length) :
    st.readBytes k = .ok (st.input.take k,
      { input := st.input.drop k
        sections := match st.sections with
                    | [] => []
                    | v :: rest => (v - k) :: rest }) := by
  have h2 : ¬ st.remaining < k := Nat.not_lt.mpr hk
  have h3 : ¬ st.input.length < k := Nat.not_lt.mpr hki
  simp [DeState.readBytes, DeState.beforeRead, h2, h3, Except.bind, Bind.bind,
    Except.instMonad]

/-- C9: opening a nested length delimited section charges its entire
declared length against the enclosing section's counter (or the whole
input's remaining bytes) at open time: when the length L read from the
nested length field exceeds what remains in the enclosing section, the
deserializer fails with TooShort immediately at section open; on success the
enclosing counter is charged by L, the new section of L bytes is pushed, and
none of the payload bytes has been consumed. -/
theorem claimC9 (o : SomeIpOptions) (st : DeState) (lfs : LengthFieldSize) (L : Nat)
    (payload : List Nat)
    (hinput : st.input = uxBytes lfs.toBytes L o.byteOrder ++ payload)
    (hL : L < 2 ^ (8 * lfs.toBytes))
    (hw : lfs.toBytes ≤ st.remaining) (hwf : st.remaining ≤ st.input.length) :
    (st.remaining - lfs.toBytes < L →
      st.beginLds o none lfs = .error .tooShort) ∧
    (L ≤ st.remaining - lfs.toBytes →
      st.beginLds o none lfs =
        .ok (L, ⟨payload, L :: (match st.sections with
                              | [] => []
                              | c :: rest => (c - lfs.toBytes - L) :: rest)⟩)) := by
  have hki : lfs.toBytes ≤ st.input.length := le_trans hw hwf
  have hA := readBytes_ok st lfs.toBytes hw hki
  have hlen := uxBytes_length lfs.toBytes L o.byteOrder
  have htake : st.input.take lfs.toBytes = uxBytes lfs.toBytes L o.byteOrder := by
    rw [hinput]; exact List.take_left' hlen
  have hdrop : st.input.drop lfs.toBytes = payload := by
    rw [hinput]; exact List.drop_left' hlen
  rw [htake, hdrop] at hA
  have hil : st.input.length = lfs.toBytes + payload.length := by
    rw [hinput]; simp [hlen]
  have hrem : (DeState.remaining ⟨payload, match st.sections with
      | [] => []
      | v :: rest => (v - lfs.toBytes) :: rest⟩) = st.remaining - lfs.toBytes := by
    cases hsec : st.sections with
    | nil =>
      simp [DeState.remaining, hsec]
      omega
    | cons c rest =>
      simp [DeState.remaining, hsec]
  cases lfs with
  | oneByte =>
    simp only [LengthFieldSize.toBytes] at hA hL hrem ⊢
    have hL8 : L < 256 := by simpa using hL
    have h255 : L &&& 255 = L := by
      have h0 := shiftRight_and_255 L 0
      simp at h0
      omega
    have hone : uxBytes 1 L o.byteOrder = [L] := by
      cases o.byteOrder <;> simp [uxBytes, h255, show List.range 1 = [0] from rfl]
    rw [hone] at hA
    have hread : st.readU8 = .ok (L, ⟨payload, match st.sections with
        | [] => []
        | v :: rest => (v - 1) :: rest⟩) := by
      simp [DeState.readU8, hA, Except.bind, Bind.bind, Except.instMonad]
    constructor
    · intro hshort
      have hlt : (DeState.remaining ⟨payload, match st.sections with
          | [] => []
          | v :: rest => (v - 1) :: rest⟩) < L := by rw [hrem]; exact hshort
      simp [DeState.beginLds, hread, DeState.beginKnownLds, DeState.beforeRead, hlt,
        Except.bind, Bind.bind, Except.instMonad]
    · intro hfit
      have hge : ¬ (DeState.remaining ⟨payload, match st.sections with
          | [] => []
          | v :: rest => (v - 1) :: rest⟩) < L := by
        rw [hrem]; exact Nat.not_lt.mpr hfit
      simp [DeState.beginLds, hread, DeState.beginKnownLds, DeState.beforeRead, hge,
        Except.bind, Bind.bind, Except.instMonad]
      cases hsec : st.sections <;> simp [hsec]
  | twoBytes =>
    simp only [LengthFieldSize.toBytes] at hA hL hrem ⊢
    have hread : st.readUx o.byteOrder 2 = .ok (L, ⟨payload, match st.sections with
        | [] => []
        | v :: rest => (v - 2) :: rest⟩) := by
      simp [DeState.readUx, hA, parseUx_uxBytes o.byteOrder 2 L (by simpa using hL),
        Except.bind, Bind.bind, Except.instMonad]
    constructor
    · intro hshort
      have hlt : (DeState.remaining ⟨payload, match st.sections with
          | [] => []
          | v :: rest => (v - 2) :: rest⟩) < L := by rw [hrem]; exact hshort
      simp [DeState.beginLds, hread, DeState.beginKnownLds, DeState.beforeRead, hlt,
        Except.bind, Bind.bind, Except.instMonad]
    · intro hfit
      have hge : ¬ (DeState.remaining ⟨payload, match st.sections with
          | [] => []
          | v :: rest => (v - 2) :: rest⟩) < L := by
        rw [hrem]; exact Nat.not_lt.mpr hfit
      simp [DeState.beginLds, hread, DeState.beginKnownLds, DeState.beforeRead, hge,
        Except.bind, Bind.bind, Except.instMonad]
      cases hsec : st.sections <;> simp [hsec]
  | fourBytes =>
    simp only [LengthFieldSize.toBytes] at hA hL hrem ⊢
    have hread : st.readUx o.byteOrder 4 = .ok (L, ⟨payload, match st.sections with
        | [] => []
        | v :: rest => (v - 4) :: rest⟩) := by
      simp [DeState.readUx, hA, parseUx_uxBytes o.byteOrder 4 L (by simpa using hL),
        Except.bind, Bind.bind, Except.instMonad]
    constructor
    · intro hshort
      have hlt : (DeState.remaining ⟨payload, match st.sections with
          | [] => []
          | v :: rest => (v - 4) :: rest⟩) < L := by rw [hrem]; exact hshort
      simp [DeState.beginLds, hread, DeState.beginKnownLds, DeState.beforeRead, hlt,
        Except.bind, Bind.bind, Except.instMonad]
    · intro hfit
      have hge : ¬ (DeState.remaining ⟨payload, match st.sections with
          | [] => []
          | v :: rest => (v - 4) :: rest⟩) < L := by
        rw [hrem]; exact Nat.not_lt.mpr hfit
      simp [DeState.beginLds, hread, DeState.beginKnownLds, DeState.beforeRead, hge,
        Except.bind, Bind.bind, Except.instMonad]
      cases hsec : st.sections <;> simp [hsec]

/-- C9 witness: with an enclosing section of 3 remaining bytes and a one
byte length field declaring 4 bytes (more than the 2 that remain after the
length field), the open itself fails with TooShort; the bound 4 > 3 - 1. -/
theorem claimC9_witness :
    ((⟨[4, 9, 9], [3]⟩ : DeState).input = uxBytes (LengthFieldSize.toBytes .oneByte) 4
        exampleOptions.byteOrder ++ [9, 9]) ∧
    (4 < 2 ^ (8 * LengthFieldSize.toBytes .oneByte)) ∧
    (LengthFieldSize.toBytes .oneByte ≤ (⟨[4, 9, 9], [3]⟩ : DeState).remaining) ∧
    ((⟨[4, 9, 9], [3]⟩ : DeState).remaining ≤ (⟨[4, 9, 9], [3]⟩ : DeState).input.length) ∧
    (((⟨[4, 9, 9], [3]⟩ : DeState).remaining - LengthFieldSize.toBytes .oneByte < 4 →
      (⟨[4, 9, 9], [3]⟩ : DeState).beginLds exampleOptions none .oneByte =
        .error .tooShort) ∧
     (4 ≤ (⟨[4, 9, 9], [3]⟩ : DeState).remaining - LengthFieldSize.toBytes .oneByte →
      (⟨[4, 9, 9], [3]⟩ : DeState).beginLds exampleOptions none .oneByte =
        .ok (4, { input := [9, 9]
                  sections := 4 :: (match ([3] : List Nat) with
                                    | [] => []
                                    | c :: rest =>
                                      (c - LengthFieldSize.toBytes .oneByte - 4) :: rest) }))) :=
  ⟨by decide, by decide, by decide, by decide,
   claimC9 exampleOptions ⟨[4, 9, 9], [3]⟩ .oneByte 4 [9, 9] (by decide) (by decide)
     (by decide) (by decide)⟩

/-! ## Order facts on LengthFieldSize and the close of a length section -/

theorem ble_refl : ∀ a : LengthFieldSize, a.ble a = true := by decide

theorem ble_trans : ∀ a b c : LengthFieldSize,
    a.ble b = true → b.ble c = true → a.ble c = true := by decide

theorem ble_total : ∀ a b : LengthFieldSize,
    a.ble b = true ∨ b.ble a = true := by decide

theorem blt_of_ble_ne : ∀ a b : LengthFieldSize,
    a.ble b = true → a ≠ b → a.blt b = true := by decide

theorem ble_bmax_left : ∀ a b : LengthFieldSize, a.ble (a.bmax b) = true := by decide

theorem ble_bmax_right : ∀ a b : LengthFieldSize, b.ble (a.bmax b) = true := by decide

theorem bmax_ble : ∀ a b c : LengthFieldSize,
    a.ble c = true → b.ble c = true → (a.bmax b).ble c = true := by decide

theorem unsignedMax_mono : ∀ a b : LengthFieldSize,
    a.ble b = true → a.unsignedMax ≤ b.unsignedMax := by decide

theorem toBytes_le_of_ble : ∀ a b : LengthFieldSize,
    a.ble b = true → a.toBytes ≤ b.toBytes := by decide

/-- `minimum_length_for` succeeds below the u32 bound and yields the
smallest width whose maximum is at least the length. -/
theorem minimumLengthFor_ok (len : Nat) (h : len ≤ 4294967295) :
    ∃ m, LengthFieldSize.minimumLengthFor len = some m ∧
      len ≤ m.unsignedMax ∧ (∀ w, len ≤ w.unsignedMax → m.ble w = true) := by
  by_cases h1 : len ≤ 255
  · exact ⟨.oneByte, by simp [LengthFieldSize.minimumLengthFor, h1],
      by simpa [LengthFieldSize.unsignedMax] using h1,
      by intro w _; cases w <;> simp [LengthFieldSize.ble]⟩
  · by_cases h2 : len ≤ 65535
    · refine ⟨.twoBytes, by simp [LengthFieldSize.minimumLengthFor, h1, h2],
        by simpa [LengthFieldSize.unsignedMax] using h2, ?_⟩
      intro w hw
      cases w
      all_goals simp_all [LengthFieldSize.ble, LengthFieldSize.unsignedMax]
      all_goals omega
    · refine ⟨.fourBytes, by simp [LengthFieldSize.minimumLengthFor, h1, h2, h],
        by simpa [LengthFieldSize.unsignedMax] using h, ?_⟩
      intro w hw
      cases w
      all_goals simp_all [LengthFieldSize.ble, LengthFieldSize.unsignedMax]
      all_goals omega

/-- `minimum_length_for` is monotone in the length. -/
theorem minimumLengthFor_mono (a b : Nat) (hab : a ≤ b) (m : LengthFieldSize)
    (hm : LengthFieldSize.minimumLengthFor b = some m) :
    ∃ m', LengthFieldSize.minimumLengthFor a = some m' ∧ m'.ble m = true := by
  have hb : b ≤ 4294967295 := by
    by_contra hc
    push_neg at hc
    have hnone : LengthFieldSize.minimumLengthFor b = none := by
      unfold LengthFieldSize.minimumLengthFor
      rw [if_neg (by omega), if_neg (by omega), if_neg (by omega)]
    rw [hnone] at hm
    exact Option.noConfusion hm
  obtain ⟨mb, hmb, hmb1, hmb2⟩ := minimumLengthFor_ok b hb
  rw [hmb] at hm
  have he : mb = m := Option.some.inj hm
  subst he
  obtain ⟨ma, hma, hma1, hma2⟩ := minimumLengthFor_ok a (le_trans hab hb)
  exact ⟨ma, hma, hma2 mb (le_trans hab hmb1)⟩


theorem lenBytes_length (o : SomeIpOptions) (actual : LengthFieldSize) (len : Nat) :
    (lenBytes o actual len).length = actual.toBytes := by
  cases actual <;> simp [lenBytes, uxBytes_length, LengthFieldSize.toBytes]

/-- `write_at_previous_pos` on an in-range position overwrites in place. -/
theorem writeAtPreviousPos_eq (pos : Nat) (bytes : List Nat) (st : SerState)
    (hp : pos < st.buf.length) :
    st.writeAtPreviousPos pos bytes =
      .ok { st with buf := st.buf.take pos ++ bytes ++ st.buf.drop (pos + bytes.length) } := by
  simp [SerState.writeAtPreviousPos, hp]

/-- Closing a section succeeds and back-patches the length field whenever
the width selection succeeds with a width no larger than the reservation and
the measured length fits the selected width; the final buffer is the prefix
before the section, the length bytes at the selected width, and the payload
shifted next to them. -/
theorem endLds_ok (o : SomeIpOptions) (st : SerState)
    (configured reserved actual : LengthFieldSize)
    (pos : Nat) (rest : List (Nat × LengthFieldSize × Bool)) (wasInTlv : Bool)
    (hsec : st.sections = (pos, reserved, wasInTlv) :: rest)
    (hpos : pos + reserved.toBytes ≤ st.buf.length)
    (hsel : o.selectLengthFieldSize configured
      (st.buf.length - pos - reserved.toBytes) wasInTlv = .ok actual)
    (hble : actual.ble reserved = true)
    (hfits : st.buf.length - pos - reserved.toBytes ≤ actual.unsignedMax) :
    st.endLds o configured = .ok
      { buf := st.buf.take pos
          ++ lenBytes o actual (st.buf.length - pos - reserved.toBytes)
          ++ st.buf.drop (pos + reserved.toBytes)
        isInTlvStruct := st.isInTlvStruct
        lastLengthField := some (actual, actual == configured)
        sections := rest } := by
  obtain ⟨buf, tlv, llf, secs⟩ := st
  simp only [SerState.sections] at hsec
  subst hsec
  simp only at hpos hsel hfits ⊢
  simp only [SerState.endLds]
  rw [hsel]
  simp only [Except.bind, Bind.bind, Except.instMonad]
  have hares : actual.toBytes ≤ reserved.toBytes := toBytes_le_of_ble _ _ hble
  have ha1 : 1 ≤ actual.toBytes := by cases actual <;> simp [LengthFieldSize.toBytes]
  by_cases heq : actual = reserved
  · subst heq
    rw [if_neg (show ¬ actual ≠ actual from fun hc => hc rfl)]
    have hwp := writeAtPreviousPos_eq pos
      (lenBytes o actual (buf.length - pos - actual.toBytes))
      ⟨buf, tlv, some (actual, actual == configured), rest⟩
      (by simp only [SerState.buf]; omega)
    rw [lenBytes_length] at hwp
    cases actual with
    | oneByte =>
      dsimp only
      simp only [LengthFieldSize.unsignedMax, LengthFieldSize.toBytes] at hfits hwp ⊢
      rw [if_neg (by omega)]
      rw [show [buf.length - pos - 1] = lenBytes o .oneByte (buf.length - pos - 1) from rfl]
      rw [hwp]
    | twoBytes =>
      dsimp only
      simp only [LengthFieldSize.unsignedMax, LengthFieldSize.toBytes] at hfits hwp ⊢
      rw [if_neg (by omega)]
      rw [show uxBytes 2 (buf.length - pos - 2) o.byteOrder
        = lenBytes o .twoBytes (buf.length - pos - 2) from rfl]
      rw [hwp]
    | fourBytes =>
      dsimp only
      simp only [LengthFieldSize.unsignedMax, LengthFieldSize.toBytes] at hfits hwp ⊢
      rw [if_neg (by omega)]
      rw [show uxBytes 4 (buf.length - pos - 4) o.byteOrder
        = lenBytes o .fourBytes (buf.length - pos - 4) from rfl]
      rw [hwp]
  · have hblt : actual.blt reserved = true := blt_of_ble_ne _ _ hble heq
    rw [if_pos heq, hblt]
    simp only [if_pos]
    have htk : (buf.take (pos + actual.toBytes)).length = pos + actual.toBytes := by
      rw [List.length_take]
      exact Nat.min_eq_left (by omega)
    have hmid : ∀ bytes : List Nat, bytes.length = actual.toBytes →
        (buf.take (pos + actual.toBytes) ++ buf.drop (pos + reserved.toBytes)).take pos
          ++ bytes
          ++ (buf.take (pos + actual.toBytes)
              ++ buf.drop (pos + reserved.toBytes)).drop (pos + bytes.length)
        = buf.take pos ++ bytes ++ buf.drop (pos + reserved.toBytes) := by
      intro bytes hb
      congr 1
      · congr 1
        rw [List.take_append_of_le_length (by omega : pos ≤ (buf.take (pos + actual.toBytes)).length)]
        rw [List.take_take, Nat.min_eq_left (by omega)]
      · rw [hb, List.drop_left' htk]
    have hwp := writeAtPreviousPos_eq pos
      (lenBytes o actual (buf.length - pos - reserved.toBytes))
      ⟨buf.take (pos + actual.toBytes) ++ buf.drop (pos + reserved.toBytes),
       tlv, some (actual, actual == configured), rest⟩
      (by
        simp only [SerState.buf, List.length_append, htk, List.length_drop]
        omega)
    rw [lenBytes_length] at hwp
    have hmid2 := hmid (lenBytes o actual (buf.length - pos - reserved.toBytes))
      (lenBytes_length o actual _)
    rw [lenBytes_length] at hmid2
    cases actual with
    | oneByte =>
      dsimp only
      simp only [LengthFieldSize.unsignedMax] at hfits
      rw [if_neg (by omega)]
      rw [show [buf.length - pos - reserved.toBytes]
        = lenBytes o .oneByte (buf.length - pos - reserved.toBytes) from rfl]
      rw [hwp, hmid2]
    | twoBytes =>
      dsimp only
      simp only [LengthFieldSize.unsignedMax] at hfits
      rw [if_neg (by omega)]
      rw [show uxBytes 2 (buf.length - pos - reserved.toBytes) o.byteOrder
        = lenBytes o .twoBytes (buf.length - pos - reserved.toBytes) from rfl]
      rw [hwp, hmid2]
    | fourBytes =>
      dsimp only
      simp only [LengthFieldSize.unsignedMax] at hfits
      rw [if_neg (by omega)]
      rw [show uxBytes 4 (buf.length - pos - reserved.toBytes) o.byteOrder
        = lenBytes o .fourBytes (buf.length - pos - reserved.toBytes) from rfl]
      rw [hwp, hmid2]

/-- Closing a section hits the reservation assertion (a Rust panic) when the
selected width exceeds the reserved width. -/
theorem endLds_assert (o : SomeIpOptions) (st : SerState)
    (configured reserved actual : LengthFieldSize)
    (pos : Nat) (rest : List (Nat × LengthFieldSize × Bool)) (wasInTlv : Bool)
    (hsec : st.sections = (pos, reserved, wasInTlv) :: rest)
    (hsel : o.selectLengthFieldSize configured
      (st.buf.length - pos - reserved.toBytes) wasInTlv = .ok actual)
    (hne : actual ≠ reserved) (hnblt : actual.blt reserved = false) :
    st.endLds o configured = .error (.fatal "assertion failed: reserved > actual") := by
  obtain ⟨buf, tlv, llf, secs⟩ := st
  simp only [SerState.sections] at hsec
  subst hsec
  simp only at hsel ⊢
  simp only [SerState.endLds]
  rw [hsel]
  simp only [Except.bind, Bind.bind, Except.instMonad]
  rw [if_pos hne, hnblt]
  cases actual <;> simp


set_option maxRecDepth 100000 in
/-- C10 (counterexample): the close of a length delimited section opened
inside a TLV struct under the Smallest policy does NOT always succeed: with
the nested TLV struct above (measured length 260, well below 2^32 - 1) the
serializer reserved one byte (from the computed max length 209) but the
Smallest policy selects two bytes, and the close fails on the
`assert!(reserved > actual)` panic of `end_length_delimited_section` -- the
public `to_vec` entry point panics on this schema and value. -/
theorem claimC10_counterexample :
    toVec exampleOptions c10Outer c10Value =
      .error (.fatal "assertion failed: reserved > actual") := by
  decide

/-- C10 (amended): when closing a length delimited section that was opened
inside a TLV struct under the Smallest width selection policy, the TooLong
error branch of the close is unreachable for every measured length up to
2^32 - 1: the selected width is always the minimal width representing the
measured length, so the length always fits the written field; the close
succeeds whenever that minimal width does not exceed the reserved width (and
otherwise panics on the reservation assertion, it still never returns
TooLong). -/
theorem claimC10_amended (o : SomeIpOptions) (st : SerState)
    (configured reserved : LengthFieldSize) (pos : Nat)
    (rest : List (Nat × LengthFieldSize × Bool))
    (hsec : st.sections = (pos, reserved, true) :: rest)
    (hpolicy : o.serializerLengthFieldSizeSelection = .smallest)
    (hpos : pos + reserved.toBytes ≤ st.buf.length)
    (hlen : st.buf.length - pos - reserved.toBytes ≤ 4294967295) :
    ∃ m, LengthFieldSize.minimumLengthFor (st.buf.length - pos - reserved.toBytes) = some m ∧
      o.selectLengthFieldSize configured (st.buf.length - pos - reserved.toBytes) true = .ok m ∧
      (∀ n lf, st.endLds o configured ≠ .error (.tooLong n lf)) ∧
      (m.ble reserved = true → ∃ st2, st.endLds o configured = .ok st2) := by
  obtain ⟨m, hm, hm1, hm2⟩ := minimumLengthFor_ok _ hlen
  have hsel : o.selectLengthFieldSize configured
      (st.buf.length - pos - reserved.toBytes) true = .ok m := by
    simp [SomeIpOptions.selectLengthFieldSize, hm, hpolicy]
  refine ⟨m, hm, hsel, ?_, ?_⟩
  · intro n lf
    by_cases hble : m.ble reserved = true
    · rw [endLds_ok o st configured reserved m pos rest true hsec hpos hsel hble hm1]
      simp
    · have hne : m ≠ reserved := fun hc => hble (hc ▸ ble_refl m)
      have hnblt : m.blt reserved = false := by
        rcases ble_total m reserved with h | h
        · exact absurd h hble
        · simp [LengthFieldSize.blt, h]
      rw [endLds_assert o st configured reserved m pos rest true hsec hsel hne hnblt]
      simp
  · intro hble
    exact ⟨_, endLds_ok o st configured reserved m pos rest true hsec hpos hsel hble hm1⟩

/-- C10 witness: closing a two byte reservation over a 3 byte payload under
the Smallest policy picks the one byte width and succeeds. -/
theorem claimC10_witness :
    ((⟨[0, 0, 7, 7, 7], false, none, [(0, .twoBytes, true)]⟩ : SerState).sections
        = (0, .twoBytes, true) :: []) ∧
    (exampleOptions.serializerLengthFieldSizeSelection = .smallest) ∧
    (0 + LengthFieldSize.toBytes .twoBytes
      ≤ (⟨[0, 0, 7, 7, 7], false, none, [(0, .twoBytes, true)]⟩ : SerState).buf.length) ∧
    ((⟨[0, 0, 7, 7, 7], false, none, [(0, .twoBytes, true)]⟩ : SerState).buf.length - 0
        - LengthFieldSize.toBytes .twoBytes ≤ 4294967295) ∧
    (∃ m, LengthFieldSize.minimumLengthFor
        ((⟨[0, 0, 7, 7, 7], false, none, [(0, .twoBytes, true)]⟩ : SerState).buf.length - 0
          - LengthFieldSize.toBytes .twoBytes) = some m ∧
      exampleOptions.selectLengthFieldSize .twoBytes
        ((⟨[0, 0, 7, 7, 7], false, none, [(0, .twoBytes, true)]⟩ : SerState).buf.length - 0
          - LengthFieldSize.toBytes .twoBytes) true = .ok m ∧
      (∀ n lf, (⟨[0, 0, 7, 7, 7], false, none, [(0, .twoBytes, true)]⟩ : SerState).endLds
          exampleOptions .twoBytes ≠ .error (.tooLong n lf)) ∧
      (m.ble .twoBytes = true →
        ∃ st2, (⟨[0, 0, 7, 7, 7], false, none, [(0, .twoBytes, true)]⟩ : SerState).endLds
          exampleOptions .twoBytes = .ok st2)) :=
  ⟨rfl, rfl, by decide, by decide,
   claimC10_amended exampleOptions ⟨[0, 0, 7, 7, 7], false, none, [(0, .twoBytes, true)]⟩
     .twoBytes .twoBytes 0 [] rfl rfl (by decide) (by decide)⟩

/-- Every length field width can hold at most a u32 value. -/
theorem unsignedMax_le_u32 : ∀ w : LengthFieldSize, w.unsignedMax ≤ 4294967295 := by
  decide

/-- Order facts relating the boolean strict and non-strict comparisons. -/
theorem ble_of_blt_eq_false : ∀ a b : LengthFieldSize,
    a.blt b = false → b.ble a = true := by decide

theorem blt_eq_false_of_ble : ∀ a b : LengthFieldSize,
    b.ble a = true → a.blt b = false := by decide

/-- `minimum_length_for` only returns a width that can hold the length. -/
theorem minimumLengthFor_le (b : Nat) (m : LengthFieldSize)
    (hm : LengthFieldSize.minimumLengthFor b = some m) : b ≤ m.unsignedMax := by
  unfold LengthFieldSize.minimumLengthFor at hm
  split_ifs at hm with h1 h2 h3
  · cases hm; simpa [LengthFieldSize.unsignedMax] using h1
  · cases hm; simpa [LengthFieldSize.unsignedMax] using h2
  · cases hm; simpa [LengthFieldSize.unsignedMax] using h3

/-- If `select_length_field_size` accepted a configured size for the maximum
payload length of a section, then at close time it succeeds for every
measured length up to that maximum, the selected size can hold the measured
length, and it never exceeds `max(configured, minimum_length_for(max_len))`
(the reservation made at the open). -/
theorem select_close_ok (o : SomeIpOptions) (configured selected mn : LengthFieldSize)
    (maxSize len : Nat) (isInTlv : Bool)
    (hsel : o.selectLengthFieldSize configured maxSize isInTlv = .ok selected)
    (hmn : LengthFieldSize.minimumLengthFor (maxSize + selected.toBytes) = some mn)
    (hlen : len ≤ maxSize) :
    ∃ actual, o.selectLengthFieldSize configured len isInTlv = .ok actual ∧
      len ≤ actual.unsignedMax ∧ actual.ble (configured.bmax mn) = true := by
  cases hmm : LengthFieldSize.minimumLengthFor maxSize with
  | none =>
    simp only [SomeIpOptions.selectLengthFieldSize, hmm] at hsel
    exact Except.noConfusion hsel
  | some mm =>
    have hmmn : mm.ble mn = true := by
      obtain ⟨m', hm', hble'⟩ :=
        minimumLengthFor_mono maxSize (maxSize + selected.toBytes) (by omega) mn hmn
      rw [hmm] at hm'
      cases hm'
      exact hble'
    have hlu32 : len ≤ 4294967295 :=
      le_trans (le_trans hlen (minimumLengthFor_le _ _ hmm)) (unsignedMax_le_u32 mm)
    obtain ⟨ml', hml', hlml', _⟩ := minimumLengthFor_ok len hlu32
    have hmlmm : ml'.ble mm = true := by
      obtain ⟨m2, hm2, hble2⟩ := minimumLengthFor_mono len maxSize hlen mm hmm
      rw [hml'] at hm2
      cases hm2
      exact hble2
    simp only [SomeIpOptions.selectLengthFieldSize, hmm] at hsel
    simp only [SomeIpOptions.selectLengthFieldSize, hml']
    cases isInTlv with
    | false =>
      simp only [Bool.false_eq_true, if_false] at hsel ⊢
      cases hblt : configured.blt mm with
      | true => rw [hblt] at hsel; simp at hsel
      | false =>
        have hmmc : mm.ble configured = true := ble_of_blt_eq_false _ _ hblt
        have hmlc : ml'.ble configured = true := ble_trans _ _ _ hmlmm hmmc
        rw [blt_eq_false_of_ble _ _ hmlc]
        exact ⟨configured, rfl,
          le_trans hlml' (unsignedMax_mono _ _ hmlc), ble_bmax_left _ _⟩
    | true =>
      simp only [if_true] at hsel ⊢
      cases hpol : o.serializerLengthFieldSizeSelection with
      | asConfigured =>
        dsimp only
        cases hc : ml'.ble configured with
        | true =>
          exact ⟨configured, by simp,
            le_trans hlml' (unsignedMax_mono _ _ hc), ble_bmax_left _ _⟩
        | false =>
          exact ⟨ml', by simp, hlml',
            ble_trans _ _ _ (ble_trans _ _ _ hmlmm hmmn) (ble_bmax_right _ _)⟩
      | smallest =>
        dsimp only
        exact ⟨ml', rfl, hlml',
          ble_trans _ _ _ (ble_trans _ _ _ hmlmm hmmn) (ble_bmax_right _ _)⟩

/-- The three `internal_write_str` calls of `serialize_str` append exactly
the encoded content bytes. -/
theorem strWriteChain (o : SomeIpOptions) (s : String) (st : SerState) :
    (if o.stringWithTerminator then
        internalWriteStr o "\x00"
          (internalWriteStr o s
            (if o.stringWithBom then internalWriteStr o "\uFEFF" st else st))
      else
        internalWriteStr o s
          (if o.stringWithBom then internalWriteStr o "\uFEFF" st else st))
    = { st with buf := st.buf ++ encodedStrBytes o s } := by
  by_cases hb : o.stringWithBom <;> by_cases ht : o.stringWithTerminator <;>
    simp [internalWriteStr, encodedStrBytes, hb, ht]

/-- C6: `serialize_str`, after emitting the optional BOM, the encoded
content and the optional terminator, verifies the measured encoded byte
length against the schema: below `min_size` it returns
`NotEnoughData(min_size, actual)`, above `max_size` it returns
`TooMuchData(max_size, actual)`, and otherwise the string serialization
succeeds (including the close of the length delimited section, whenever the
ASCII check, the length field lookup and the section open succeeded). -/
theorem claimC6 (o : SomeIpOptions) (minSize maxSize : Nat)
    (lfsT : Option LengthFieldSize) (s : String) (st : SerState)
    (lfs : Option LengthFieldSize) (st1 : SerState)
    (hascii : (o.stringEncoding == .ascii && !isAsciiString s) = false)
    (hwanted : SomeIpType.wantedLengthField o (.string minSize maxSize lfsT)
      st.isInTlvStruct = .ok lfs)
    (hstart : (match lfs with
      | some configured => startSection o (.string minSize maxSize lfsT) configured st
      | none => .ok st) = .ok st1) :
    (encodedStrLen o s < minSize →
      serValue o (.string minSize maxSize lfsT) (.str s) st =
        .error (.notEnoughData minSize (encodedStrLen o s))) ∧
    (minSize ≤ encodedStrLen o s → maxSize < encodedStrLen o s →
      serValue o (.string minSize maxSize lfsT) (.str s) st =
        .error (.tooMuchData maxSize (encodedStrLen o s))) ∧
    (minSize ≤ encodedStrLen o s → encodedStrLen o s ≤ maxSize →
      ∃ st2, serValue o (.string minSize maxSize lfsT) (.str s) st = .ok st2) := by
  simp only [encodedStrLen]
  cases lfs with
  | none =>
    simp only [serValue]
    rw [hascii]
    simp only [Bool.false_eq_true, if_false]
    rw [hwanted]
    simp only [Except.bind, Bind.bind, Except.instMonad]
    rw [strWriteChain o s st]
    dsimp only
    simp only [List.length_append, Nat.add_sub_cancel_left]
    refine ⟨fun hlt => ?_, fun hge hgt => ?_, fun hge hle => ?_⟩
    · rw [if_pos hlt]
    · rw [if_neg (by omega), if_pos hgt]
    · rw [if_neg (by omega), if_neg (by omega)]
      exact ⟨_, rfl⟩
  | some configured =>
    have hstart' : startSection o (.string minSize maxSize lfsT) configured st =
        .ok st1 := hstart
    simp only [serValue]
    rw [hascii]
    simp only [Bool.false_eq_true, if_false]
    rw [hwanted]
    simp only [Except.bind, Bind.bind, Except.instMonad]
    rw [hstart']
    simp only [Except.bind, Bind.bind, Except.instMonad]
    rw [strWriteChain o s st1]
    dsimp only
    simp only [List.length_append, Nat.add_sub_cancel_left]
    refine ⟨fun hlt => ?_, fun hge hgt => ?_, fun hge hle => ?_⟩
    · rw [if_pos hlt]
    · rw [if_neg (by omega), if_pos hgt]
    · rw [if_neg (by omega), if_neg (by omega)]
      unfold startSection at hstart'
      cases hml : SomeIpType.maxLen o (.string minSize maxSize lfsT) st.isInTlvStruct with
      | error e =>
        simp only [hml, Except.bind, Bind.bind, Except.instMonad] at hstart'
        exact Except.noConfusion hstart'
      | ok ml =>
        simp only [hml, Except.bind, Bind.bind, Except.instMonad] at hstart'
        cases hmn : LengthFieldSize.minimumLengthFor ml with
        | none =>
          simp only [hmn] at hstart'
          exact Except.noConfusion hstart'
        | some mn =>
          simp only [hmn] at hstart'
          have hst1 : st.beginLds configured mn = st1 := Except.ok.inj hstart'
          simp only [SomeIpType.maxLen, hwanted, Except.bind, Bind.bind,
            Except.instMonad] at hml
          cases hselm : o.selectLengthFieldSize configured maxSize st.isInTlvStruct with
          | error e =>
            simp only [hselm, Except.bind, Bind.bind, Except.instMonad] at hml
            exact Except.noConfusion hml
          | ok selected =>
            simp only [hselm, Except.bind, Bind.bind, Except.instMonad] at hml
            have hmleq : maxSize + selected.toBytes = ml := Except.ok.inj hml
            subst hmleq
            subst hst1
            obtain ⟨actual, hselc, hfit, hbl⟩ :=
              select_close_ok o configured selected mn maxSize
                ((encodedStrBytes o s).length) st.isInTlvStruct hselm hmn hle
            simp only [SerState.beginLds]
            refine ⟨_, endLds_ok o _ configured (configured.bmax mn) actual
              st.buf.length st.sections st.isInTlvStruct ?_ ?_ ?_ hbl ?_⟩
            · rfl
            · simp only [SerState.buf, List.length_append, List.length_replicate]
              omega
            · convert hselc using 3
              simp only [SerState.buf, List.length_append, List.length_replicate]
              omega
            · simp only [SerState.buf, List.length_append, List.length_replicate]
              omega

/-- C6 witness: a 3 byte string within bounds 0..10 under the default
options serializes successfully. -/
theorem claimC6_witness :
    ∃ st2, serValue exampleOptions (.string 0 10 none) (.str "abc")
      ⟨[], false, none, []⟩ = .ok st2 :=
  (claimC6 exampleOptions 0 10 none "abc" ⟨[], false, none, []⟩ (some .fourBytes)
      ⟨[0, 0, 0, 0], false, none, [(0, .fourBytes, false)]⟩
      (by decide) (by rfl) (by rfl)).2.2 (by decide) (by decide)

theorem toNat_or8 (a b : UInt8) : (a ||| b).toNat = a.toNat ||| b.toNat := rfl

theorem toNat_and8 (a b : UInt8) : (a &&& b).toNat = a.toNat &&& b.toNat := rfl

theorem toNat_shr32 (a k : UInt32) (hk : k.toNat < 32) :
    (a >>> k).toNat = a.toNat >>> k.toNat := by
  show a.toNat >>> (k.toNat % 32) = a.toNat >>> k.toNat
  rw [Nat.mod_eq_of_lt hk]

theorem char_le_iff (c : Char) (k : UInt32) : c.val ≤ k ↔ c.toNat ≤ k.toNat :=
  ⟨fun h => h, fun h => h⟩

theorem and_mod_pow2 (x : Nat) (k m : Nat) (h : m = 2 ^ k - 1) :
    x &&& m = x % 2 ^ k := by
  subst h
  exact Nat.and_pow_two_sub_one_eq_mod x k

/-- The UTF-8 bytes of a char, in arithmetic form. -/
theorem utf8EncodeChar_toNat (c : Char) :
    (String.utf8EncodeChar c).map UInt8.toNat =
      if c.toNat ≤ 127 then [c.toNat]
      else if c.toNat ≤ 2047 then [192 + c.toNat / 64, 128 + c.toNat % 64]
      else if c.toNat ≤ 65535 then
        [224 + c.toNat / 4096, 128 + c.toNat / 64 % 64, 128 + c.toNat % 64]
      else
        [240 + c.toNat / 262144, 128 + c.toNat / 4096 % 64,
         128 + c.toNat / 64 % 64, 128 + c.toNat % 64] := by
  have hcv : c.val.toNat = c.toNat := rfl
  have hlt : c.toNat < 1114112 := by
    rcases (c.valid : c.toNat < 55296 ∨ 57343 < c.toNat ∧ c.toNat < 1114112) with h | h
    · omega
    · omega
  have hu8 : ∀ x : UInt32, x.toUInt8.toNat = x.toNat % 256 := UInt32.toUInt8_toNat
  have hshr : ∀ k : UInt32, k.toNat < 32 → (c.val >>> k).toNat = c.toNat >>> k.toNat :=
    fun k hk => by rw [toNat_shr32 _ _ hk, hcv]
  rw [String.utf8EncodeChar]
  by_cases h1 : c.toNat ≤ 127
  · rw [if_pos ((char_le_iff c 127).mpr h1), if_pos h1]
    simp only [List.map]
    rw [hu8, hcv, Nat.mod_eq_of_lt (by omega)]
  · rw [if_neg (fun hc => h1 ((char_le_iff c 127).mp hc)), if_neg h1]
    by_cases h2 : c.toNat ≤ 2047
    · rw [if_pos ((char_le_iff c 2047).mpr h2), if_pos h2]
      simp only [List.map, toNat_or8, toNat_and8, hu8]
      have hs6 : (c.val >>> 6).toNat = c.toNat >>> 6 := hshr 6 (by decide)
      rw [hs6, hcv]
      rw [Nat.shiftRight_eq_div_pow]
      norm_num
      constructor
      · rw [Nat.mod_eq_of_lt (by omega)]
        rw [and_mod_pow2 _ 5 31 (by norm_num)]
        rw [Nat.mod_eq_of_lt (by omega)]
        rw [show (192 : Nat) = 6 <<< 5 from rfl]
        rw [or_shl_eq_add _ _ _ (by omega)]
        omega
      · rw [and_mod_pow2 _ 6 63 (by norm_num), Nat.mod_mod_of_dvd _ (by norm_num)]
        rw [show (128 : Nat) = 2 <<< 6 from rfl]
        rw [or_shl_eq_add _ _ _ (by omega)]
        omega
    · rw [if_neg (fun hc => h2 ((char_le_iff c 2047).mp hc)), if_neg h2]
      by_cases h3 : c.toNat ≤ 65535
      · rw [if_pos ((char_le_iff c 65535).mpr h3), if_pos h3]
        simp only [List.map, toNat_or8, toNat_and8, hu8]
        have hs12 : (c.val >>> 12).toNat = c.toNat >>> 12 := hshr 12 (by decide)
        have hs6 : (c.val >>> 6).toNat = c.toNat >>> 6 := hshr 6 (by decide)
        rw [hs12, hs6, hcv]
        rw [Nat.shiftRight_eq_div_pow, Nat.shiftRight_eq_div_pow]
        norm_num
        refine ⟨?_, ?_, ?_⟩
        · rw [Nat.mod_eq_of_lt (by omega)]
          rw [and_mod_pow2 _ 4 15 (by norm_num)]
          rw [Nat.mod_eq_of_lt (by omega)]
          rw [show (224 : Nat) = 7 <<< 5 from rfl]
          rw [or_shl_eq_add _ _ _ (by omega)]
          omega
        · rw [and_mod_pow2 _ 6 63 (by norm_num), Nat.mod_mod_of_dvd _ (by norm_num)]
          rw [show (128 : Nat) = 2 <<< 6 from rfl]
          rw [or_shl_eq_add _ _ _ (by omega)]
          omega
        · rw [and_mod_pow2 _ 6 63 (by norm_num), Nat.mod_mod_of_dvd _ (by norm_num)]
          rw [show (128 : Nat) = 2 <<< 6 from rfl]
          rw [or_shl_eq_add _ _ _ (by omega)]
          omega
      · rw [if_neg (fun hc => h3 ((char_le_iff c 65535).mp hc)), if_neg h3]
        simp only [List.map, toNat_or8, toNat_and8, hu8]
        have hs18 : (c.val >>> 18).toNat = c.toNat >>> 18 := hshr 18 (by decide)
        have hs12 : (c.val >>> 12).toNat = c.toNat >>> 12 := hshr 12 (by decide)
        have hs6 : (c.val >>> 6).toNat = c.toNat >>> 6 := hshr 6 (by decide)
        rw [hs18, hs12, hs6, hcv]
        rw [Nat.shiftRight_eq_div_pow, Nat.shiftRight_eq_div_pow,
          Nat.shiftRight_eq_div_pow]
        norm_num
        refine ⟨?_, ?_, ?_, ?_⟩
        · rw [Nat.mod_eq_of_lt (by omega)]
          rw [and_mod_pow2 _ 3 7 (by norm_num)]
          rw [Nat.mod_eq_of_lt (by omega)]
          rw [show (240 : Nat) = 15 <<< 4 from rfl]
          rw [or_shl_eq_add _ _ _ (by omega)]
          omega
        · rw [and_mod_pow2 _ 6 63 (by norm_num), Nat.mod_mod_of_dvd _ (by norm_num)]
          rw [show (128 : Nat) = 2 <<< 6 from rfl]
          rw [or_shl_eq_add _ _ _ (by omega)]
          omega
        · rw [and_mod_pow2 _ 6 63 (by norm_num), Nat.mod_mod_of_dvd _ (by norm_num)]
          rw [show (128 : Nat) = 2 <<< 6 from rfl]
          rw [or_shl_eq_add _ _ _ (by omega)]
          omega
        · rw [and_mod_pow2 _ 6 63 (by norm_num), Nat.mod_mod_of_dvd _ (by norm_num)]
          rw [show (128 : Nat) = 2 <<< 6 from rfl]
          rw [or_shl_eq_add _ _ _ (by omega)]
          omega


/-- Reassembling split bit fields. -/
theorem or3_assemble (a b c : Nat) (hb : b < 64) (hc : c < 64) :
    (a <<< 12) ||| (b <<< 6) ||| c = a * 4096 + b * 64 + c := by
  rw [Nat.lor_assoc]
  rw [shl_or_eq_add b c 6 (by norm_num; omega)]
  rw [shl_or_eq_add a _ 12 (by norm_num; omega)]
  norm_num
  ring

/-- Reassembling split bit fields. -/
theorem or4_assemble (a b c d : Nat) (hb : b < 64) (hc : c < 64) (hd : d < 64) :
    (a <<< 18) ||| (b <<< 12) ||| (c <<< 6) ||| d
      = a * 262144 + b * 4096 + c * 64 + d := by
  rw [Nat.lor_assoc, Nat.lor_assoc]
  rw [shl_or_eq_add c d 6 (by norm_num; omega)]
  rw [shl_or_eq_add b _ 12 (by norm_num; omega)]
  rw [shl_or_eq_add a _ 18 (by norm_num; omega)]
  norm_num
  ring

/-- Decoding the head of a UTF-8 encoded char recovers its code point. -/
theorem utf8DecodeHead_encodeChar (c : Char) (bs : List Nat) :
    ∃ b rest, (String.utf8EncodeChar c).map UInt8.toNat = b :: rest ∧
      rest.length + 1 = (String.utf8EncodeChar c).length ∧
      utf8DecodeHead b (rest ++ bs) = some (c.toNat, bs) := by
  have hv : c.toNat < 55296 ∨ 57343 < c.toNat ∧ c.toNat < 1114112 := c.valid
  have hmap : ((String.utf8EncodeChar c).map UInt8.toNat).length
      = (String.utf8EncodeChar c).length := List.length_map _ _
  rw [utf8EncodeChar_toNat] at hmap ⊢
  by_cases h1 : c.toNat ≤ 127
  · rw [if_pos h1] at hmap ⊢
    refine ⟨c.toNat, [], rfl, by simpa using hmap, ?_⟩
    simp only [utf8DecodeHead, List.nil_append]
    rw [if_pos (show c.toNat < 0x80 by omega)]
  · rw [if_neg h1] at hmap ⊢
    by_cases h2 : c.toNat ≤ 2047
    · rw [if_pos h2] at hmap ⊢
      refine ⟨_, _, rfl, by simpa using hmap, ?_⟩
      simp only [utf8DecodeHead, List.cons_append, List.nil_append]
      rw [if_neg (by omega), if_neg (by omega), if_pos (by omega)]
      rw [if_pos (show 0x80 ≤ 128 + c.toNat % 64 ∧ 128 + c.toNat % 64 < 0xC0 by omega)]
      have hcp : ((192 + c.toNat / 64 - 0xC0) <<< 6) ||| (128 + c.toNat % 64 - 0x80)
          = c.toNat := by
        have he1 : 192 + c.toNat / 64 - 0xC0 = c.toNat / 64 := by omega
        have he2 : 128 + c.toNat % 64 - 0x80 = c.toNat % 64 := by omega
        rw [he1, he2, shl_or_eq_add _ _ _ (by omega)]
        omega
      rw [hcp]
    · rw [if_neg h2] at hmap ⊢
      by_cases h3 : c.toNat ≤ 65535
      · rw [if_pos h3] at hmap ⊢
        refine ⟨_, _, rfl, by simpa using hmap, ?_⟩
        simp only [utf8DecodeHead, List.cons_append, List.nil_append]
        rw [if_neg (by omega), if_neg (by omega), if_neg (by omega), if_pos (by omega)]
        rw [if_pos (show (0x80 ≤ 128 + c.toNat / 64 % 64 ∧ 128 + c.toNat / 64 % 64 < 0xC0)
          ∧ (0x80 ≤ 128 + c.toNat % 64 ∧ 128 + c.toNat % 64 < 0xC0)
          ∧ (224 + c.toNat / 4096 ≠ 0xE0 ∨ 0xA0 ≤ 128 + c.toNat / 64 % 64)
          ∧ (224 + c.toNat / 4096 ≠ 0xED ∨ 128 + c.toNat / 64 % 64 < 0xA0) by omega)]
        have hcp : ((224 + c.toNat / 4096 - 0xE0) <<< 12)
            ||| ((128 + c.toNat / 64 % 64 - 0x80) <<< 6) ||| (128 + c.toNat % 64 - 0x80)
            = c.toNat := by
          have he1 : 224 + c.toNat / 4096 - 0xE0 = c.toNat / 4096 := by omega
          have he2 : 128 + c.toNat / 64 % 64 - 0x80 = c.toNat / 64 % 64 := by omega
          have he3 : 128 + c.toNat % 64 - 0x80 = c.toNat % 64 := by omega
          rw [he1, he2, he3]
          rw [or3_assemble _ _ _ (by omega) (by omega)]
          omega
        rw [hcp]
      · rw [if_neg h3] at hmap ⊢
        refine ⟨_, _, rfl, by simpa using hmap, ?_⟩
        simp only [utf8DecodeHead, List.cons_append, List.nil_append]
        rw [if_neg (by omega), if_neg (by omega), if_neg (by omega), if_neg (by omega),
          if_pos (by omega)]
        rw [if_pos (show (0x80 ≤ 128 + c.toNat / 4096 % 64 ∧ 128 + c.toNat / 4096 % 64 < 0xC0)
          ∧ (0x80 ≤ 128 + c.toNat / 64 % 64 ∧ 128 + c.toNat / 64 % 64 < 0xC0)
          ∧ (0x80 ≤ 128 + c.toNat % 64 ∧ 128 + c.toNat % 64 < 0xC0)
          ∧ (240 + c.toNat / 262144 ≠ 0xF0 ∨ 0x90 ≤ 128 + c.toNat / 4096 % 64)
          ∧ (240 + c.toNat / 262144 ≠ 0xF4 ∨ 128 + c.toNat / 4096 % 64 < 0x90) by omega)]
        have hcp : ((240 + c.toNat / 262144 - 0xF0) <<< 18)
            ||| ((128 + c.toNat / 4096 % 64 - 0x80) <<< 12)
            ||| ((128 + c.toNat / 64 % 64 - 0x80) <<< 6) ||| (128 + c.toNat % 64 - 0x80)
            = c.toNat := by
          have he1 : 240 + c.toNat / 262144 - 0xF0 = c.toNat / 262144 := by omega
          have he2 : 128 + c.toNat / 4096 % 64 - 0x80 = c.toNat / 4096 % 64 := by omega
          have he3 : 128 + c.toNat / 64 % 64 - 0x80 = c.toNat / 64 % 64 := by omega
          have he4 : 128 + c.toNat % 64 - 0x80 = c.toNat % 64 := by omega
          rw [he1, he2, he3, he4]
          rw [or4_assemble _ _ _ _ (by omega) (by omega) (by omega)]
          omega
        rw [hcp]


/-- A successful decode step never lengthens the remaining bytes. -/
theorem utf8DecodeHead_length (b : Nat) (rest : List Nat) (cp : Nat) (r : List Nat)
    (h : utf8DecodeHead b rest = some (cp, r)) : r.length ≤ rest.length := by
  unfold utf8DecodeHead at h
  split_ifs at h with h1 h2 h3 h4 h5
  · cases h
    exact Nat.le_refl _
  · cases rest with
    | nil => simp at h
    | cons c1 r2 =>
      dsimp only at h
      split_ifs at h
      cases h
      simp
  · cases rest with
    | nil => simp at h
    | cons c1 r2 =>
      cases r2 with
      | nil => simp at h
      | cons c2 r3 =>
        dsimp only at h
        split_ifs at h
        cases h
        simp
        omega
  · cases rest with
    | nil => simp at h
    | cons c1 r2 =>
      cases r2 with
      | nil => simp at h
      | cons c2 r3 =>
        cases r3 with
        | nil => simp at h
        | cons c3 r4 =>
          dsimp only at h
          split_ifs at h
          cases h
          simp
          omega

/-- The decode loop ignores surplus fuel. -/
theorem utf8DecodeLoop_len (f : Nat) : ∀ bs : List Nat, bs.length ≤ f →
    utf8DecodeLoop f bs = utf8DecodeLoop bs.length bs := by
  induction f using Nat.strong_induction_on with
  | _ f IH =>
    intro bs hlen
    match bs with
    | [] => cases f <;> rfl
    | b :: rest =>
      have hlen2 : rest.length + 1 ≤ f := by simpa using hlen
      obtain ⟨g, rfl⟩ : ∃ g, f = g + 1 := ⟨f - 1, by omega⟩
      rw [utf8DecodeLoop]
      rw [show (b :: rest).length = rest.length + 1 from rfl]
      rw [utf8DecodeLoop]
      cases hh : utf8DecodeHead b rest with
      | none => rfl
      | some pr =>
        obtain ⟨cp, r⟩ := pr
        have hr := utf8DecodeHead_length _ _ _ _ hh
        have e1 : utf8DecodeLoop g r = utf8DecodeLoop r.length r :=
          IH g (by omega) r (by omega)
        have e2 : utf8DecodeLoop rest.length r = utf8DecodeLoop r.length r :=
          IH rest.length (by omega) r (by omega)
        dsimp only
        rw [e1, e2]

/-- Decoding one encoded char off the front. -/
theorem utf8Decode_encodeChar (c : Char) (bs : List Nat) :
    utf8Decode ((String.utf8EncodeChar c).map UInt8.toNat ++ bs)
      = (utf8Decode bs).map (fun cs => c :: cs) := by
  obtain ⟨b, rest, henc, hlen, hhead⟩ := utf8DecodeHead_encodeChar c bs
  rw [henc]
  show utf8DecodeLoop ((b :: rest) ++ bs).length ((b :: rest) ++ bs)
      = (utf8Decode bs).map (fun cs => c :: cs)
  rw [show ((b :: rest) ++ bs).length = (rest ++ bs).length + 1 by simp]
  rw [show (b :: rest) ++ bs = b :: (rest ++ bs) from rfl]
  rw [utf8DecodeLoop]
  rw [hhead]
  dsimp only
  rw [utf8DecodeLoop_len _ bs (by simp)]
  show (match utf8Decode bs with
    | some cs => some (Char.ofNat c.toNat :: cs)
    | none => none) = (utf8Decode bs).map (fun cs => c :: cs)
  cases utf8Decode bs with
  | none => rfl
  | some cs => simp only [Option.map, Char.ofNat_toNat]

/-- Decoding a whole encoded char list off the front. -/
theorem utf8Decode_flatMap (cs : List Char) (bs : List Nat) :
    utf8Decode (cs.flatMap (fun c => (String.utf8EncodeChar c).map UInt8.toNat) ++ bs)
      = (utf8Decode bs).map (fun tail => cs ++ tail) := by
  induction cs with
  | nil =>
    simp only [List.flatMap_nil, List.nil_append]
    cases utf8Decode bs <;> simp
  | cons c cr IH =>
    simp only [List.flatMap_cons, List.append_assoc]
    rw [utf8Decode_encodeChar]
    rw [IH]
    cases utf8Decode bs <;> simp

/-- `String::from_utf8` inverts `str::as_bytes`. -/
theorem utf8Decode_utf8Bytes (s : String) (bs : List Nat) :
    utf8Decode (utf8Bytes s ++ bs) = (utf8Decode bs).map (fun tail => s.data ++ tail) :=
  utf8Decode_flatMap s.data bs

/-- Reading exactly the bytes at the front of the input. -/
theorem readBytes_split (bs tail : List Nat) (secs : List Nat) (hs : secOk bs.length secs) :
    DeState.readBytes ⟨bs ++ tail, secs⟩ bs.length
      = .ok (bs, ⟨tail, secConsume bs.length secs⟩) := by
  have hk : bs.length ≤ DeState.remaining ⟨bs ++ tail, secs⟩ := by
    cases secs with
    | nil => simp [DeState.remaining]
    | cons c r => simpa [DeState.remaining] using hs
  have hki : bs.length ≤ (bs ++ tail).length := by simp
  have h := readBytes_ok ⟨bs ++ tail, secs⟩ bs.length hk hki
  simpa [List.take_left', List.drop_left', secConsume] using h

theorem readU8_split (b : Nat) (tail secs : List Nat) (hs : secOk 1 secs) :
    DeState.readU8 ⟨b :: tail, secs⟩ = .ok (b, ⟨tail, secConsume 1 secs⟩) := by
  have h := readBytes_split [b] tail secs (by simpa using hs)
  simp only [DeState.readU8, List.cons_append, List.nil_append, List.length_cons,
    List.length_nil] at h ⊢
  rw [h]
  simp [Except.bind, Bind.bind, Except.instMonad]

theorem readUx_split (o : SomeIpOptions) (bo : ByteOrder) (k u : Nat)
    (hu : u < 2 ^ (8 * k)) (tail secs : List Nat) (hs : secOk k secs) :
    DeState.readUx ⟨uxBytes k u bo ++ tail, secs⟩ bo k
      = .ok (u, ⟨tail, secConsume k secs⟩) := by
  have hlen : (uxBytes k u bo).length = k := uxBytes_length k u bo
  have h := readBytes_split (uxBytes k u bo) tail secs (by rw [hlen]; exact hs)
  rw [hlen] at h
  simp only [DeState.readUx]
  rw [h]
  simp [Except.bind, Bind.bind, Except.instMonad, parseUx_uxBytes bo k u hu]

theorem discard_split (bs tail secs : List Nat) (hs : secOk bs.length secs) :
    DeState.discard ⟨bs ++ tail, secs⟩ bs.length
      = .ok ⟨tail, secConsume bs.length secs⟩ := by
  simp only [DeState.discard]
  rw [readBytes_split bs tail secs hs]
  simp [Except.bind, Bind.bind, Except.instMonad]

theorem beginKnownLds_split (n : Nat) (input secs : List Nat) (hs : secOk n secs)
    (hn : n ≤ input.length) :
    DeState.beginKnownLds ⟨input, secs⟩ n
      = .ok (n, ⟨input, n :: secConsume n secs⟩) := by
  have hrem : ¬ DeState.remaining ⟨input, secs⟩ < n := by
    cases secs with
    | nil => simp [DeState.remaining]; omega
    | cons c r => simp [DeState.remaining]; simpa [secOk] using hs
  simp only [DeState.beginKnownLds, DeState.beforeRead]
  rw [if_neg hrem]
  simp only [Except.bind, Bind.bind, Except.instMonad]
  cases secs <;> simp [secConsume]

theorem endLds_split (input : List Nat) (rest : List Nat) :
    DeState.endLds ⟨input, 0 :: rest⟩ = .ok ⟨input, rest⟩ := by
  simp [DeState.endLds]

/-- Reading a length field of an explicitly given width. -/
theorem deBeginLds_core (o : SomeIpOptions) (configured a : LengthFieldSize) (n : Nat)
    (body tail secs : List Nat)
    (hn : n ≤ a.unsignedMax) (hbody : body.length = n)
    (hs : secOk (a.toBytes + n) secs) :
    DeState.beginLds o ⟨lenBytes o a n ++ (body ++ tail), secs⟩ (some a) configured
      = .ok (n, ⟨body ++ tail, n :: secConsume (a.toBytes + n) secs⟩) := by
  have hs1 : secOk a.toBytes secs := by
    cases secs with
    | nil => trivial
    | cons c r => simp only [secOk] at hs ⊢; omega
  have hs2 : secOk n (secConsume a.toBytes secs) := by
    cases secs with
    | nil => trivial
    | cons c r => simp only [secOk, secConsume] at hs ⊢; omega
  have hcons : secConsume n (secConsume a.toBytes secs)
      = secConsume (a.toBytes + n) secs := by
    cases secs with
    | nil => rfl
    | cons c r => simp only [secConsume]; congr 1; omega
  simp only [DeState.beginLds]
  cases a with
  | oneByte =>
    have hread : DeState.readU8 ⟨lenBytes o .oneByte n ++ (body ++ tail), secs⟩
        = .ok (n, ⟨body ++ tail, secConsume 1 secs⟩) := by
      have he : lenBytes o .oneByte n = [n] := rfl
      rw [he]
      exact readU8_split n (body ++ tail) secs hs1
    simp only [Except.bind, Bind.bind, Except.instMonad, hread]
    have hb := beginKnownLds_split n (body ++ tail) (secConsume 1 secs) hs2
      (by simp; omega)
    simp only [LengthFieldSize.toBytes] at hcons
    rw [hb, hcons]
    rfl
  | twoBytes =>
    have hread : DeState.readUx ⟨lenBytes o .twoBytes n ++ (body ++ tail), secs⟩
        o.byteOrder 2 = .ok (n, ⟨body ++ tail, secConsume 2 secs⟩) := by
      have he : lenBytes o .twoBytes n = uxBytes 2 n o.byteOrder := rfl
      rw [he]
      exact readUx_split o o.byteOrder 2 n
        (by simp only [LengthFieldSize.unsignedMax] at hn; omega)
        (body ++ tail) secs hs1
    simp only [Except.bind, Bind.bind, Except.instMonad, hread]
    have hb := beginKnownLds_split n (body ++ tail) (secConsume 2 secs) hs2
      (by simp; omega)
    simp only [LengthFieldSize.toBytes] at hcons
    rw [hb, hcons]
    rfl
  | fourBytes =>
    have hread : DeState.readUx ⟨lenBytes o .fourBytes n ++ (body ++ tail), secs⟩
        o.byteOrder 4 = .ok (n, ⟨body ++ tail, secConsume 4 secs⟩) := by
      have he : lenBytes o .fourBytes n = uxBytes 4 n o.byteOrder := rfl
      rw [he]
      exact readUx_split o o.byteOrder 4 n
        (by simp only [LengthFieldSize.unsignedMax] at hn; omega)
        (body ++ tail) secs hs1
    simp only [Except.bind, Bind.bind, Except.instMonad, hread]
    have hb := beginKnownLds_split n (body ++ tail) (secConsume 4 secs) hs2
      (by simp; omega)
    simp only [LengthFieldSize.toBytes] at hcons
    rw [hb, hcons]
    rfl

/-- Reading a length field written by the serializer at section close, with
the width resolved from the one shot override or the configured size. -/
theorem deBeginLds_split (o : SomeIpOptions) (nlfs : Option LengthFieldSize)
    (configured a : LengthFieldSize) (n : Nat) (body tail secs : List Nat)
    (hnl : nlfs = some a ∨ (nlfs = none ∧ a = configured))
    (hn : n ≤ a.unsignedMax) (hbody : body.length = n)
    (hs : secOk (a.toBytes + n) secs) :
    DeState.beginLds o ⟨lenBytes o a n ++ (body ++ tail), secs⟩ nlfs configured
      = .ok (n, ⟨body ++ tail, n :: secConsume (a.toBytes + n) secs⟩) := by
  rcases hnl with rfl | ⟨rfl, rfl⟩
  · exact deBeginLds_core o configured a n body tail secs hn hbody hs
  · exact deBeginLds_core o a a n body tail secs hn hbody hs


theorem secConsume_add (m n : Nat) (secs : List Nat) :
    secConsume n (secConsume m secs) = secConsume (m + n) secs := by
  cases secs with
  | nil => rfl
  | cons c r => simp only [secConsume]; congr 1; omega

theorem secOk_mono (m n : Nat) (secs : List Nat) (h : secOk n secs) (hmn : m ≤ n) :
    secOk m secs := by
  cases secs with
  | nil => trivial
  | cons c r => simp only [secOk] at h ⊢; omega

theorem secOk_after (m n : Nat) (secs : List Nat) (h : secOk (m + n) secs) :
    secOk n (secConsume m secs) := by
  cases secs with
  | nil => trivial
  | cons c r => simp only [secOk, secConsume] at h ⊢; omega

/-- Reading back the UTF-16 code units of a char list, decoding on the fly. -/
theorem readUtf16Chars_enc (o : SomeIpOptions) (bo : ByteOrder) (cs : List Char)
    (tail secs : List Nat)
    (hs : secOk (2 * (cs.flatMap utf16EncodeChar).length) secs) :
    readUtf16Chars o bo (cs.flatMap utf16EncodeChar).length
      ⟨(cs.flatMap utf16EncodeChar).flatMap (fun u => uxBytes 2 u bo) ++ tail, secs⟩
      = .ok (cs, ⟨tail, secConsume (2 * (cs.flatMap utf16EncodeChar).length) secs⟩) := by
  induction cs generalizing secs with
  | nil =>
    simp only [List.flatMap_nil, List.length_nil, List.nil_append]
    rw [readUtf16Chars]
    simp [secConsume]
    cases secs <;> simp [secConsume]
  | cons c cr IH =>
    have hv : c.toNat < 55296 ∨ 57343 < c.toNat ∧ c.toNat < 1114112 := c.valid
    simp only [List.flatMap_cons]
    by_cases hc : c.toNat < 0x10000
    · have henc : utf16EncodeChar c = [c.toNat] := by
        unfold utf16EncodeChar
        rw [if_pos hc]
      simp only [List.flatMap_cons, henc, List.length_append, List.length_cons,
        List.length_nil] at hs
      rw [henc]
      simp only [List.length_append, List.length_cons, List.length_nil,
        List.flatMap_append, List.append_assoc]
      rw [show (1 + (cr.flatMap utf16EncodeChar).length)
        = (cr.flatMap utf16EncodeChar).length + 1 by omega]
      rw [readUtf16Chars]
      have hflat : ([c.toNat].flatMap fun u => uxBytes 2 u bo) = uxBytes 2 c.toNat bo := by
        simp
      rw [hflat]
      have hrd := readUx_split o bo 2 c.toNat (by norm_num; omega)
        ((cr.flatMap utf16EncodeChar).flatMap (fun u => uxBytes 2 u bo) ++ tail) secs
        (secOk_mono _ _ _ hs (by omega))
      simp only [Except.bind, Bind.bind, Except.instMonad, hrd]
      rw [if_pos (show c.toNat < 0xD800 ∨ 0xE000 ≤ c.toNat by omega)]
      have hIH := IH (secConsume 2 secs)
        (secOk_after 2 _ secs (secOk_mono _ _ _ hs (by omega)))
      rw [hIH]
      simp only [Except.bind, Bind.bind, Except.instMonad, Char.ofNat_toNat]
      rw [secConsume_add]
      rw [show 2 + 2 * (cr.flatMap utf16EncodeChar).length
        = 2 * ((cr.flatMap utf16EncodeChar).length + 1) by omega]
    · have henc : utf16EncodeChar c
          = [0xD800 + ((c.toNat - 0x10000) >>> 10),
             0xDC00 + ((c.toNat - 0x10000) &&& 0x3FF)] := by
        unfold utf16EncodeChar
        rw [if_neg hc]
      have hvlt : c.toNat - 0x10000 < 0x100000 := by omega
      have hsr : (c.toNat - 0x10000) >>> 10 = (c.toNat - 0x10000) / 1024 := by
        rw [Nat.shiftRight_eq_div_pow]
      have hand : (c.toNat - 0x10000) &&& 0x3FF = (c.toNat - 0x10000) % 1024 := by
        rw [and_mod_pow2 _ 10 _ (by norm_num)]
        norm_num
      simp only [List.flatMap_cons, henc, List.length_append, List.length_cons,
        List.length_nil] at hs
      rw [henc]
      simp only [List.length_append, List.length_cons, List.length_nil,
        List.flatMap_append, List.append_assoc]
      rw [show (2 + (cr.flatMap utf16EncodeChar).length)
        = ((cr.flatMap utf16EncodeChar).length + 1) + 1 by omega]
      rw [readUtf16Chars]
      have hflat : ([0xD800 + ((c.toNat - 0x10000) >>> 10),
          0xDC00 + ((c.toNat - 0x10000) &&& 0x3FF)].flatMap fun u => uxBytes 2 u bo)
          = uxBytes 2 (0xD800 + ((c.toNat - 0x10000) >>> 10)) bo
            ++ (uxBytes 2 (0xDC00 + ((c.toNat - 0x10000) &&& 0x3FF)) bo ++ []) := by
        simp
      rw [hflat]
      simp only [List.append_assoc, List.nil_append]
      have hrd1 := readUx_split o bo 2 (0xD800 + ((c.toNat - 0x10000) >>> 10))
        (by rw [hsr]; norm_num; omega)
        (uxBytes 2 (0xDC00 + ((c.toNat - 0x10000) &&& 0x3FF)) bo
          ++ ((cr.flatMap utf16EncodeChar).flatMap (fun u => uxBytes 2 u bo) ++ tail))
        secs (secOk_mono _ _ _ hs (by omega))
      simp only [Except.bind, Bind.bind, Except.instMonad, hrd1]
      rw [if_neg (by rw [hsr]; omega)]
      rw [if_pos (by rw [hsr]; omega)]
      have hrd2 := readUx_split o bo 2 (0xDC00 + ((c.toNat - 0x10000) &&& 0x3FF))
        (by rw [hand]; norm_num; omega)
        ((cr.flatMap utf16EncodeChar).flatMap (fun u => uxBytes 2 u bo) ++ tail)
        (secConsume 2 secs)
        (secOk_after 2 2 secs (secOk_mono _ _ _ hs (by omega)))
      simp only [Except.bind, Bind.bind, Except.instMonad, hrd2]
      rw [if_pos (by rw [hand]; omega)]
      have hIH := IH (secConsume 2 (secConsume 2 secs))
        (by
          rw [secConsume_add]
          apply secOk_after
          apply secOk_mono _ _ _ hs
          omega)
      rw [hIH]
      simp only [Except.bind, Bind.bind, Except.instMonad]
      have hchar : Char.ofNat (0x10000 + ((0xD800 + ((c.toNat - 0x10000) >>> 10) - 0xD800) <<< 10)
          + (0xDC00 + ((c.toNat - 0x10000) &&& 0x3FF) - 0xDC00)) = c := by
        rw [hsr, hand]
        rw [show 0xD800 + (c.toNat - 0x10000) / 1024 - 0xD800
          = (c.toNat - 0x10000) / 1024 by omega]
        rw [show 0xDC00 + (c.toNat - 0x10000) % 1024 - 0xDC00
          = (c.toNat - 0x10000) % 1024 by omega]
        rw [Nat.shiftLeft_eq]
        rw [show (0x10000 + (c.toNat - 0x10000) / 1024 * 2 ^ 10
          + (c.toNat - 0x10000) % 1024) = c.toNat by norm_num; omega]
        exact Char.ofNat_toNat c
      rw [hchar]
      rw [secConsume_add, secConsume_add]
      have harg : ∀ x y : Nat, x = y →
          (Except.ok (c :: cr, (⟨tail, secConsume x secs⟩ : DeState)) :
            Except Error (List Char × DeState))
          = .ok (c :: cr, ⟨tail, secConsume y secs⟩) := by
        intro x y h
        rw [h]
      exact harg _ _ (by omega)


theorem flatMap_ux2_length (bo : ByteOrder) (us : List Nat) :
    (us.flatMap (fun u => uxBytes 2 u bo)).length = 2 * us.length := by
  induction us with
  | nil => rfl
  | cons u ur IH =>
    simp only [List.flatMap_cons, List.length_append, List.length_cons, IH,
      uxBytes_length]
    omega


/-- Reading back a UTF-8 encoded string section. -/
theorem readUtf8String_enc (o : SomeIpOptions) (s : String)
    (henc : o.stringEncoding ≠ .utf16)
    (hascii : o.stringEncoding = .ascii → isAsciiString s = true)
    (tail secs : List Nat) (hs : secOk (encodedStrBytes o s).length secs) :
    readUtf8String o (encodedStrBytes o s).length ⟨encodedStrBytes o s ++ tail, secs⟩
      = .ok (s.data, ⟨tail, secConsume (encodedStrBytes o s).length secs⟩) := by
  have hsb : ∀ v : String, strBytes o v = utf8Bytes v := by
    intro v
    simp [strBytes, henc]
  have hbl : (utf8Bytes "﻿").length = 3 := rfl
  have hasciiGate :
      (o.stringEncoding == StringEncoding.ascii
        && !s.data.all fun c => decide (c.toNat ≤ 127)) = false := by
    cases he : o.stringEncoding with
    | ascii =>
      have := hascii he
      simp only [isAsciiString] at this
      simp [this]
    | utf8 => simp
    | utf16 => simp
  have harg : ∀ x y : Nat, x = y →
      (Except.ok (s.data, (⟨tail, secConsume x secs⟩ : DeState)) :
        Except Error (List Char × DeState))
      = .ok (s.data, ⟨tail, secConsume y secs⟩) := by
    intro x y h
    rw [h]
  by_cases ht : o.stringWithTerminator
  · by_cases hb : o.stringWithBom
    · have hEnc : encodedStrBytes o s = utf8Bytes "﻿" ++ (utf8Bytes s ++ [0]) := by
        simp only [encodedStrBytes, hsb, hb, ht, if_true]
        rfl
      rw [hEnc]
      rw [hEnc] at hs
      simp only [readUtf8String, hb, eq_self_iff_true, if_true]
      split
      · rename_i hcond
        exact absurd hcond (by simp)
      have hrd := readBytes_split (utf8Bytes "﻿") ((utf8Bytes s ++ [0]) ++ tail) secs
        (secOk_mono _ _ _ hs (by simp))
      rw [hbl] at hrd
      simp only [List.append_assoc] at hrd ⊢
      rw [hbl]
      simp only [Except.bind, Bind.bind, Except.instMonad, hrd]
      split
      · rename_i hcond
        exact absurd hcond (by simp)
      have hL : (utf8Bytes "﻿" ++ (utf8Bytes s ++ [0])).length - 3
          = (utf8Bytes s ++ [0]).length := by
        simp [hbl]
      rw [hL]
      have hrd2 := readBytes_split (utf8Bytes s ++ [0]) tail (secConsume 3 secs)
        (secOk_after 3 _ secs (secOk_mono _ _ _ hs (by simp [hbl])))
      simp only [List.append_assoc] at hrd2
      simp only [hrd2]
      rw [show (utf8Bytes s ++ [0]) = (utf8Bytes s ++ utf8Bytes "\x00") from rfl]
      rw [utf8Decode_utf8Bytes s (utf8Bytes "\x00")]
      rw [show utf8Decode (utf8Bytes "\x00") = some [Char.ofNat 0] from rfl]
      simp only [Option.map]
      try simp only [ht, eq_self_iff_true, if_true]
      split
      · try simp only [Except.bind, Bind.bind, Except.instMonad]
        rw [List.dropLast_concat]
        split
        · rename_i hcond
          rw [hasciiGate] at hcond
          exact absurd hcond (by simp)
        · rw [secConsume_add]
          exact harg _ _ (by simp [hbl])
      · rename_i hcond
        exact absurd (List.getLast?_concat _) hcond
    · have hEnc : encodedStrBytes o s = utf8Bytes s ++ [0] := by
        simp only [encodedStrBytes, hsb, hb, ht, if_true, Bool.false_eq_true, if_false]
        rfl
      rw [hEnc]
      rw [hEnc] at hs
      simp only [readUtf8String, hb, Bool.false_eq_true, if_false]
      try simp only [Except.bind, Bind.bind, Except.instMonad]
      have hrd2 := readBytes_split (utf8Bytes s ++ [0]) tail secs hs
      simp only [List.append_assoc] at hrd2 ⊢
      simp only [hrd2]
      rw [show (utf8Bytes s ++ [0]) = (utf8Bytes s ++ utf8Bytes "\x00") from rfl]
      rw [utf8Decode_utf8Bytes s (utf8Bytes "\x00")]
      rw [show utf8Decode (utf8Bytes "\x00") = some [Char.ofNat 0] from rfl]
      simp only [Option.map]
      try simp only [ht, eq_self_iff_true, if_true]
      split
      · try simp only [Except.bind, Bind.bind, Except.instMonad]
        rw [List.dropLast_concat]
        split
        · rename_i hcond
          rw [hasciiGate] at hcond
          exact absurd hcond (by simp)
        · exact harg _ _ (by simp)
      · rename_i hcond
        exact absurd (List.getLast?_concat _) hcond
  · by_cases hb : o.stringWithBom
    · have hEnc : encodedStrBytes o s = utf8Bytes "﻿" ++ (utf8Bytes s ++ []) := by
        simp only [encodedStrBytes, hsb, hb, ht, if_true, Bool.false_eq_true, if_false]
        simp
      rw [hEnc]
      rw [hEnc] at hs
      simp only [readUtf8String, hb, eq_self_iff_true, if_true]
      split
      · rename_i hcond
        exact absurd hcond (by simp)
      have hrd := readBytes_split (utf8Bytes "﻿") ((utf8Bytes s ++ []) ++ tail) secs
        (secOk_mono _ _ _ hs (by simp))
      rw [hbl] at hrd
      simp only [List.append_assoc] at hrd ⊢
      rw [hbl]
      simp only [Except.bind, Bind.bind, Except.instMonad, hrd]
      split
      · rename_i hcond
        exact absurd hcond (by simp)
      have hL : (utf8Bytes "﻿" ++ (utf8Bytes s ++ [])).length - 3
          = (utf8Bytes s ++ []).length := by
        simp [hbl]
      rw [hL]
      have hrd2 := readBytes_split (utf8Bytes s ++ []) tail (secConsume 3 secs)
        (secOk_after 3 _ secs (secOk_mono _ _ _ hs (by simp [hbl])))
      simp only [List.append_assoc] at hrd2
      simp only [hrd2]
      rw [show (utf8Bytes s ++ []) = (utf8Bytes s ++ utf8Bytes "") from rfl]
      rw [utf8Decode_utf8Bytes s (utf8Bytes "")]
      rw [show utf8Decode (utf8Bytes "") = some [] from rfl]
      simp only [Option.map, List.append_nil]
      try simp only [ht, Bool.false_eq_true, if_false]
      try simp only [Except.bind, Bind.bind, Except.instMonad]
      split
      · rename_i hcond
        rw [hasciiGate] at hcond
        exact absurd hcond (by simp)
      · rw [secConsume_add]
        exact harg _ _ (by simp [hbl])
    · have hEnc : encodedStrBytes o s = utf8Bytes s ++ [] := by
        simp only [encodedStrBytes, hsb, hb, ht, Bool.false_eq_true, if_false]
        simp
      rw [hEnc]
      rw [hEnc] at hs
      simp only [readUtf8String, hb, Bool.false_eq_true, if_false]
      try simp only [Except.bind, Bind.bind, Except.instMonad]
      have hrd2 := readBytes_split (utf8Bytes s ++ []) tail secs hs
      simp only [List.append_assoc] at hrd2 ⊢
      simp only [hrd2]
      rw [show (utf8Bytes s ++ []) = (utf8Bytes s ++ utf8Bytes "") from rfl]
      rw [utf8Decode_utf8Bytes s (utf8Bytes "")]
      rw [show utf8Decode (utf8Bytes "") = some [] from rfl]
      simp only [Option.map, List.append_nil]
      try simp only [ht, Bool.false_eq_true, if_false]
      try simp only [Except.bind, Bind.bind, Except.instMonad]
      split
      · rename_i hcond
        rw [hasciiGate] at hcond
        exact absurd hcond (by simp)
      · exact harg _ _ (by simp)

/-- Reading back a UTF-16 encoded string section. -/
theorem readUtf16String_enc (o : SomeIpOptions) (s : String)
    (henc : o.stringEncoding = .utf16)
    (tail secs : List Nat) (hs : secOk (encodedStrBytes o s).length secs) :
    readUtf16String o (encodedStrBytes o s).length ⟨encodedStrBytes o s ++ tail, secs⟩
      = .ok (s.data, ⟨tail, secConsume (encodedStrBytes o s).length secs⟩) := by
  have hsb : ∀ v : String, strBytes o v
      = (utf16Units v).flatMap (fun u => uxBytes 2 u o.byteOrder) := by
    intro v
    simp [strBytes, henc]
  have h0 : utf16EncodeChar (Char.ofNat 0) = [0] := rfl
  have hbomu : utf16Units "﻿" = [0xFEFF] := rfl
  have hbomc : utf16EncodeChar '\uFEFF' = [0xFEFF] := rfl
  have h00 : utf16Units "\x00" = [0] := rfl
  have hcat : (s.data ++ [Char.ofNat 0]).flatMap utf16EncodeChar
      = utf16Units s ++ [0] := by
    rw [List.flatMap_append]
    simp [h0, utf16Units]
  have harg : ∀ x y : Nat, x = y →
      (Except.ok (s.data, (⟨tail, secConsume x secs⟩ : DeState)) :
        Except Error (List Char × DeState))
      = .ok (s.data, ⟨tail, secConsume y secs⟩) := by
    intro x y h
    rw [h]
  by_cases ht : o.stringWithTerminator
  · by_cases hb : o.stringWithBom
    · have hEnc : encodedStrBytes o s
          = uxBytes 2 0xFEFF o.byteOrder
            ++ ((s.data ++ [Char.ofNat 0]).flatMap utf16EncodeChar).flatMap
                 (fun u => uxBytes 2 u o.byteOrder) := by
        simp only [encodedStrBytes, hsb, hb, ht, if_true, hcat, hbomu, h00,
          List.flatMap_append, List.flatMap_cons, List.flatMap_nil,
          List.append_nil, List.append_assoc]
      have hlen : (encodedStrBytes o s).length
          = 2 + 2 * ((s.data ++ [Char.ofNat 0]).flatMap utf16EncodeChar).length := by
        rw [hEnc, List.length_append, flatMap_ux2_length, uxBytes_length]
      rw [hlen]
      rw [hlen] at hs
      rw [hEnc]
      simp only [List.append_assoc]
      simp only [readUtf16String]
      split
      · rename_i hcond
        exact absurd hcond (by omega)
      have hrd := readBytes_split (uxBytes 2 0xFEFF o.byteOrder)
        (((s.data ++ [Char.ofNat 0]).flatMap utf16EncodeChar).flatMap
          (fun u => uxBytes 2 u o.byteOrder) ++ tail) secs
        (by rw [uxBytes_length]; exact secOk_mono _ _ _ hs (by omega))
      rw [uxBytes_length] at hrd
      have hdiv0 : (2 + 2 * ((s.data ++ [Char.ofNat 0]).flatMap utf16EncodeChar).length) / 2
          = 1 + ((s.data ++ [Char.ofNat 0]).flatMap utf16EncodeChar).length := by
        omega
      rw [hdiv0]
      split
      · rename_i hcond
        exact absurd hcond (by omega)
      simp only [Except.bind, Bind.bind, Except.instMonad, hrd]
      have hchars := readUtf16Chars_enc o o.byteOrder (s.data ++ [Char.ofNat 0]) tail
        (secConsume 2 secs)
        (secOk_after 2 _ secs (secOk_mono _ _ _ hs (by omega)))
      cases hbo : o.byteOrder with
      | bigEndian =>
        rw [hbo] at hrd hchars
        rw [show uxBytes 2 0xFEFF ByteOrder.bigEndian = [0xFE, 0xFF] from rfl] at hrd ⊢
        simp only [hrd]
        split
        · try simp only [Except.bind, Bind.bind, Except.instMonad]
          rw [show 1 + ((s.data ++ [Char.ofNat 0]).flatMap utf16EncodeChar).length - 1
            = ((s.data ++ [Char.ofNat 0]).flatMap utf16EncodeChar).length from by omega]
          rw [hchars]
          try simp only [ht, eq_self_iff_true, if_true]
          split
          · try simp only [Except.bind, Bind.bind, Except.instMonad]
            rw [List.dropLast_concat]
            rw [secConsume_add]
          · rename_i hcond
            exact absurd (List.getLast?_concat _) hcond
        · rename_i hcond
          first
          | exact absurd rfl hcond
          | exact absurd trivial hcond
      | littleEndian =>
        rw [hbo] at hrd hchars
        rw [show uxBytes 2 0xFEFF ByteOrder.littleEndian = [0xFF, 0xFE] from rfl] at hrd ⊢
        simp only [hrd]
        split
        · rename_i hcond
          exact absurd hcond (by simp)
        split
        · try simp only [Except.bind, Bind.bind, Except.instMonad]
          rw [show 1 + ((s.data ++ [Char.ofNat 0]).flatMap utf16EncodeChar).length - 1
            = ((s.data ++ [Char.ofNat 0]).flatMap utf16EncodeChar).length from by omega]
          rw [hchars]
          try simp only [ht, eq_self_iff_true, if_true]
          split
          · try simp only [Except.bind, Bind.bind, Except.instMonad]
            rw [List.dropLast_concat]
            rw [secConsume_add]
          · rename_i hcond
            exact absurd (List.getLast?_concat _) hcond
        · rename_i hcond
          first
          | exact absurd rfl hcond
          | exact absurd trivial hcond
    · have hEnc : encodedStrBytes o s
          = ((s.data ++ [Char.ofNat 0]).flatMap utf16EncodeChar).flatMap
                 (fun u => uxBytes 2 u o.byteOrder) := by
        simp only [encodedStrBytes, hsb, hb, ht, if_true, hcat, h00,
          Bool.false_eq_true, if_false, List.flatMap_append, List.flatMap_cons,
          List.flatMap_nil, List.append_nil, List.nil_append, List.append_assoc]
      have hlen : (encodedStrBytes o s).length
          = 2 * ((s.data ++ [Char.ofNat 0]).flatMap utf16EncodeChar).length := by
        rw [hEnc, flatMap_ux2_length]
      rw [hlen]
      rw [hlen] at hs
      rw [hEnc]
      simp only [readUtf16String]
      split
      · rename_i hcond
        exact absurd hcond (by omega)
      have hdiv0 : 2 * ((s.data ++ [Char.ofNat 0]).flatMap utf16EncodeChar).length / 2
          = ((s.data ++ [Char.ofNat 0]).flatMap utf16EncodeChar).length := by
        omega
      rw [hdiv0]
      have hchars := readUtf16Chars_enc o o.byteOrder (s.data ++ [Char.ofNat 0]) tail
        secs hs
      try simp only [Except.bind, Bind.bind, Except.instMonad]
      rw [hchars]
      try simp only [Except.bind, Bind.bind, Except.instMonad]
      try simp only [ht, eq_self_iff_true, if_true]
      split
      · try simp only [Except.bind, Bind.bind, Except.instMonad]
        rw [List.dropLast_concat]
        try exact harg _ _ (by omega)
      · rename_i hcond
        exact absurd (List.getLast?_concat _) hcond
  · by_cases hb : o.stringWithBom
    · have hEnc : encodedStrBytes o s
          = uxBytes 2 0xFEFF o.byteOrder
            ++ (s.data.flatMap utf16EncodeChar).flatMap
                 (fun u => uxBytes 2 u o.byteOrder) := by
        simp only [encodedStrBytes, hsb, hb, ht, if_true, hbomu, hbomc,
          Bool.false_eq_true, if_false, List.flatMap_append, List.flatMap_cons,
          List.flatMap_nil, List.append_nil, List.nil_append, List.append_assoc,
          utf16Units]
      have hlen : (encodedStrBytes o s).length
          = 2 + 2 * (s.data.flatMap utf16EncodeChar).length := by
        rw [hEnc, List.length_append, flatMap_ux2_length, uxBytes_length]
      rw [hlen]
      rw [hlen] at hs
      rw [hEnc]
      simp only [List.append_assoc]
      simp only [readUtf16String]
      split
      · rename_i hcond
        exact absurd hcond (by omega)
      have hrd := readBytes_split (uxBytes 2 0xFEFF o.byteOrder)
        ((s.data.flatMap utf16EncodeChar).flatMap
          (fun u => uxBytes 2 u o.byteOrder) ++ tail) secs
        (by rw [uxBytes_length]; exact secOk_mono _ _ _ hs (by omega))
      rw [uxBytes_length] at hrd
      have hdiv0 : (2 + 2 * (s.data.flatMap utf16EncodeChar).length) / 2
          = 1 + (s.data.flatMap utf16EncodeChar).length := by
        omega
      rw [hdiv0]
      split
      · rename_i hcond
        exact absurd hcond (by omega)
      simp only [Except.bind, Bind.bind, Except.instMonad, hrd]
      have hchars := readUtf16Chars_enc o o.byteOrder s.data tail
        (secConsume 2 secs)
        (secOk_after 2 _ secs (secOk_mono _ _ _ hs (by omega)))
      cases hbo : o.byteOrder with
      | bigEndian =>
        rw [hbo] at hrd hchars
        rw [show uxBytes 2 0xFEFF ByteOrder.bigEndian = [0xFE, 0xFF] from rfl] at hrd ⊢
        simp only [hrd]
        split
        · try simp only [Except.bind, Bind.bind, Except.instMonad]
          rw [show 1 + (s.data.flatMap utf16EncodeChar).length - 1
            = (s.data.flatMap utf16EncodeChar).length from by omega]
          rw [hchars]
          try simp only [Except.bind, Bind.bind, Except.instMonad]
          try simp only [ht, Bool.false_eq_true, if_false]
          rw [secConsume_add]
        · rename_i hcond
          first
          | exact absurd rfl hcond
          | exact absurd trivial hcond
      | littleEndian =>
        rw [hbo] at hrd hchars
        rw [show uxBytes 2 0xFEFF ByteOrder.littleEndian = [0xFF, 0xFE] from rfl] at hrd ⊢
        simp only [hrd]
        split
        · rename_i hcond
          exact absurd hcond (by simp)
        split
        · try simp only [Except.bind, Bind.bind, Except.instMonad]
          rw [show 1 + (s.data.flatMap utf16EncodeChar).length - 1
            = (s.data.flatMap utf16EncodeChar).length from by omega]
          rw [hchars]
          try simp only [Except.bind, Bind.bind, Except.instMonad]
          try simp only [ht, Bool.false_eq_true, if_false]
          rw [secConsume_add]
        · rename_i hcond
          first
          | exact absurd rfl hcond
          | exact absurd trivial hcond
    · have hEnc : encodedStrBytes o s
          = (s.data.flatMap utf16EncodeChar).flatMap
                 (fun u => uxBytes 2 u o.byteOrder) := by
        simp only [encodedStrBytes, hsb, hb, ht,
          Bool.false_eq_true, if_false, List.append_nil, List.nil_append,
          utf16Units]
      have hlen : (encodedStrBytes o s).length
          = 2 * (s.data.flatMap utf16EncodeChar).length := by
        rw [hEnc, flatMap_ux2_length]
      rw [hlen]
      rw [hlen] at hs
      rw [hEnc]
      simp only [readUtf16String]
      split
      · rename_i hcond
        exact absurd hcond (by omega)
      have hdiv0 : 2 * (s.data.flatMap utf16EncodeChar).length / 2
          = (s.data.flatMap utf16EncodeChar).length := by
        omega
      rw [hdiv0]
      have hchars := readUtf16Chars_enc o o.byteOrder s.data tail
        secs hs
      try simp only [Except.bind, Bind.bind, Except.instMonad]
      rw [hchars]
      try simp only [Except.bind, Bind.bind, Except.instMonad]
      try simp only [ht, Bool.false_eq_true, if_false]

/-- Reading back an encoded string with the configured encoding. -/
theorem readStr_enc (o : SomeIpOptions) (s : String)
    (hascii : o.stringEncoding = .ascii → isAsciiString s = true)
    (tail secs : List Nat) (hs : secOk (encodedStrBytes o s).length secs) :
    readStr o (encodedStrBytes o s).length ⟨encodedStrBytes o s ++ tail, secs⟩
      = .ok (s, ⟨tail, secConsume (encodedStrBytes o s).length secs⟩) := by
  cases hse : o.stringEncoding with
  | utf16 =>
    simp only [readStr, hse]
    rw [readUtf16String_enc o s hse tail secs hs]
    try simp only [Except.bind, Bind.bind, Except.instMonad]
    rw [show (StringEncoding.utf16 == StringEncoding.utf16) = true from rfl]
    rw [if_pos rfl]
  | utf8 =>
    simp only [readStr, hse]
    rw [readUtf8String_enc o s (by rw [hse]; intro h; cases h)
      (by rw [hse]; intro h; cases h) tail secs hs]
    try simp only [Except.bind, Bind.bind, Except.instMonad]
    rw [show (StringEncoding.utf8 == StringEncoding.utf16) = false from rfl]
    rw [if_neg Bool.false_ne_true]
  | ascii =>
    simp only [readStr, hse]
    rw [readUtf8String_enc o s (by rw [hse]; intro h; cases h)
      (fun _ => hascii hse) tail secs hs]
    try simp only [Except.bind, Bind.bind, Except.instMonad]
    rw [show (StringEncoding.ascii == StringEncoding.utf16) = false from rfl]
    rw [if_neg Bool.false_ne_true]

/-- `mapM` into `Except` only depends on the function's values on the list. -/
theorem mapM_except_congr {α β : Type} (f g : α → Except Error β) (l : List α)
    (h : ∀ x ∈ l, f x = g x) : l.mapM f = l.mapM g := by
  induction l with
  | nil => rfl
  | cons x xs IH =>
    simp only [List.mapM_cons]
    rw [h x (List.mem_cons_self x xs), IH (fun y hy => h y (List.mem_cons_of_mem x hy))]

/-- Every collected TLV pair is named after one of the declared fields. -/
theorem tlvPairs_names (fields : List SomeIpField) (vals : List Value)
    (p : String × Value) (hp : p ∈ tlvPairs fields vals) :
    ∃ f ∈ fields, p.1 = f.1 := by
  induction fields generalizing vals with
  | nil =>
    cases vals with
    | nil => simp [tlvPairs] at hp
    | cons v vr => simp [tlvPairs] at hp
  | cons f fr IH =>
    cases vals with
    | nil => simp [tlvPairs] at hp
    | cons v vr =>
      have hsub : p ∈ tlvPairs fr vr → ∃ g ∈ f :: fr, p.1 = g.1 := by
        intro hmem
        obtain ⟨g, hg, he⟩ := IH vr hmem
        exact ⟨g, List.mem_cons_of_mem f hg, he⟩
      have hcons : ∀ w : Value, p ∈ (f.1, w) :: tlvPairs fr vr →
          ∃ g ∈ f :: fr, p.1 = g.1 := by
        intro w hmem
        rcases List.mem_cons.mp hmem with he | hmem2
        · exact ⟨f, List.mem_cons_self f fr, by rw [he]⟩
        · exact hsub hmem2
      cases v with
      | bool b => exact hcons _ hp
      | prim w bits => exact hcons _ hp
      | str s => exact hcons _ hp
      | seq vs => exact hcons _ hp
      | vstruct vs => exact hcons _ hp
      | enumv n => exact hcons _ hp
      | opt ov =>
        cases ov with
        | none => exact hsub hp
        | some w => exact hcons _ hp

/-- Distinct field names make the collected TLV pair names distinct. -/
theorem tlvPairs_nodup (fields : List SomeIpField) (vals : List Value)
    (hdn : distinctBy (fun f => f.1) fields = true) :
    ((tlvPairs fields vals).map (fun p => p.1)).Nodup := by
  induction fields generalizing vals with
  | nil =>
    cases vals with
    | nil => simp [tlvPairs]
    | cons v vr => simp [tlvPairs]
  | cons f fr IH =>
    simp only [distinctBy, Bool.and_eq_true, Bool.not_eq_true'] at hdn
    obtain ⟨hnot, hfr⟩ := hdn
    cases vals with
    | nil => simp [tlvPairs]
    | cons v vr =>
      have hne : ∀ p ∈ tlvPairs fr vr, ¬ p.1 = f.1 := by
        intro p hp he
        obtain ⟨g, hg, hpe⟩ := tlvPairs_names fr vr p hp
        have : fr.any (fun y => y.1 == f.1) = true :=
          List.any_eq_true.mpr ⟨g, hg, by rw [← hpe, he]; exact beq_self_eq_true _⟩
        rw [this] at hnot
        cases hnot
      have hcons : ∀ w : Value, (((f.1, w) :: tlvPairs fr vr).map (fun p => p.1)).Nodup := by
        intro w
        simp only [List.map_cons, List.nodup_cons]
        constructor
        · intro hmem
          obtain ⟨p, hp, hpe⟩ := List.mem_map.mp hmem
          exact hne p hp hpe
        · exact IH vr hfr
      cases v with
      | bool b => exact hcons _
      | prim w bits => exact hcons _
      | str s => exact hcons _
      | seq vs => exact hcons _
      | vstruct vs => exact hcons _
      | enumv n => exact hcons _
      | opt ov =>
        cases ov with
        | none => exact IH vr hfr
        | some w => exact hcons _


/-- Rebuilding the declared fields from the collected TLV pairs restores the
original field values. -/
theorem tlvFields_mapM (o : SomeIpOptions) (isOpt : String → String → Bool)
    (name : String) (fields : List SomeIpField) (vals : List Value)
    (hdn : distinctBy (fun f => f.1) fields = true)
    (hv : rtValidFields o isOpt name true fields vals = true) :
    fields.mapM (fun f =>
      match (tlvPairs fields vals).find? (fun p => p.1 == f.1) with
      | some p => Except.ok p.2
      | none =>
        if isOpt name f.1 then Except.ok (Value.opt none)
        else Except.error (Error.message ("missing field " ++ f.1)))
      = .ok vals := by
  induction fields generalizing vals with
  | nil =>
    cases vals with
    | nil => rfl
    | cons v vr => simp [rtValidFields] at hv
  | cons f fr IH =>
    cases vals with
    | nil => simp [rtValidFields] at hv
    | cons v vr =>
      simp only [distinctBy, Bool.and_eq_true, Bool.not_eq_true'] at hdn
      obtain ⟨hnot, hfr⟩ := hdn
      unfold rtValidFields at hv
      rw [Bool.and_eq_true] at hv
      obtain ⟨hv1, hvr⟩ := hv
      have hfne : ∀ g ∈ fr, (f.1 == g.1) = false := by
        intro g hg
        by_contra hne
        have hgf : (g.1 == f.1) = true := by
          have := beq_iff_eq.mp (Bool.of_not_eq_false hne)
          rw [this]
          exact beq_self_eq_true _
        have : fr.any (fun y => y.1 == f.1) = true := List.any_eq_true.mpr ⟨g, hg, hgf⟩
        rw [this] at hnot
        cases hnot
      have hnone : (tlvPairs fr vr).find? (fun p => p.1 == f.1) = none := by
        rw [List.find?_eq_none]
        intro p hp
        obtain ⟨g, hg, hpe⟩ := tlvPairs_names fr vr p hp
        have hne : (g.1 == f.1) = false := by
          by_contra hx
          have : fr.any (fun y => y.1 == f.1) = true :=
            List.any_eq_true.mpr ⟨g, hg, Bool.of_not_eq_false hx⟩
          rw [this] at hnot
          cases hnot
        rw [hpe, hne]
        exact Bool.false_ne_true
      have hcons : ∀ w : Value, w = v →
          (f :: fr).mapM (fun g =>
            match ((f.1, w) :: tlvPairs fr vr).find? (fun p => p.1 == g.1) with
            | some p => Except.ok p.2
            | none =>
              if isOpt name g.1 then Except.ok (Value.opt none)
              else Except.error (Error.message ("missing field " ++ g.1)))
            = .ok (v :: vr) := by
        intro w hw
        rw [List.mapM_cons]
        have hhead : ((f.1, w) :: tlvPairs fr vr).find? (fun p => p.1 == f.1)
            = some (f.1, w) := by
          rw [List.find?_cons_of_pos]
          exact beq_self_eq_true _
        have htail : fr.mapM (fun g =>
            match ((f.1, w) :: tlvPairs fr vr).find? (fun p => p.1 == g.1) with
            | some p => Except.ok p.2
            | none =>
              if isOpt name g.1 then Except.ok (Value.opt none)
              else Except.error (Error.message ("missing field " ++ g.1)))
            = .ok vr := by
          rw [mapM_except_congr _ (fun g =>
            match (tlvPairs fr vr).find? (fun p => p.1 == g.1) with
            | some p => Except.ok p.2
            | none =>
              if isOpt name g.1 then Except.ok (Value.opt none)
              else Except.error (Error.message ("missing field " ++ g.1)))]
          · exact IH vr hfr hvr
          · intro g hg
            rw [List.find?_cons_of_neg]
            rw [hfne g hg]
            exact Bool.false_ne_true
        rw [hhead, htail, hw]
        rfl
      cases v with
      | bool b => exact hcons _ rfl
      | prim w bits => exact hcons _ rfl
      | str s => exact hcons _ rfl
      | seq vs => exact hcons _ rfl
      | vstruct vs => exact hcons _ rfl
      | enumv n => exact hcons _ rfl
      | opt ov =>
        cases ov with
        | some w => exact hcons _ rfl
        | none =>
          have hio : isOpt name f.1 = true := by
            by_cases hio : isOpt name f.1
            · exact hio
            · simp [hio] at hv1
          rw [List.mapM_cons]
          have hstep : tlvPairs (f :: fr) (Value.opt none :: vr) = tlvPairs fr vr := rfl
          rw [hstep, hnone, hio]
          have htail : fr.mapM (fun g =>
              match (tlvPairs fr vr).find? (fun p => p.1 == g.1) with
              | some p => Except.ok p.2
              | none =>
                if isOpt name g.1 then Except.ok (Value.opt none)
                else Except.error (Error.message ("missing field " ++ g.1)))
              = .ok vr := IH vr hfr hvr
          rw [htail]
          try rfl


/-- Rebuilding a TLV struct from the pairs its own serialization produces
gives back the original field values. -/
theorem buildTlvStruct_tlvPairs (o : SomeIpOptions) (isOpt : String → String → Bool)
    (name : String) (fields : List SomeIpField) (vals : List Value)
    (hdn : distinctBy (fun f => f.1) fields = true)
    (hv : rtValidFields o isOpt name true fields vals = true) :
    buildTlvStruct isOpt name fields (tlvPairs fields vals) = .ok vals := by
  unfold buildTlvStruct
  rw [if_pos (tlvPairs_nodup fields vals hdn)]
  exact tlvFields_mapM o isOpt name fields vals hdn hv


/-- Tag arithmetic: a wire type code in the top bits and an id below 0x1000
disect back into the code and the id. -/
theorem tag_core (k id : Nat) (hk : k ≤ 7) (hid : id < 4096) :
    ((k * 4096 ||| id) >>> 12) &&& 7 = k ∧ 0xFFF &&& (k * 4096 ||| id) = id := by
  have hor : k * 4096 ||| id = k * 4096 + id := by
    have h := shl_or_eq_add k id 12 (by norm_num; omega)
    rw [Nat.shiftLeft_eq] at h
    norm_num at h
    exact h
  rw [hor]
  constructor
  · rw [Nat.shiftRight_eq_div_pow]
    norm_num
    rw [Nat.mul_comm k 4096, Nat.mul_add_div (by norm_num)]
    rw [Nat.div_eq_of_lt hid, Nat.add_zero]
    rw [and_mod_pow2 k 3 7 (by norm_num)]
    omega
  · rw [Nat.and_comm, and_mod_pow2 _ 12 _ (by norm_num)]
    norm_num
    rw [Nat.mul_comm k 4096, Nat.mul_add_mod]
    exact Nat.mod_eq_of_lt hid

/-- Disecting a freshly written TLV tag returns the written wire type. -/
theorem ofU16_tag (wt : WireType) (id : Nat) (hid : id < 0x1000) :
    WireType.ofU16 (wt.toU16 ||| id) = some wt := by
  cases wt <;>
  · simp only [WireType.toU16, WireType.ofU16]
    first
    | exact (show WireType.ofCode (((0 * 4096 ||| id) >>> 12) &&& 7) = _ from by
        rw [(tag_core 0 id (by omega) hid).1]; rfl)
    | exact (show WireType.ofCode (((1 * 4096 ||| id) >>> 12) &&& 7) = _ from by
        rw [(tag_core 1 id (by omega) hid).1]; rfl)
    | exact (show WireType.ofCode (((2 * 4096 ||| id) >>> 12) &&& 7) = _ from by
        rw [(tag_core 2 id (by omega) hid).1]; rfl)
    | exact (show WireType.ofCode (((3 * 4096 ||| id) >>> 12) &&& 7) = _ from by
        rw [(tag_core 3 id (by omega) hid).1]; rfl)
    | exact (show WireType.ofCode (((4 * 4096 ||| id) >>> 12) &&& 7) = _ from by
        rw [(tag_core 4 id (by omega) hid).1]; rfl)
    | exact (show WireType.ofCode (((5 * 4096 ||| id) >>> 12) &&& 7) = _ from by
        rw [(tag_core 5 id (by omega) hid).1]; rfl)
    | exact (show WireType.ofCode (((6 * 4096 ||| id) >>> 12) &&& 7) = _ from by
        rw [(tag_core 6 id (by omega) hid).1]; rfl)
    | exact (show WireType.ofCode (((7 * 4096 ||| id) >>> 12) &&& 7) = _ from by
        rw [(tag_core 7 id (by omega) hid).1]; rfl)

/-- Masking a freshly written TLV tag returns the written id. -/
theorem and_tag (wt : WireType) (id : Nat) (hid : id < 0x1000) :
    0xFFF &&& (wt.toU16 ||| id) = id := by
  cases wt <;>
  · simp only [WireType.toU16]
    first
    | exact (show 0xFFF &&& (0 * 4096 ||| id) = id from (tag_core 0 id (by omega) hid).2)
    | exact (show 0xFFF &&& (1 * 4096 ||| id) = id from (tag_core 1 id (by omega) hid).2)
    | exact (show 0xFFF &&& (2 * 4096 ||| id) = id from (tag_core 2 id (by omega) hid).2)
    | exact (show 0xFFF &&& (3 * 4096 ||| id) = id from (tag_core 3 id (by omega) hid).2)
    | exact (show 0xFFF &&& (4 * 4096 ||| id) = id from (tag_core 4 id (by omega) hid).2)
    | exact (show 0xFFF &&& (5 * 4096 ||| id) = id from (tag_core 5 id (by omega) hid).2)
    | exact (show 0xFFF &&& (6 * 4096 ||| id) = id from (tag_core 6 id (by omega) hid).2)
    | exact (show 0xFFF &&& (7 * 4096 ||| id) = id from (tag_core 7 id (by omega) hid).2)

/-- A wire type always checks against itself. -/
theorem check_self (wt : WireType) : wt.check wt = .ok () := by
  cases wt <;> rfl

/-- The length delimited wire type of any length field size checks against a
`lengthDelimitedFromConfig` expectation. -/
theorem check_ofLfs (a : LengthFieldSize) :
    WireType.lengthDelimitedFromConfig.check (WireType.ofLengthFieldSize a) = .ok () := by
  cases a <;> rfl

/-- The rewritten tag's wire type carries the used length field size. -/
theorem getLfs_ofLfs (a : LengthFieldSize) :
    (WireType.ofLengthFieldSize a).getLengthFieldSize = some a := by
  cases a <;> rfl


/-- With distinct ids, looking a member field up by its id finds it. -/
theorem fieldById_mem (fields : List SomeIpField) (g : SomeIpField) (gid : Nat)
    (hdn : distinctBy (fun f => f.2.1) fields = true)
    (hg : g ∈ fields) (hgid : g.2.1 = some gid) :
    fieldById fields gid = some g := by
  induction fields with
  | nil => cases hg
  | cons f fr IH =>
    simp only [distinctBy, Bool.and_eq_true, Bool.not_eq_true'] at hdn
    obtain ⟨hnot, hfr⟩ := hdn
    rcases List.mem_cons.mp hg with rfl | hg2
    · simp only [fieldById, List.find?_cons_of_pos]
      · rw [List.find?_cons_of_pos]
        rw [hgid]
        exact beq_self_eq_true _
    · have hne : (f.2.1 == some gid) = false := by
        by_contra hx
        have hfe : f.2.1 = some gid := beq_iff_eq.mp (Bool.of_not_eq_false hx)
        have : fr.any (fun y => y.2.1 == f.2.1) = true :=
          List.any_eq_true.mpr ⟨g, hg2, by rw [hgid, hfe]; exact beq_self_eq_true _⟩
        rw [this] at hnot
        cases hnot
      simp only [fieldById] at IH ⊢
      rw [List.find?_cons_of_neg]
      · exact IH hfr hg2
      · rw [hne]
        exact Bool.false_ne_true

/-- With distinct names, looking a member field up by its name finds it. -/
theorem fieldByName_mem (fields : List SomeIpField) (g : SomeIpField)
    (hdn : distinctBy (fun f => f.1) fields = true)
    (hg : g ∈ fields) :
    fieldByName fields g.1 = some g := by
  induction fields with
  | nil => cases hg
  | cons f fr IH =>
    simp only [distinctBy, Bool.and_eq_true, Bool.not_eq_true'] at hdn
    obtain ⟨hnot, hfr⟩ := hdn
    rcases List.mem_cons.mp hg with rfl | hg2
    · rw [fieldByName, List.find?_cons_of_pos]
      exact beq_self_eq_true _
    · have hne : (f.1 == g.1) = false := by
        by_contra hx
        have hfe : f.1 = g.1 := beq_iff_eq.mp (Bool.of_not_eq_false hx)
        have : fr.any (fun y => y.1 == f.1) = true :=
          List.any_eq_true.mpr ⟨g, hg2, by rw [hfe]; exact beq_self_eq_true _⟩
        rw [this] at hnot
        cases hnot
      simp only [fieldByName] at IH ⊢
      rw [List.find?_cons_of_neg]
      · exact IH hfr hg2
      · rw [hne]
        exact Bool.false_ne_true

/-- Bool values round trip through one byte. -/
theorem serValue_bool (o : SomeIpOptions) (isOpt : String → String → Bool)
    (bb : Bool) (st st' : SerState) (b : Bool)
    (hser : serValue o (.primitive .bool) (.bool bb) st = .ok st') :
    SerOk o isOpt (.primitive .bool) (.bool bb) st st' b := by
  have hst : st' = st.writeU8 (if bb then 1 else 0) := by
    simp only [serValue] at hser
    exact (Except.ok.inj hser).symm
  subst hst
  refine ⟨[if bb then 1 else 0], rfl, rfl, ?_, ?_, ?_, ?_⟩
  · intro _ _
    simp [SomeIpType.maxLen, SomeIpPrimitive.getLen]
  · intro _ _ _
    simp
  · simp [SomeIpType.wantedLengthField]
  · intro fuel nlfs tail secs hfuel hsec hnl hw
    match fuel, hfuel with
    | fuel + 1, _ =>
      simp only [deValue, deserializeBool]
      have hrd := readU8_split (if bb then 1 else 0) tail secs
        (by simpa using hsec)
      simp only [List.cons_append] at hrd
      have hstep : (if bb then (1 : Nat) else 0) :: (tail ++ []) = (if bb then 1 else 0) :: tail := by
        simp
      simp only [List.singleton_append] at *
      simp only [Except.bind, Bind.bind, Except.instMonad, hrd]
      rw [if_neg (by cases bb <;> simp)]
      cases bb <;> simp [SerState.writeU8]


/-- Non-bool primitive values round trip through their fixed width bytes. -/
theorem serValue_prim (o : SomeIpOptions) (isOpt : String → String → Bool)
    (p : SomeIpPrimitive) (width bits : Nat) (st st' : SerState) (b : Bool)
    (hv : rtValid o isOpt b (.primitive p) (.prim width bits) = true)
    (hser : serValue o (.primitive p) (.prim width bits) st = .ok st') :
    SerOk o isOpt (.primitive p) (.prim width bits) st st' b := by
  unfold rtValid at hv
  simp only [Bool.and_eq_true, bne_iff_ne, beq_iff_eq, decide_eq_true_eq] at hv
  obtain ⟨⟨hp, hw⟩, hbits⟩ := hv
  subst hw
  cases p
  case bool => exact absurd rfl hp
  all_goals simp only [SomeIpPrimitive.getLen] at hbits
  all_goals simp only [serValue, SomeIpPrimitive.getLen] at hser
  all_goals (
    first
    | (rw [if_pos (beq_self_eq_true 1)] at hser
       have hst : st' = st.writeU8 bits := (Except.ok.inj hser).symm
       subst hst
       refine ⟨[bits], rfl, rfl, ?_, ?_, ?_, ?_⟩
       · intro _ _
         simp [SomeIpType.maxLen, SomeIpPrimitive.getLen]
       · intro _ _ _
         simp
       · simp [SomeIpType.wantedLengthField]
       · intro fuel nlfs tail secs hfuel hsec hnl hw2
         match fuel, hfuel with
         | fuel + 1, _ =>
           simp only [deValue, SomeIpPrimitive.getLen]
           rw [if_pos (beq_self_eq_true 1)]
           have hrd := readU8_split bits tail secs (by simpa using hsec)
           simp only [List.singleton_append] at *
           simp only [Except.bind, Bind.bind, Except.instMonad, hrd]
           rfl)
    | (rw [if_neg (by decide)] at hser
       have hst : st' = st.writeUx _ bits o.byteOrder := (Except.ok.inj hser).symm
       subst hst
       refine ⟨uxBytes _ bits o.byteOrder, rfl, rfl, ?_, ?_, ?_, ?_⟩
       · intro _ _
         simp [SomeIpType.maxLen, SomeIpPrimitive.getLen, uxBytes_length]
       · intro _ _ _
         simp [uxBytes_length]
       · simp [SomeIpType.wantedLengthField]
       · intro fuel nlfs tail secs hfuel hsec hnl hw2
         match fuel, hfuel with
         | fuel + 1, _ =>
           simp only [deValue, SomeIpPrimitive.getLen]
           rw [if_neg (by decide)]
           have hrd := readUx_split o o.byteOrder _ bits (by exact hbits) tail secs
             (by simpa [uxBytes_length] using hsec)
           simp only [Except.bind, Bind.bind, Except.instMonad, hrd]
           simp [uxBytes_length, SerState.writeUx]))


/-- With distinct raw values, looking the found variant's raw value up
again returns the same variant. -/
theorem enum_find_back (values : List (String × Nat)) (nv : String × Nat)
    (hdv : distinctBy (fun x => x.2) values = true) (hmem : nv ∈ values) :
    values.find? (fun x => x.2 == nv.2) = some nv := by
  induction values with
  | nil => cases hmem
  | cons y yr IH =>
    simp only [distinctBy, Bool.and_eq_true, Bool.not_eq_true'] at hdv
    obtain ⟨hnot, hyr⟩ := hdv
    rcases List.mem_cons.mp hmem with rfl | hm2
    · rw [List.find?_cons_of_pos]
      exact beq_self_eq_true _
    · have hne : (y.2 == nv.2) = false := by
        by_contra hx
        have hye : y.2 = nv.2 := beq_iff_eq.mp (Bool.of_not_eq_false hx)
        have : yr.any (fun z => z.2 == y.2) = true :=
          List.any_eq_true.mpr ⟨nv, hm2, by rw [hye]; exact beq_self_eq_true _⟩
        rw [this] at hnot
        cases hnot
      rw [List.find?_cons_of_neg]
      · exact IH hyr hm2
      · rw [hne]
        exact Bool.false_ne_true

/-- Enum values round trip through the raw value bytes. -/
theorem serValue_enum (o : SomeIpOptions) (isOpt : String → String → Bool)
    (name : String) (rawType : SomeIpPrimitive) (values : List (String × Nat))
    (variant : String) (st st' : SerState) (b : Bool)
    (hv : rtValid o isOpt b (.enum name rawType values) (.enumv variant) = true)
    (hser : serValue o (.enum name rawType values) (.enumv variant) st = .ok st') :
    SerOk o isOpt (.enum name rawType values) (.enumv variant) st st' b := by
  unfold rtValid at hv
  simp only [Bool.and_eq_true, bne_iff_ne] at hv
  obtain ⟨⟨⟨⟨hraw, hdn⟩, hdv⟩, hall⟩, hany⟩ := hv
  simp only [serValue] at hser
  cases hfind : values.find? (fun nv => nv.1 == variant) with
  | none =>
    rw [hfind] at hser
    exact Except.noConfusion hser
  | some nv =>
    rw [hfind] at hser
    dsimp only at hser
    have hmem : nv ∈ values := List.mem_of_find?_eq_some hfind
    have hnv1 : nv.1 = variant := by
      have := List.find?_some hfind
      exact beq_iff_eq.mp this
    have hnvlt : nv.2 < 2 ^ (8 * rawType.getLen) := by
      have := List.all_eq_true.mp hall nv hmem
      exact decide_eq_true_eq.mp this
    have hback : values.find? (fun x => x.2 == nv.2) = some nv :=
      enum_find_back values nv hdv hmem
    have hraw3 : (rawType == SomeIpPrimitive.bool
        || rawType == SomeIpPrimitive.f32 || rawType == SomeIpPrimitive.f64) = false := by
      cases rawType <;> simp_all
    by_cases hL : rawType.getLen = 1
    · rw [hL] at hser hnvlt
      rw [if_pos (beq_self_eq_true 1)] at hser
      have hst : st' = st.writeU8 nv.2 := (Except.ok.inj hser).symm
      subst hst
      refine ⟨[nv.2], rfl, rfl, ?_, ?_, ?_, ?_⟩
      · intro _ _
        simp [SomeIpType.maxLen, hL]
      · intro _ _ _
        simp
      · simp [SomeIpType.wantedLengthField]
      · intro fuel nlfs tail secs hfuel hsec hnl hw2
        match fuel, hfuel with
        | fuel + 1, _ =>
          simp only [deValue]
          rw [hraw3]
          simp only [Bool.false_eq_true, if_false, hL]
          rw [if_pos (beq_self_eq_true 1)]
          have hrd := readU8_split nv.2 tail secs (by simpa using hsec)
          simp only [List.singleton_append] at *
          simp only [Except.bind, Bind.bind, Except.instMonad, hrd, hback]
          rw [hnv1]
          rfl
    · have hLne : (rawType.getLen == 1) = false := by
        simp [hL]
      rw [hLne] at hser
      simp only [Bool.false_eq_true, if_false] at hser
      have hst : st' = st.writeUx rawType.getLen nv.2 o.byteOrder :=
        (Except.ok.inj hser).symm
      subst hst
      refine ⟨uxBytes rawType.getLen nv.2 o.byteOrder, rfl, rfl, ?_, ?_, ?_, ?_⟩
      · intro _ _
        simp [SomeIpType.maxLen, uxBytes_length]
      · intro _ _ _
        have : 1 ≤ rawType.getLen := by cases rawType <;> simp [SomeIpPrimitive.getLen]
        simp [uxBytes_length]
        cases rawType <;> simp [SomeIpPrimitive.getLen]
      · simp [SomeIpType.wantedLengthField]
      · intro fuel nlfs tail secs hfuel hsec hnl hw2
        match fuel, hfuel with
        | fuel + 1, _ =>
          simp only [deValue]
          rw [hraw3]
          simp only [Bool.false_eq_true, if_false, hLne]
          have hrd := readUx_split o o.byteOrder rawType.getLen nv.2 hnvlt tail secs
            (by simpa [uxBytes_length] using hsec)
          simp only [Except.bind, Bind.bind, Except.instMonad, hrd, hback]
          simp [uxBytes_length, hnv1]


/-- Outside TLV structs the width selection returns the configured width. -/
theorem select_false (o : SomeIpOptions) (cfg a : LengthFieldSize) (len : Nat)
    (hsel : o.selectLengthFieldSize cfg len false = .ok a) : a = cfg := by
  unfold SomeIpOptions.selectLengthFieldSize at hsel
  cases hm : LengthFieldSize.minimumLengthFor len with
  | none =>
    rw [hm] at hsel
    exact Except.noConfusion hsel
  | some mn =>
    rw [hm] at hsel
    simp only [Bool.false_eq_true, if_false] at hsel
    by_cases hlt : cfg.blt mn = true
    · rw [if_pos hlt] at hsel
      exact Except.noConfusion hsel
    · rw [if_neg hlt] at hsel
      exact (Except.ok.inj hsel).symm

/-- A wanted-`none` answer for a string means it is constant size outside a
TLV struct. -/
theorem wanted_str_none (o : SomeIpOptions) (minSize maxSize : Nat)
    (lfsT : Option LengthFieldSize) (b : Bool)
    (hw : SomeIpType.wantedLengthField o (.string minSize maxSize lfsT) b = .ok none) :
    minSize = maxSize ∧ b = false := by
  unfold SomeIpType.wantedLengthField at hw
  dsimp only at hw
  by_cases hc : (!(SomeIpType.string minSize maxSize lfsT).isConstSize || b) = true
  · rw [if_pos hc] at hw
    cases ho : o.overwriteLfs lfsT with
    | none =>
      rw [ho] at hw
      exact Except.noConfusion hw
    | some s2 =>
      rw [ho] at hw
      exact Option.noConfusion (Except.ok.inj hw)
  · rw [if_neg hc] at hw
    simp only [Bool.or_eq_true, Bool.not_eq_true', not_or] at hc
    obtain ⟨h1, h2⟩ := hc
    simp only [SomeIpType.isConstSize] at h1
    exact ⟨beq_iff_eq.mp (Bool.of_not_eq_false h1), by simpa using h2⟩


/-- String values round trip through BOM, encoded bytes and terminator,
with or without a length field. -/
theorem serValue_str (o : SomeIpOptions) (isOpt : String → String → Bool)
    (minSize maxSize : Nat) (lfsT : Option LengthFieldSize)
    (s : String) (st st' : SerState) (b : Bool)
    (hb : st.isInTlvStruct = b)
    (hser : serValue o (.string minSize maxSize lfsT) (.str s) st = .ok st') :
    SerOk o isOpt (.string minSize maxSize lfsT) (.str s) st st' b := by
  simp only [serValue] at hser
  rw [hb] at hser
  cases hascii : (o.stringEncoding == StringEncoding.ascii && !isAsciiString s) with
  | true =>
    rw [hascii] at hser
    simp only [if_true] at hser
    exact Except.noConfusion hser
  | false =>
    rw [hascii] at hser
    simp only [Bool.false_eq_true, if_false] at hser
    have hasc : o.stringEncoding = .ascii → isAsciiString s = true := by
      intro he
      rw [he] at hascii
      simpa using hascii
    cases hwanted : SomeIpType.wantedLengthField o (.string minSize maxSize lfsT) b with
    | error e =>
      rw [hwanted] at hser
      exact Except.noConfusion hser
    | ok lfs =>
      rw [hwanted] at hser
      simp only [Except.bind, Bind.bind, Except.instMonad] at hser
      cases lfs with
      | none =>
        rw [strWriteChain o s st] at hser
        dsimp only at hser
        simp only [List.length_append, Nat.add_sub_cancel_left] at hser
        obtain ⟨hcst, hbf⟩ := wanted_str_none o minSize maxSize lfsT b hwanted
        subst hbf
        by_cases hmin : (encodedStrBytes o s).length < minSize
        · rw [if_pos hmin] at hser
          exact Except.noConfusion hser
        rw [if_neg hmin] at hser
        by_cases hmax : (encodedStrBytes o s).length > maxSize
        · rw [if_pos hmax] at hser
          exact Except.noConfusion hser
        rw [if_neg hmax] at hser
        have hst : st' = { st with buf := st.buf ++ encodedStrBytes o s } :=
          (Except.ok.inj hser).symm
        subst hst
        have hlen : (encodedStrBytes o s).length = maxSize := by omega
        refine ⟨encodedStrBytes o s, rfl, rfl, ?_, ?_, ?_, ?_⟩
        · intro _ _
          simp only [SomeIpType.maxLen, hwanted, Except.bind, Bind.bind,
            Except.instMonad]
          rw [hlen]
        · intro _ hpos _
          simp only [posSize] at hpos
          rw [if_pos (by rw [hcst]; exact beq_self_eq_true _)] at hpos
          simp only [decide_eq_true_eq] at hpos
          omega
        · rw [hwanted]
          trivial
        · intro fuel nlfs tail secs hfuel hsec hnl hw2
          match fuel, hfuel with
          | fuel + 1, _ =>
            simp only [deValue]
            rw [hwanted]
            simp only [Except.bind, Bind.bind, Except.instMonad]
            have hbk := beginKnownLds_split maxSize (encodedStrBytes o s ++ tail) secs
              (by rw [← hlen]; exact hsec) (by rw [← hlen]; simp)
            rw [hbk]
            dsimp only
            rw [if_neg (by omega)]
            rw [if_neg (by omega)]
            have hrs := readStr_enc o s hasc tail (maxSize :: secConsume maxSize secs)
              (by simp only [secOk, hlen]; omega)
            rw [hlen] at hrs
            rw [hrs]
            simp only [Except.bind, Bind.bind, Except.instMonad]
            have hcons : secConsume maxSize (maxSize :: secConsume maxSize secs)
                = 0 :: secConsume maxSize secs := by
              simp [secConsume]
            rw [hcons, endLds_split]
            rw [hlen]
      | some cfg =>
        dsimp only at hser
        cases hstart : startSection o (.string minSize maxSize lfsT) cfg st with
        | error e =>
          rw [hstart] at hser
          exact Except.noConfusion hser
        | ok st1 =>
          rw [hstart] at hser
          dsimp only at hser
          try simp only [Except.bind, Bind.bind, Except.instMonad] at hser
          rw [strWriteChain o s st1] at hser
          dsimp only at hser
          simp only [List.length_append, Nat.add_sub_cancel_left] at hser
          by_cases hmin : (encodedStrBytes o s).length < minSize
          · rw [if_pos hmin] at hser
            exact Except.noConfusion hser
          rw [if_neg hmin] at hser
          by_cases hmax : (encodedStrBytes o s).length > maxSize
          · rw [if_pos hmax] at hser
            exact Except.noConfusion hser
          rw [if_neg hmax] at hser
          unfold startSection at hstart
          rw [hb] at hstart
          cases hml : SomeIpType.maxLen o (.string minSize maxSize lfsT) b with
          | error e =>
            simp only [hml, Except.bind, Bind.bind, Except.instMonad] at hstart
            exact Except.noConfusion hstart
          | ok ml =>
            simp only [hml, Except.bind, Bind.bind, Except.instMonad] at hstart
            cases hmn : LengthFieldSize.minimumLengthFor ml with
            | none =>
              simp only [hmn] at hstart
              exact Except.noConfusion hstart
            | some mn =>
              simp only [hmn] at hstart
              have hst1 : st.beginLds cfg mn = st1 := Except.ok.inj hstart
              simp only [SomeIpType.maxLen, hwanted, Except.bind, Bind.bind,
                Except.instMonad] at hml
              cases hselm : o.selectLengthFieldSize cfg maxSize b with
              | error e =>
                simp only [hselm, Except.bind, Bind.bind, Except.instMonad] at hml
                exact Except.noConfusion hml
              | ok selected =>
                simp only [hselm, Except.bind, Bind.bind, Except.instMonad] at hml
                have hmleq : maxSize + selected.toBytes = ml := Except.ok.inj hml
                subst hmleq
                subst hst1
                obtain ⟨actual, hselc, hfit, hbl⟩ :=
                  select_close_ok o cfg selected mn maxSize
                    ((encodedStrBytes o s).length) b hselm hmn (by omega)
                simp only [SerState.beginLds] at hser
                try dsimp only at hser
                have hend := endLds_ok o
                  ⟨(st.buf ++ List.replicate (cfg.bmax mn).toBytes 0)
                      ++ encodedStrBytes o s,
                    st.isInTlvStruct, st.lastLengthField,
                    (st.buf.length, cfg.bmax mn, st.isInTlvStruct) :: st.sections⟩
                  cfg (cfg.bmax mn) actual st.buf.length st.sections
                  st.isInTlvStruct rfl
                  (by simp)
                  (by
                    rw [hb]
                    convert hselc using 3
                    simp)
                  hbl
                  (by
                    have : (st.buf ++ List.replicate (cfg.bmax mn).toBytes 0
                        ++ encodedStrBytes o s).length
                        - st.buf.length - (cfg.bmax mn).toBytes
                        = (encodedStrBytes o s).length := by
                      simp
                    rw [this]
                    exact hfit)
                rw [hend] at hser
                have hst : st' = _ := (Except.ok.inj hser).symm
                subst hst
                have hL : (st.buf ++ List.replicate (cfg.bmax mn).toBytes 0
                    ++ encodedStrBytes o s).length
                    - st.buf.length - (cfg.bmax mn).toBytes
                    = (encodedStrBytes o s).length := by
                  simp
                have htake : ((st.buf ++ List.replicate (cfg.bmax mn).toBytes 0)
                    ++ encodedStrBytes o s).take st.buf.length = st.buf := by
                  rw [List.append_assoc]
                  exact List.take_left st.buf _
                have hdrop : ((st.buf ++ List.replicate (cfg.bmax mn).toBytes 0)
                    ++ encodedStrBytes o s).drop
                      (st.buf.length + (cfg.bmax mn).toBytes)
                    = encodedStrBytes o s := by
                  rw [show st.buf.length + (cfg.bmax mn).toBytes
                    = (st.buf ++ List.replicate (cfg.bmax mn).toBytes 0).length from
                      by simp]
                  exact List.drop_left _ _
                refine ⟨lenBytes o actual (encodedStrBytes o s).length
                    ++ encodedStrBytes o s, ?_, rfl, ?_, ?_, ?_, ?_⟩
                · dsimp only
                  rw [hL, htake, hdrop]
                  rw [List.append_assoc]
                · intro hbf hcst
                  subst hbf
                  simp only [SomeIpType.isConstSize, beq_iff_eq] at hcst
                  simp only [SomeIpType.maxLen, hwanted, Except.bind, Bind.bind,
                    Except.instMonad, hselm]
                  have ha : actual = cfg := select_false o cfg actual _ hselc
                  have hsel2 : selected = cfg := select_false o cfg selected _ hselm
                  simp only [List.length_append, lenBytes_length, ha, hsel2]
                  have : (encodedStrBytes o s).length = maxSize := by omega
                  rw [this]
                  rw [Nat.add_comm]
                · intro _ _ _
                  have : 1 ≤ actual.toBytes := by
                    cases actual <;> simp [LengthFieldSize.toBytes]
                  simp only [List.length_append, lenBytes_length]
                  omega
                · rw [hwanted]
                  refine ⟨actual, ?_, ?_⟩
                  · rw [hL]
                  · intro hbf
                    rw [hbf] at hselc
                    exact select_false o cfg actual _ hselc
                · intro fuel nlfs tail secs hfuel hsec hnl hw2
                  match fuel, hfuel with
                  | fuel + 1, _ =>
                    simp only [deValue]
                    rw [hwanted]
                    simp only [Except.bind, Bind.bind, Except.instMonad]
                    simp only [nlfsFits, hwanted] at hnl
                    obtain ⟨a2, c2, hllf2, hor⟩ := hnl
                    have hpair : (actual, actual == cfg) = (a2, c2) :=
                      Option.some.inj hllf2
                    have ha2 : a2 = actual := (congrArg Prod.fst hpair).symm
                    have hc2 : c2 = (actual == cfg) := (congrArg Prod.snd hpair).symm
                    rw [ha2] at hor
                    have hnl2 : nlfs = some actual ∨ (nlfs = none ∧ actual = cfg) := by
                      rcases hor with h1 | ⟨h2, h3⟩
                      · exact Or.inl h1
                      · refine Or.inr ⟨h2, ?_⟩
                        rw [hc2] at h3
                        exact beq_iff_eq.mp h3
                    have hbg := deBeginLds_split o nlfs cfg actual
                      (encodedStrBytes o s).length (encodedStrBytes o s) tail secs
                      hnl2 hfit rfl
                      (by
                        simp only [List.length_append, lenBytes_length] at hsec
                        exact hsec)
                    rw [List.append_assoc]
                    rw [hbg]
                    dsimp only
                    rw [if_neg (by omega)]
                    rw [if_neg (by omega)]
                    have hrs := readStr_enc o s hasc tail
                      ((encodedStrBytes o s).length
                        :: secConsume (actual.toBytes + (encodedStrBytes o s).length) secs)
                      (by simp only [secOk]; omega)
                    rw [hrs]
                    simp only [Except.bind, Bind.bind, Except.instMonad]
                    have hcons : secConsume (encodedStrBytes o s).length
                        ((encodedStrBytes o s).length
                          :: secConsume (actual.toBytes + (encodedStrBytes o s).length) secs)
                        = 0 :: secConsume (actual.toBytes + (encodedStrBytes o s).length) secs := by
                      simp [secConsume]
                    rw [hcons, endLds_split]
                    simp only [List.length_append, lenBytes_length]

theorem blt_imp_ble : ∀ a b : LengthFieldSize,
    a.blt b = true → a.ble b = true := by decide

theorem ble_false_imp_blt_false : ∀ a b : LengthFieldSize,
    a.ble b = false → a.blt b = false := by decide

theorem ble_false_imp_ne : ∀ a b : LengthFieldSize,
    a.ble b = false → a ≠ b := by decide

/-- A failing width selection fails the close of the section. -/
theorem endLds_selerr (o : SomeIpOptions) (st : SerState) (cfg : LengthFieldSize)
    (pos : Nat) (reserved : LengthFieldSize) (w : Bool)
    (rest : List (Nat × LengthFieldSize × Bool)) (e : Error)
    (hsec : st.sections = (pos, reserved, w) :: rest)
    (hsel : o.selectLengthFieldSize cfg
      (st.buf.length - pos - reserved.toBytes) w = .error e) :
    st.endLds o cfg = .error e := by
  obtain ⟨buf, tlv, llf, secs⟩ := st
  simp only [SerState.sections] at hsec
  subst hsec
  simp only [SerState.buf] at hsel
  simp only [SerState.endLds, hsel, Except.bind, Bind.bind, Except.instMonad]

/-- A measured length beyond the selected width's range fails the close. -/
theorem endLds_toolong (o : SomeIpOptions) (st : SerState)
    (cfg actual : LengthFieldSize) (pos : Nat) (reserved : LengthFieldSize)
    (w : Bool) (rest : List (Nat × LengthFieldSize × Bool))
    (hsec : st.sections = (pos, reserved, w) :: rest)
    (hsel : o.selectLengthFieldSize cfg
      (st.buf.length - pos - reserved.toBytes) w = .ok actual)
    (hgt : actual.unsignedMax < st.buf.length - pos - reserved.toBytes) :
    ∃ e, st.endLds o cfg = .error e := by
  obtain ⟨buf, tlv, llf, secs⟩ := st
  simp only [SerState.sections] at hsec
  subst hsec
  simp only [SerState.buf] at hsel hgt
  simp only [SerState.endLds, hsel, Except.bind, Bind.bind, Except.instMonad]
  by_cases hne : actual = reserved
  · subst hne
    rw [if_neg (by simp)]
    cases actual <;>
      (dsimp only
       simp only [LengthFieldSize.unsignedMax] at hgt
       rw [if_pos (by omega)]
       exact ⟨_, rfl⟩)
  · rw [if_pos hne]
    by_cases hblt : actual.blt reserved = true
    · rw [if_pos hblt]
      try dsimp only
      cases actual <;>
        (dsimp only
         simp only [LengthFieldSize.unsignedMax] at hgt
         rw [if_pos (by omega)]
         exact ⟨_, rfl⟩)
    · rw [if_neg hblt]
      exact ⟨_, rfl⟩

/-- What a successful close of a section tells: the selection succeeded on
the measured length, the length fits the width and the final state is the
back-patched buffer with the section popped and the selection recorded. -/
theorem endLds_inv (o : SomeIpOptions) (st : SerState) (cfg : LengthFieldSize)
    (pos : Nat) (reserved : LengthFieldSize) (w : Bool)
    (rest : List (Nat × LengthFieldSize × Bool)) (st' : SerState)
    (hsec : st.sections = (pos, reserved, w) :: rest)
    (hpos : pos + reserved.toBytes ≤ st.buf.length)
    (hend : st.endLds o cfg = .ok st') :
    ∃ actual, o.selectLengthFieldSize cfg
        (st.buf.length - pos - reserved.toBytes) w = .ok actual
      ∧ st.buf.length - pos - reserved.toBytes ≤ actual.unsignedMax
      ∧ (w = false → actual = cfg)
      ∧ st' = { buf := st.buf.take pos
                  ++ lenBytes o actual (st.buf.length - pos - reserved.toBytes)
                  ++ st.buf.drop (pos + reserved.toBytes),
                isInTlvStruct := st.isInTlvStruct,
                lastLengthField := some (actual, actual == cfg),
                sections := rest } := by
  cases hsel : o.selectLengthFieldSize cfg
      (st.buf.length - pos - reserved.toBytes) w with
  | error e =>
    rw [endLds_selerr o st cfg pos reserved w rest e hsec hsel] at hend
    exact Except.noConfusion hend
  | ok actual =>
    have hble : actual.ble reserved = true := by
      by_contra hx
      have hbf : actual.ble reserved = false := Bool.of_not_eq_true hx
      rw [endLds_assert o st cfg reserved actual pos rest w hsec hsel
        (ble_false_imp_ne actual reserved hbf)
        (ble_false_imp_blt_false actual reserved hbf)] at hend
      exact Except.noConfusion hend
    have hfits : st.buf.length - pos - reserved.toBytes ≤ actual.unsignedMax := by
      by_contra hx
      obtain ⟨e, he⟩ := endLds_toolong o st cfg actual pos reserved w rest hsec hsel
        (by omega)
      rw [he] at hend
      exact Except.noConfusion hend
    have hok := endLds_ok o st cfg reserved actual pos rest w hsec hpos hsel hble hfits
    rw [hok] at hend
    refine ⟨actual, rfl, hfits, ?_, (Except.ok.inj hend).symm⟩
    intro hw
    rw [hw] at hsel
    exact select_false o cfg actual _ hsel


/-- A wanted-`none` answer for a sequence means it is constant size outside
a TLV struct. -/
theorem wanted_seq_none (o : SomeIpOptions) (minE maxE : Nat)
    (elementType : SomeIpType) (lfsT : Option LengthFieldSize) (b : Bool)
    (hw : SomeIpType.wantedLengthField o (.sequence minE maxE elementType lfsT) b
      = .ok none) :
    (SomeIpType.sequence minE maxE elementType lfsT).isConstSize = true ∧ b = false := by
  unfold SomeIpType.wantedLengthField at hw
  dsimp only at hw
  by_cases hc : (!(SomeIpType.sequence minE maxE elementType lfsT).isConstSize || b) = true
  · rw [if_pos hc] at hw
    cases ho : o.overwriteLfs lfsT with
    | none =>
      rw [ho] at hw
      exact Except.noConfusion hw
    | some s2 =>
      rw [ho] at hw
      exact Option.noConfusion (Except.ok.inj hw)
  · rw [if_neg hc] at hw
    simp only [Bool.or_eq_true, Bool.not_eq_true', not_or] at hc
    obtain ⟨h1, h2⟩ := hc
    exact ⟨Bool.of_not_eq_false h1, by simpa using h2⟩

theorem valueFuel_pos : ∀ v : Value, 1 ≤ valueFuel v := by
  intro v
  cases v with
  | opt ov =>
    cases ov <;> simp [valueFuel]
  | _ => simp [valueFuel]

theorem listFuel_pos : ∀ l : List Value, 1 ≤ listFuel l := by
  intro l
  cases l with
  | nil => simp [listFuel]
  | cons v r =>
    simp [listFuel]
    omega

theorem valueFuel_seq (vs : List Value) :
    valueFuel (.seq vs) = 1 + listFuel vs := by
  simp [valueFuel]

theorem valueFuel_vstruct (vals : List Value) :
    valueFuel (.vstruct vals) = 1 + listFuel vals := by
  simp [valueFuel]

theorem valueFuel_opt_some (v : Value) :
    valueFuel (.opt (some v)) = 1 + valueFuel v := by
  simp [valueFuel]

theorem listFuel_cons (v : Value) (rest : List Value) :
    listFuel (v :: rest) = 1 + valueFuel v + listFuel rest := by
  simp [listFuel]

/-- Sequence values round trip given that their element list does. -/
theorem serValue_seq (o : SomeIpOptions) (isOpt : String → String → Bool)
    (minE maxE : Nat) (elementType : SomeIpType) (lfsT : Option LengthFieldSize)
    (vs : List Value) (st st' : SerState) (b : Bool)
    (hb : st.isInTlvStruct = b)
    (hv : rtValid o isOpt b (.sequence minE maxE elementType lfsT) (.seq vs) = true)
    (IH : ∀ st2 st2', serElems o elementType vs st2 = .ok st2' →
      SerElemsOk o isOpt elementType vs st2 st2')
    (hser : serValue o (.sequence minE maxE elementType lfsT) (.seq vs) st = .ok st') :
    SerOk o isOpt (.sequence minE maxE elementType lfsT) (.seq vs) st st' b := by
  unfold rtValid at hv
  simp only [Bool.and_eq_true] at hv
  obtain ⟨⟨⟨hpose, hntw⟩, hmlc⟩, hrve⟩ := hv
  have hmlel : ∃ el, SomeIpType.maxLen o elementType false = .ok el := by
    cases hml : SomeIpType.maxLen o elementType false with
    | ok el => exact ⟨el, rfl⟩
    | error e =>
      rw [hml] at hmlc
      exact Bool.noConfusion hmlc
  obtain ⟨el, hml⟩ := hmlel
  simp only [serValue] at hser
  rw [hb] at hser
  by_cases hlen1 : vs.length < minE
  · rw [if_pos hlen1] at hser
    exact Except.noConfusion hser
  rw [if_neg hlen1] at hser
  by_cases hlen2 : vs.length > maxE
  · rw [if_pos hlen2] at hser
    exact Except.noConfusion hser
  rw [if_neg hlen2] at hser
  cases hwanted : SomeIpType.wantedLengthField o
      (.sequence minE maxE elementType lfsT) b with
  | error e =>
    rw [hwanted] at hser
    exact Except.noConfusion hser
  | ok lfs =>
    rw [hwanted] at hser
    simp only [Except.bind, Bind.bind, Except.instMonad] at hser
    cases lfs with
    | none =>
      dsimp only at hser
      cases hElems : serElems o elementType vs st with
      | error e =>
        rw [hElems] at hser
        exact Except.noConfusion hser
      | ok st2 =>
        rw [hElems] at hser
        dsimp only at hser
        rw [if_neg hlen1, if_neg hlen2] at hser
        have hst : st' = st2 := (Except.ok.inj hser).symm
        subst hst
        obtain ⟨Bc, hbuf, hsecs, hconst, hposlen, hde⟩ := IH st st' hElems
        obtain ⟨hcst, hbf⟩ := wanted_seq_none o minE maxE elementType lfsT b hwanted
        subst hbf
        simp only [SomeIpType.isConstSize, Bool.and_eq_true] at hcst
        obtain ⟨hminmax, helc⟩ := hcst
        have hvslen : vs.length = maxE := by
          have := beq_iff_eq.mp hminmax
          omega
        have hBlen : Bc.length = maxE * el := by
          rw [hconst helc el hml, hvslen]
        refine ⟨Bc, hbuf, hsecs, ?_, ?_, ?_, ?_⟩
        · intro _ _
          simp only [SomeIpType.maxLen, hwanted, hml, Except.bind, Bind.bind,
            Except.instMonad]
          rw [hBlen]
        · intro _ hposq _
          simp only [posSize] at hposq
          have hcstq : (SomeIpType.sequence minE maxE elementType none).isConstSize
              = true := by
            simp only [SomeIpType.isConstSize, Bool.and_eq_true]
            exact ⟨hminmax, helc⟩
          rw [if_pos hcstq] at hposq
          simp only [Bool.and_eq_true, decide_eq_true_eq] at hposq
          have := hposlen hpose
          omega
        · rw [hwanted]
          trivial
        · intro fuel nlfs tail secs hfuel hsec hnl hw2
          match fuel, hfuel with
          | 0, hfuel =>
            rw [valueFuel_seq] at hfuel
            omega
          | fuel + 1, hfuel =>
            rw [valueFuel_seq] at hfuel
            simp only [deValue]
            rw [hwanted]
            simp only [Except.bind, Bind.bind, Except.instMonad]
            rw [hml]
            simp only [Except.bind, Bind.bind, Except.instMonad]
            have hbk := beginKnownLds_split (maxE * el) (Bc ++ tail) secs
              (by rw [← hBlen]; exact hsec) (by rw [← hBlen]; simp)
            rw [hbk]
            dsimp only
            rw [← hBlen]
            have hde2 := hde fuel 0 minE maxE tail (secConsume Bc.length secs)
              (by omega) (by omega) (by omega)
            rw [hde2]
            simp only [Except.bind, Bind.bind, Except.instMonad]
            rw [endLds_split]
    | some cfg =>
      dsimp only at hser
      cases hstart : startSection o (.sequence minE maxE elementType lfsT) cfg st with
      | error e =>
        rw [hstart] at hser
        exact Except.noConfusion hser
      | ok st1 =>
        rw [hstart] at hser
        dsimp only at hser
        cases hElems : serElems o elementType vs st1 with
        | error e =>
          rw [hElems] at hser
          exact Except.noConfusion hser
        | ok st2 =>
          rw [hElems] at hser
          dsimp only at hser
          rw [if_neg hlen1, if_neg hlen2] at hser
          obtain ⟨Bc, hbuf, hsecs, hconst, hposlen, hde⟩ := IH st1 st2 hElems
          unfold startSection at hstart
          rw [hb] at hstart
          cases hmls : SomeIpType.maxLen o (.sequence minE maxE elementType lfsT) b with
          | error e =>
            simp only [hmls, Except.bind, Bind.bind, Except.instMonad] at hstart
            exact Except.noConfusion hstart
          | ok ml =>
            simp only [hmls, Except.bind, Bind.bind, Except.instMonad] at hstart
            cases hmn : LengthFieldSize.minimumLengthFor ml with
            | none =>
              simp only [hmn] at hstart
              exact Except.noConfusion hstart
            | some mn =>
              simp only [hmn] at hstart
              have hst1 : st.beginLds cfg mn = st1 := Except.ok.inj hstart
              subst hst1
              simp only [SerState.beginLds] at hbuf hsecs hde
              have hL : st2.buf.length - st.buf.length - (cfg.bmax mn).toBytes
                  = Bc.length := by
                rw [hbuf]
                simp
              have hinv := endLds_inv o st2 cfg st.buf.length (cfg.bmax mn)
                st.isInTlvStruct st.sections st'
                (by rw [hsecs])
                (by rw [hbuf]; simp)
                hser
              obtain ⟨actual, hselc, hfits, hwfa, hstv⟩ := hinv
              rw [hL] at hselc hfits
              subst hstv
              have htake : st2.buf.take st.buf.length = st.buf := by
                rw [hbuf, List.append_assoc]
                exact List.take_left st.buf _
              have hdrop : st2.buf.drop (st.buf.length + (cfg.bmax mn).toBytes)
                  = Bc := by
                rw [hbuf]
                rw [show st.buf.length + (cfg.bmax mn).toBytes
                  = (st.buf ++ List.replicate (cfg.bmax mn).toBytes 0).length from
                    by simp]
                exact List.drop_left _ _
              refine ⟨lenBytes o actual Bc.length ++ Bc, ?_, rfl, ?_, ?_, ?_, ?_⟩
              · dsimp only
                rw [hL, htake, hdrop, List.append_assoc]
              · intro hbf hcstq
                have ha : actual = cfg := hwfa (by rw [hb, hbf])
                simp only [SomeIpType.isConstSize, Bool.and_eq_true] at hcstq
                obtain ⟨hminmax, helc⟩ := hcstq
                have hvslen : vs.length = maxE := by
                  have := beq_iff_eq.mp hminmax
                  omega
                have hBlen : Bc.length = maxE * el := by
                  rw [hconst helc el hml, hvslen]
                subst hbf
                simp only [SomeIpType.maxLen, hwanted, hml, Except.bind, Bind.bind,
                  Except.instMonad]
                simp only [SomeIpType.maxLen, hwanted, hml, Except.bind, Bind.bind,
                  Except.instMonad] at hmls
                cases hselm : o.selectLengthFieldSize cfg (maxE * el) false with
                | error e =>
                  rw [hselm] at hmls
                  exact Except.noConfusion hmls
                | ok selected =>
                  dsimp only
                  have hsel2 : selected = cfg := select_false o cfg selected _ hselm
                  simp only [List.length_append, lenBytes_length, ha, hsel2, hBlen]
                  rw [Nat.add_comm]
              · intro _ _ _
                have : 1 ≤ actual.toBytes := by
                  cases actual <;> simp [LengthFieldSize.toBytes]
                simp only [List.length_append, lenBytes_length]
                omega
              · rw [hwanted]
                exact ⟨actual, rfl, fun hbf => hwfa (by rw [hb, hbf])⟩
              · intro fuel nlfs tail secs hfuel hsec hnl hw2
                match fuel, hfuel with
                | 0, hfuel =>
                  rw [valueFuel_seq] at hfuel
                  omega
                | fuel + 1, hfuel =>
                  rw [valueFuel_seq] at hfuel
                  simp only [deValue]
                  rw [hwanted]
                  simp only [Except.bind, Bind.bind, Except.instMonad]
                  simp only [nlfsFits, hwanted] at hnl
                  obtain ⟨a2, c2, hllf2, hor⟩ := hnl
                  have hpair : (actual, actual == cfg) = (a2, c2) :=
                    Option.some.inj hllf2
                  have ha2 : a2 = actual := (congrArg Prod.fst hpair).symm
                  have hc2 : c2 = (actual == cfg) := (congrArg Prod.snd hpair).symm
                  rw [ha2] at hor
                  have hnl2 : nlfs = some actual ∨ (nlfs = none ∧ actual = cfg) := by
                    rcases hor with h1 | ⟨h2, h3⟩
                    · exact Or.inl h1
                    · refine Or.inr ⟨h2, ?_⟩
                      rw [hc2] at h3
                      exact beq_iff_eq.mp h3
                  have hbg := deBeginLds_split o nlfs cfg actual
                    Bc.length Bc tail secs hnl2 hfits rfl
                    (by
                      simp only [List.length_append, lenBytes_length] at hsec
                      exact hsec)
                  rw [List.append_assoc]
                  rw [hbg]
                  dsimp only
                  have hde2 := hde fuel 0 minE maxE tail
                    (secConsume (actual.toBytes + Bc.length) secs)
                    (by omega) (by omega) (by omega)
                  rw [hde2]
                  simp only [Except.bind, Bind.bind, Except.instMonad]
                  rw [endLds_split]
                  simp only [List.length_append, lenBytes_length]


/-- A wanted-`none` answer for a struct comes from a message wrapper or
from a plain struct without any configured length field outside TLV. -/
theorem wanted_struct_none (o : SomeIpOptions) (name : String)
    (fields : List SomeIpField) (usesTlv isMessageWrapper : Bool)
    (lfsT : Option LengthFieldSize) (b : Bool)
    (hw : SomeIpType.wantedLengthField o
      (.struct name fields usesTlv isMessageWrapper lfsT) b = .ok none) :
    isMessageWrapper = true
      ∨ (b = false ∧ usesTlv = false ∧ lfsT = none) := by
  by_cases hmw : isMessageWrapper = true
  · exact Or.inl hmw
  · right
    unfold SomeIpType.wantedLengthField at hw
    dsimp only at hw
    rw [if_neg hmw] at hw
    by_cases hneeds : (b || usesTlv) = true
    · exfalso
      by_cases hsz : ((b || usesTlv) || lfsT.isSome) = true
      · rw [if_pos hsz] at hw
        cases ho : o.overwriteLfs lfsT with
        | none =>
          rw [ho] at hw
          rw [if_pos (by simp [hneeds])] at hw
          exact Except.noConfusion hw
        | some s2 =>
          rw [ho] at hw
          by_cases hch : ((b || usesTlv) && (Option.some s2).isNone) = true
          · rw [if_pos hch] at hw
            exact Except.noConfusion hw
          · rw [if_neg hch] at hw
            exact Option.noConfusion (Except.ok.inj hw)
      · exact hsz (by simp [hneeds])
    · simp only [Bool.or_eq_true, not_or, Bool.not_eq_true] at hneeds
      obtain ⟨hbf, hutf⟩ := hneeds
      refine ⟨hbf, hutf, ?_⟩
      by_cases hls : lfsT.isSome = true
      · exfalso
        simp only [hbf, hutf, hls, Bool.or_self, Bool.false_or, Bool.or_true,
          Bool.false_and, Bool.and_self, Bool.false_eq_true, if_false, if_true,
          eq_self_iff_true] at hw
        have hwn : o.overwriteLfs lfsT = none := Except.ok.inj hw
        unfold SomeIpOptions.overwriteLfs at hwn
        by_cases h1 : o.overwriteLengthFieldSize.isSome = true
        · rw [if_pos h1] at hwn
          rw [hwn] at h1
          exact Bool.noConfusion h1
        · rw [if_neg h1, if_pos hls] at hwn
          rw [hwn] at hls
          exact Bool.noConfusion hls
      · exact Option.not_isSome_iff_eq_none.mp (by simpa using hls)


/-- Struct values round trip given that their field list does. -/
theorem serValue_struct (o : SomeIpOptions) (isOpt : String → String → Bool)
    (name : String) (fields : List SomeIpField) (usesTlv isMessageWrapper : Bool)
    (lfsT : Option LengthFieldSize) (vals : List Value) (st st' : SerState) (b : Bool)
    (hb : st.isInTlvStruct = b)
    (hv : rtValid o isOpt b
      (.struct name fields usesTlv isMessageWrapper lfsT) (.vstruct vals) = true)
    (IHF : usesTlv = false → ∀ st2 st2', serFields o fields false fields vals st2 = .ok st2' →
      SerFieldsOk o isOpt fields fields vals st2 st2')
    (IHG : usesTlv = true → ∀ st2 st2', serFields o fields true fields vals st2 = .ok st2' →
      SerTlvFieldsOk o isOpt name fields fields vals st2 st2')
    (hser : serValue o (.struct name fields usesTlv isMessageWrapper lfsT)
      (.vstruct vals) st = .ok st') :
    SerOk o isOpt (.struct name fields usesTlv isMessageWrapper lfsT)
      (.vstruct vals) st st' b := by
  unfold rtValid at hv
  simp only [Bool.and_eq_true] at hv
  obtain ⟨⟨hdn, hbr⟩, hrvf⟩ := hv
  simp only [serValue] at hser
  rw [hb] at hser
  by_cases hlen : vals.length ≠ fields.length
  · rw [if_pos hlen] at hser
    exact Except.noConfusion hser
  rw [if_neg hlen] at hser
  cases hwanted : SomeIpType.wantedLengthField o
      (.struct name fields usesTlv isMessageWrapper lfsT) b with
  | error e =>
    rw [hwanted] at hser
    exact Except.noConfusion hser
  | ok lfs =>
    rw [hwanted] at hser
    simp only [Except.bind, Bind.bind, Except.instMonad] at hser
    cases husetlv : usesTlv with
    | false =>
      rw [husetlv] at hser hbr hrvf hwanted
      simp only [if_true, if_false, Bool.false_eq_true, Bool.and_eq_true] at hbr
      obtain ⟨hnotw, hposm⟩ := hbr
      cases lfs with
      | none =>
        dsimp only at hser
        cases hFields : serFields o fields false fields vals st with
        | error e =>
          rw [hFields] at hser
          exact Except.noConfusion hser
        | ok st2 =>
          rw [hFields] at hser
          dsimp only at hser
          have hst : st' = { st2 with isInTlvStruct := false } :=
            (Except.ok.inj hser).symm
          subst hst
          obtain ⟨Bc, hbuf, hsecs, hconst, hpos1, hdeT, hdeF⟩ := IHF husetlv st st2 hFields
          rcases wanted_struct_none o name fields false isMessageWrapper lfsT b
              hwanted with hmw | ⟨hbf, _, hlfs⟩
          all_goals refine ⟨Bc, hbuf, hsecs, ?_, ?_, ?_, ?_⟩
          · intro hbf hcst
            subst hbf
            simp only [SomeIpType.maxLen, hwanted, Except.bind, Bind.bind,
              Except.instMonad]
            simp only [SomeIpType.isConstSize, Bool.not_false,
              Bool.true_and] at hcst
            rw [hconst hcst]
          · intro _ hposq _
            simp only [posSize, hmw, if_true] at hposq
            exact hpos1 hposq
          · rw [hwanted]
            trivial
          · intro fuel nlfs tail secs hfuel hsec hnl hw2
            match fuel, hfuel with
            | 0, hfuel =>
              rw [valueFuel_vstruct] at hfuel
              omega
            | fuel + 1, hfuel =>
              rw [valueFuel_vstruct] at hfuel
              simp only [deValue]
              rw [hwanted]
              simp only [Except.bind, Bind.bind, Except.instMonad,
                Bool.false_eq_true, if_false]
              try dsimp only
              have hde2 := hdeF fuel tail secs (by omega) hsec
              rw [hde2]
              try dsimp only
          · intro hbf hcst
            subst hbf
            simp only [SomeIpType.maxLen, hwanted, Except.bind, Bind.bind,
              Except.instMonad]
            simp only [SomeIpType.isConstSize, Bool.not_false,
              Bool.true_and] at hcst
            rw [hconst hcst]
          · intro _ hposq _
            simp only [posSize] at hposq
            rw [hlfs] at hposq
            simp only [Option.isSome_none, Bool.false_eq_true, if_false] at hposq
            split_ifs at hposq
            · exact hpos1 hposq
            · exact hpos1 hposq
          · rw [hwanted]
            trivial
          · intro fuel nlfs tail secs hfuel hsec hnl hw2
            match fuel, hfuel with
            | 0, hfuel =>
              rw [valueFuel_vstruct] at hfuel
              omega
            | fuel + 1, hfuel =>
              rw [valueFuel_vstruct] at hfuel
              simp only [deValue]
              rw [hwanted]
              simp only [Except.bind, Bind.bind, Except.instMonad,
                Bool.false_eq_true, if_false]
              try dsimp only
              have hde2 := hdeF fuel tail secs (by omega) hsec
              rw [hde2]
              try dsimp only
      | some cfg =>
        dsimp only at hser
        cases hstart : startSection o
            (.struct name fields false isMessageWrapper lfsT) cfg st with
        | error e =>
          rw [hstart] at hser
          exact Except.noConfusion hser
        | ok st1 =>
          rw [hstart] at hser
          dsimp only at hser
          cases hFields : serFields o fields false fields vals st1 with
          | error e =>
            rw [hFields] at hser
            exact Except.noConfusion hser
          | ok st2 =>
            rw [hFields] at hser
            dsimp only at hser
            obtain ⟨Bc, hbuf, hsecs, hconst, hpos1, hdeT, hdeF⟩ := IHF husetlv st1 st2 hFields
            have hallpos : fields.all (fun f => posSize o f.2.2) = true := by
              rw [hwanted] at hposm
              exact hposm
            unfold startSection at hstart
            rw [hb] at hstart
            cases hmls : SomeIpType.maxLen o
                (.struct name fields false isMessageWrapper lfsT) b with
            | error e =>
              simp only [hmls, Except.bind, Bind.bind, Except.instMonad] at hstart
              exact Except.noConfusion hstart
            | ok ml =>
              simp only [hmls, Except.bind, Bind.bind, Except.instMonad] at hstart
              cases hmn : LengthFieldSize.minimumLengthFor ml with
              | none =>
                simp only [hmn] at hstart
                exact Except.noConfusion hstart
              | some mn =>
                simp only [hmn] at hstart
                have hst1 : st.beginLds cfg mn = st1 := Except.ok.inj hstart
                subst hst1
                simp only [SerState.beginLds] at hbuf hsecs hdeT hdeF
                cases hend : st2.endLds o cfg with
                | error e =>
                  rw [hend] at hser
                  exact Except.noConfusion hser
                | ok st3 =>
                  rw [hend] at hser
                  dsimp only at hser
                  have hst : st' = { st3 with isInTlvStruct := false } :=
                    (Except.ok.inj hser).symm
                  subst hst
                  have hL : st2.buf.length - st.buf.length - (cfg.bmax mn).toBytes
                      = Bc.length := by
                    rw [hbuf]
                    simp
                  obtain ⟨actual, hselc, hfits, hwfa, hstv⟩ := endLds_inv o st2 cfg
                    st.buf.length (cfg.bmax mn) st.isInTlvStruct st.sections st3
                    (by rw [hsecs]) (by rw [hbuf]; simp) hend
                  rw [hL] at hselc hfits
                  subst hstv
                  have htake : st2.buf.take st.buf.length = st.buf := by
                    rw [hbuf, List.append_assoc]
                    exact List.take_left st.buf _
                  have hdrop : st2.buf.drop
                      (st.buf.length + (cfg.bmax mn).toBytes) = Bc := by
                    rw [hbuf]
                    rw [show st.buf.length + (cfg.bmax mn).toBytes
                      = (st.buf ++ List.replicate (cfg.bmax mn).toBytes 0).length from
                        by simp]
                    exact List.drop_left _ _
                  refine ⟨lenBytes o actual Bc.length ++ Bc, ?_, rfl, ?_, ?_, ?_, ?_⟩
                  · dsimp only
                    rw [hL, htake, hdrop, List.append_assoc]
                  · intro hbf hcst
                    have ha : actual = cfg := hwfa (by rw [hb, hbf])
                    subst hbf
                    simp only [SomeIpType.maxLen, hwanted, Except.bind, Bind.bind,
                      Except.instMonad]
                    simp only [SomeIpType.maxLen, hwanted, Except.bind, Bind.bind,
                      Except.instMonad] at hmls
                    simp only [SomeIpType.isConstSize, Bool.not_false,
                      Bool.true_and] at hcst
                    cases hfml : SomeIpType.maxLen.fieldsMaxLen o fields false with
                    | error e =>
                      rw [hfml] at hmls
                      exact Except.noConfusion hmls
                    | ok flen =>
                      rw [hfml] at hmls
                      try dsimp only at hmls ⊢
                      cases hselm : o.selectLengthFieldSize cfg flen false with
                      | error e =>
                        rw [hselm] at hmls
                        exact Except.noConfusion hmls
                      | ok selected =>
                        dsimp only
                        have hsel2 : selected = cfg := select_false o cfg selected _ hselm
                        have hbc : Bc.length = flen := by
                          rw [hconst hcst] at hfml
                          exact Except.ok.inj hfml
                        simp only [List.length_append, lenBytes_length, ha, hsel2, hbc]
                        rw [Nat.add_comm]
                  · intro _ _ _
                    have : 1 ≤ actual.toBytes := by
                      cases actual <;> simp [LengthFieldSize.toBytes]
                    simp only [List.length_append, lenBytes_length]
                    omega
                  · rw [hwanted]
                    exact ⟨actual, rfl, fun hbf => hwfa (by rw [hb, hbf])⟩
                  · intro fuel nlfs tail secs hfuel hsec hnl hw2
                    match fuel, hfuel with
                    | 0, hfuel =>
                      rw [valueFuel_vstruct] at hfuel
                      omega
                    | fuel + 1, hfuel =>
                      rw [valueFuel_vstruct] at hfuel
                      simp only [deValue]
                      rw [hwanted]
                      simp only [Except.bind, Bind.bind, Except.instMonad]
                      simp only [nlfsFits, hwanted] at hnl
                      obtain ⟨a2, c2, hllf2, hor⟩ := hnl
                      have hpair : (actual, actual == cfg) = (a2, c2) :=
                        Option.some.inj hllf2
                      have ha2 : a2 = actual := (congrArg Prod.fst hpair).symm
                      have hc2 : c2 = (actual == cfg) := (congrArg Prod.snd hpair).symm
                      rw [ha2] at hor
                      have hnl2 : nlfs = some actual ∨ (nlfs = none ∧ actual = cfg) := by
                        rcases hor with h1 | ⟨h2, h3⟩
                        · exact Or.inl h1
                        · refine Or.inr ⟨h2, ?_⟩
                          rw [hc2] at h3
                          exact beq_iff_eq.mp h3
                      have hbg := deBeginLds_split o nlfs cfg actual
                        Bc.length Bc tail secs hnl2 hfits rfl
                        (by
                          simp only [List.length_append, lenBytes_length] at hsec
                          exact hsec)
                      rw [List.append_assoc]
                      rw [hbg]
                      dsimp only
                      try simp only [Bool.false_eq_true, if_false]
                      have hde2 := hdeT fuel tail
                        (secConsume (actual.toBytes + Bc.length) secs)
                        (by omega) hallpos
                      rw [hde2]
                      dsimp only
                      rw [endLds_split]
                      simp only [List.length_append, lenBytes_length]
                      try rw [if_pos trivial]
    | true =>
      rw [husetlv] at hser hbr hrvf hwanted
      cases lfs with
      | none =>
        rcases wanted_struct_none o name fields true isMessageWrapper lfsT b
            hwanted with hmw | ⟨_, hutf, _⟩
        · dsimp only at hser
          cases hFields : serFields o fields true fields vals st with
          | error e =>
            rw [hFields] at hser
            exact Except.noConfusion hser
          | ok st2 =>
            rw [hFields] at hser
            dsimp only at hser
            have hst : st' = { st2 with isInTlvStruct := false } :=
              (Except.ok.inj hser).symm
            subst hst
            obtain ⟨Bc, hbuf, hsecs, hdeT, hdeE⟩ := IHG husetlv st st2 hFields
            subst hmw
            refine ⟨Bc, hbuf, hsecs, ?_, ?_, ?_, ?_⟩
            · intro _ hcst
              simp only [SomeIpType.isConstSize, Bool.not_true,
                Bool.false_and] at hcst
              exact Bool.noConfusion hcst
            · intro _ _ hwq
              simp only [isTlvWrapper] at hwq
              exact Bool.noConfusion hwq
            · rw [hwanted]
              trivial
            · intro fuel nlfs tail secs hfuel hsec hnl hw2
              obtain ⟨htl, hsc⟩ := hw2 (by simp [isTlvWrapper])
              subst htl
              subst hsc
              match fuel, hfuel with
              | 0, hfuel =>
                rw [valueFuel_vstruct] at hfuel
                omega
              | fuel + 1, hfuel =>
                rw [valueFuel_vstruct] at hfuel
                simp only [deValue]
                rw [hwanted]
                simp only [Except.bind, Bind.bind, Except.instMonad, if_true]
                try dsimp only
                rw [List.append_nil]
                have hde2 := hdeE fuel lfsT (by omega)
                rw [hde2]
                dsimp only
                rw [buildTlvStruct_tlvPairs o isOpt name fields vals hdn hrvf]
                dsimp only
                rfl
        · exact Bool.noConfusion hutf
      | some cfg =>
        dsimp only at hser
        cases hstart : startSection o
            (.struct name fields true isMessageWrapper lfsT) cfg st with
        | error e =>
          rw [hstart] at hser
          exact Except.noConfusion hser
        | ok st1 =>
          rw [hstart] at hser
          dsimp only at hser
          cases hFields : serFields o fields true fields vals st1 with
          | error e =>
            rw [hFields] at hser
            exact Except.noConfusion hser
          | ok st2 =>
            rw [hFields] at hser
            dsimp only at hser
            obtain ⟨Bc, hbuf, hsecs, hdeT, hdeE⟩ := IHG husetlv st1 st2 hFields
            unfold startSection at hstart
            rw [hb] at hstart
            cases hmls : SomeIpType.maxLen o
                (.struct name fields true isMessageWrapper lfsT) b with
            | error e =>
              simp only [hmls, Except.bind, Bind.bind, Except.instMonad] at hstart
              exact Except.noConfusion hstart
            | ok ml =>
              simp only [hmls, Except.bind, Bind.bind, Except.instMonad] at hstart
              cases hmn : LengthFieldSize.minimumLengthFor ml with
              | none =>
                simp only [hmn] at hstart
                exact Except.noConfusion hstart
              | some mn =>
                simp only [hmn] at hstart
                have hst1 : st.beginLds cfg mn = st1 := Except.ok.inj hstart
                subst hst1
                simp only [SerState.beginLds] at hbuf hsecs hdeT hdeE
                cases hend : st2.endLds o cfg with
                | error e =>
                  rw [hend] at hser
                  exact Except.noConfusion hser
                | ok st3 =>
                  rw [hend] at hser
                  dsimp only at hser
                  have hst : st' = { st3 with isInTlvStruct := false } :=
                    (Except.ok.inj hser).symm
                  subst hst
                  have hL : st2.buf.length - st.buf.length - (cfg.bmax mn).toBytes
                      = Bc.length := by
                    rw [hbuf]
                    simp
                  obtain ⟨actual, hselc, hfits, hwfa, hstv⟩ := endLds_inv o st2 cfg
                    st.buf.length (cfg.bmax mn) st.isInTlvStruct st.sections st3
                    (by rw [hsecs]) (by rw [hbuf]; simp) hend
                  rw [hL] at hselc hfits
                  subst hstv
                  have htake : st2.buf.take st.buf.length = st.buf := by
                    rw [hbuf, List.append_assoc]
                    exact List.take_left st.buf _
                  have hdrop : st2.buf.drop
                      (st.buf.length + (cfg.bmax mn).toBytes) = Bc := by
                    rw [hbuf]
                    rw [show st.buf.length + (cfg.bmax mn).toBytes
                      = (st.buf ++ List.replicate (cfg.bmax mn).toBytes 0).length from
                        by simp]
                    exact List.drop_left _ _
                  refine ⟨lenBytes o actual Bc.length ++ Bc, ?_, rfl, ?_, ?_, ?_, ?_⟩
                  · dsimp only
                    rw [hL, htake, hdrop, List.append_assoc]
                  · intro _ hcst
                    simp only [SomeIpType.isConstSize, Bool.not_true,
                      Bool.false_and] at hcst
                    exact Bool.noConfusion hcst
                  · intro _ _ _
                    have : 1 ≤ actual.toBytes := by
                      cases actual <;> simp [LengthFieldSize.toBytes]
                    simp only [List.length_append, lenBytes_length]
                    omega
                  · rw [hwanted]
                    exact ⟨actual, rfl, fun hbf => hwfa (by rw [hb, hbf])⟩
                  · intro fuel nlfs tail secs hfuel hsec hnl hw2
                    match fuel, hfuel with
                    | 0, hfuel =>
                      rw [valueFuel_vstruct] at hfuel
                      omega
                    | fuel + 1, hfuel =>
                      rw [valueFuel_vstruct] at hfuel
                      simp only [deValue]
                      rw [hwanted]
                      simp only [Except.bind, Bind.bind, Except.instMonad]
                      simp only [nlfsFits, hwanted] at hnl
                      obtain ⟨a2, c2, hllf2, hor⟩ := hnl
                      have hpair : (actual, actual == cfg) = (a2, c2) :=
                        Option.some.inj hllf2
                      have ha2 : a2 = actual := (congrArg Prod.fst hpair).symm
                      have hc2 : c2 = (actual == cfg) := (congrArg Prod.snd hpair).symm
                      rw [ha2] at hor
                      have hnl2 : nlfs = some actual ∨ (nlfs = none ∧ actual = cfg) := by
                        rcases hor with h1 | ⟨h2, h3⟩
                        · exact Or.inl h1
                        · refine Or.inr ⟨h2, ?_⟩
                          rw [hc2] at h3
                          exact beq_iff_eq.mp h3
                      have hbg := deBeginLds_split o nlfs cfg actual
                        Bc.length Bc tail secs hnl2 hfits rfl
                        (by
                          simp only [List.length_append, lenBytes_length] at hsec
                          exact hsec)
                      rw [List.append_assoc]
                      rw [hbg]
                      dsimp only
                      try simp only [if_true]
                      have hde2 := hdeT fuel lfsT tail
                        (secConsume (actual.toBytes + Bc.length) secs)
                        (by omega)
                      rw [hde2]
                      dsimp only
                      rw [buildTlvStruct_tlvPairs o isOpt name fields vals hdn hrvf]
                      dsimp only
                      rw [endLds_split]
                      simp only [List.length_append, lenBytes_length]
                      try rw [if_pos trivial]

theorem secConsume_zero (secs : List Nat) : secConsume 0 secs = secs := by
  cases secs with
  | nil => rfl
  | cons c r => simp [secConsume]

/-- A `none` override fits whenever the serializer recorded the configured
width (which it always does outside TLV structs). -/
theorem nlfsFits_false_none (o : SomeIpOptions) (t : SomeIpType)
    (llf : Option (LengthFieldSize × Bool))
    (h : match SomeIpType.wantedLengthField o t false with
         | .ok (some cfg) =>
           ∃ a, llf = some (a, a == cfg) ∧ (false = false → a = cfg)
         | _ => True) :
    nlfsFits o t false llf none := by
  unfold nlfsFits
  cases hw : SomeIpType.wantedLengthField o t false with
  | error e => rfl
  | ok lfs =>
    cases lfs with
    | none => rfl
    | some cfg =>
      rw [hw] at h
      obtain ⟨a, hl, hac⟩ := h
      exact ⟨a, a == cfg, hl, Or.inr ⟨rfl, by rw [hac rfl]; exact beq_self_eq_true _⟩⟩

/-- An empty element list appends nothing and reads back as no elements. -/
theorem serElems_nil (o : SomeIpOptions) (isOpt : String → String → Bool)
    (elementType : SomeIpType) (st st' : SerState)
    (hser : serElems o elementType [] st = .ok st') :
    SerElemsOk o isOpt elementType [] st st' := by
  have hst : st' = st := (Except.ok.inj hser).symm
  subst hst
  refine ⟨[], by simp, rfl, ?_, ?_, ?_⟩
  · intro _ el _
    simp
  · intro _
    simp
  · intro fuel count minE maxE tail rest hfuel hmax hmin
    match fuel, hfuel with
    | fuel + 1, _ =>
      rw [deSeqElems]
      rw [if_neg (by simp [DeState.remaining])]
      rw [if_neg (by simp at hmin ⊢; omega)]
      rfl

/-- One more element appends the element bytes and reads back in front. -/
theorem serElems_cons (o : SomeIpOptions) (isOpt : String → String → Bool)
    (elementType : SomeIpType) (v : Value) (rest : List Value) (st st' : SerState)
    (hpose : posSize o elementType = true)
    (hntw : isTlvWrapper elementType = false)
    (IHv : ∀ st1', serValue o elementType v { st with isInTlvStruct := false }
        = .ok st1' →
      SerOk o isOpt elementType v { st with isInTlvStruct := false } st1' false)
    (IHr : ∀ st1 st1', serElems o elementType rest st1 = .ok st1' →
      SerElemsOk o isOpt elementType rest st1 st1')
    (hser : serElems o elementType (v :: rest) st = .ok st') :
    SerElemsOk o isOpt elementType (v :: rest) st st' := by
  rw [serElems] at hser
  simp only [Except.bind, Bind.bind, Except.instMonad] at hser
  cases hV : serValue o elementType v { st with isInTlvStruct := false } with
  | error e =>
    rw [hV] at hser
    exact Except.noConfusion hser
  | ok st1 =>
    rw [hV] at hser
    dsimp only at hser
    obtain ⟨B1, hbuf1, hsecs1, hconst1, hpos1, hllf1, hde1⟩ := IHv st1 hV
    obtain ⟨B2, hbuf2, hsecs2, hconst2, hpos2, hde2⟩ := IHr st1 st' hser
    have hB1pos : 1 ≤ B1.length := hpos1 rfl hpose hntw
    refine ⟨B1 ++ B2, ?_, ?_, ?_, ?_, ?_⟩
    · rw [hbuf2, hbuf1]
      simp
    · rw [hsecs2, hsecs1]
    · intro hc el hml
      have h1 : B1.length = el := by
        have := hconst1 rfl hc
        rw [hml] at this
        exact (Except.ok.inj this).symm
      have h2 : B2.length = rest.length * el := hconst2 hc el hml
      simp only [List.length_append, List.length_cons, h1, h2]
      ring
    · intro _
      have h2 := hpos2 hpose
      simp only [List.length_append, List.length_cons]
      omega
    · intro fuel count minE maxE tail rest2 hfuel hmax hmin
      rw [listFuel_cons] at hfuel
      simp only [List.length_cons] at hmax hmin
      match fuel, hfuel with
      | 0, hfuel =>
        have := valueFuel_pos v
        have := listFuel_pos rest
        omega
      | fuel + 1, hfuel =>
        rw [deSeqElems]
        rw [if_pos (by simp [DeState.remaining]; omega)]
        simp only [Except.bind, Bind.bind, Except.instMonad]
        have hdv := hde1 fuel none (B2 ++ tail)
          ((B1 ++ B2).length :: rest2)
          (by omega)
          (by simp only [secOk, List.length_append]; omega)
          (nlfsFits_false_none o elementType st1.lastLengthField hllf1)
          (by
            intro hq
            rw [hntw] at hq
            exact Bool.noConfusion hq)
        rw [← List.append_assoc] at hdv
        rw [hdv]
        dsimp only
        rw [if_neg (by omega)]
        have hcons2 : secConsume B1.length ((B1 ++ B2).length :: rest2)
            = B2.length :: rest2 := by
          simp only [secConsume, List.length_append]
          congr 1
          omega
        rw [hcons2]
        have hdr := hde2 fuel (count + 1) minE maxE tail rest2
          (by omega) (by omega) (by omega)
        rw [hdr]


/-- An empty field list appends nothing and reads back as no fields. -/
theorem serFieldsF_nil (o : SomeIpOptions) (isOpt : String → String → Bool)
    (allFields : List SomeIpField) (st st' : SerState)
    (hser : serFields o allFields false [] [] st = .ok st') :
    SerFieldsOk o isOpt allFields [] [] st st' := by
  have hst : st' = st := (Except.ok.inj hser).symm
  subst hst
  refine ⟨[], by simp, rfl, ?_, ?_, ?_, ?_⟩
  · intro _
    rfl
  · intro hq
    exact Bool.noConfusion hq
  · intro fuel tail rest hfuel _
    match fuel, hfuel with
    | fuel + 1, _ =>
      rw [deStructFields]
      simp only [List.nil_append, List.length_nil]
  · intro fuel tail secs hfuel hsec
    match fuel, hfuel with
    | fuel + 1, _ =>
      rw [deStructFields]
      simp only [List.nil_append, List.length_nil, secConsume_zero]

/-- One more non TLV field appends the field bytes and reads back in
front. -/
theorem serFieldsF_cons (o : SomeIpOptions) (isOpt : String → String → Bool)
    (allFields : List SomeIpField) (f : SomeIpField) (fr : List SomeIpField)
    (v : Value) (vr : List Value) (st st' : SerState)
    (hfind : fieldByName allFields f.1 = some f)
    (hntw : isTlvWrapper f.2.2 = false)
    (IHv : ∀ st1', serValue o f.2.2 v { st with isInTlvStruct := false }
        = .ok st1' →
      SerOk o isOpt f.2.2 v { st with isInTlvStruct := false } st1' false)
    (IHr : ∀ st1 st1', serFields o allFields false fr vr st1 = .ok st1' →
      SerFieldsOk o isOpt allFields fr vr st1 st1')
    (hser : serFields o allFields false (f :: fr) (v :: vr) st = .ok st') :
    SerFieldsOk o isOpt allFields (f :: fr) (v :: vr) st st' := by
  rw [serFields] at hser
  rw [hfind] at hser
  simp only [Except.bind, Bind.bind, Except.instMonad, Bool.false_eq_true,
    if_false] at hser
  cases hV : serValue o f.2.2 v { st with isInTlvStruct := false } with
  | error e =>
    rw [hV] at hser
    exact Except.noConfusion hser
  | ok st1 =>
    rw [hV] at hser
    dsimp only at hser
    obtain ⟨B1, hbuf1, hsecs1, hconst1, hpos1, hllf1, hde1⟩ := IHv st1 hV
    obtain ⟨B2, hbuf2, hsecs2, hconst2, hpos2, hdeT2, hdeF2⟩ := IHr st1 st' hser
    refine ⟨B1 ++ B2, ?_, ?_, ?_, ?_, ?_, ?_⟩
    · rw [hbuf2, hbuf1]
      simp
    · rw [hsecs2, hsecs1]
    · intro hc
      simp only [SomeIpType.isConstSize.fieldsConstSize, Bool.and_eq_true] at hc
      obtain ⟨hc1, hc2⟩ := hc
      simp only [SomeIpType.maxLen.fieldsMaxLen, Except.bind, Bind.bind,
        Except.instMonad]
      rw [hconst1 rfl hc1]
      dsimp only
      rw [hconst2 hc2]
      dsimp only
      simp
    · intro hps
      simp only [posSize.fieldsPos, Bool.or_eq_true] at hps
      rcases hps with hp1 | hp2
      · have := hpos1 rfl hp1 hntw
        simp only [List.length_append]
        omega
      · have := hpos2 hp2
        simp only [List.length_append]
        omega
    · intro fuel tail rest hfuel hallpos
      rw [listFuel_cons] at hfuel
      simp only [List.all_cons, Bool.and_eq_true] at hallpos
      obtain ⟨hpf, hpfr⟩ := hallpos
      match fuel, hfuel with
      | 0, hfuel =>
        have := valueFuel_pos v
        have := listFuel_pos vr
        omega
      | fuel + 1, hfuel =>
        have hB1pos : 1 ≤ B1.length := hpos1 rfl hpf hntw
        rw [deStructFields]
        rw [if_neg (by
          simp only [DeState.remaining, List.head?_cons, Option.getD_some,
            List.length_append]
          intro hx
          omega)]
        rw [hfind]
        simp only [Except.bind, Bind.bind, Except.instMonad]
        have hdv := hde1 fuel none (B2 ++ tail)
          ((B1 ++ B2).length :: rest)
          (by omega)
          (by simp only [secOk, List.length_append]; omega)
          (nlfsFits_false_none o f.2.2 st1.lastLengthField hllf1)
          (by
            intro hq
            rw [hntw] at hq
            exact Bool.noConfusion hq)
        rw [← List.append_assoc] at hdv
        rw [hdv]
        dsimp only
        have hcons2 : secConsume B1.length ((B1 ++ B2).length :: rest)
            = B2.length :: rest := by
          simp only [secConsume, List.length_append]
          congr 1
          omega
        rw [hcons2]
        have hdr := hdeT2 fuel tail rest (by omega) hpfr
        rw [hdr]
    · intro fuel tail secs hfuel hsec
      rw [listFuel_cons] at hfuel
      match fuel, hfuel with
      | 0, hfuel =>
        have := valueFuel_pos v
        have := listFuel_pos vr
        omega
      | fuel + 1, hfuel =>
        rw [deStructFields]
        rw [if_neg (by
          intro hx
          exact Bool.noConfusion hx.1)]
        rw [hfind]
        simp only [Except.bind, Bind.bind, Except.instMonad]
        have hdv := hde1 fuel none (B2 ++ tail) secs
          (by omega)
          (by
            simp only [List.length_append] at hsec
            exact secOk_mono _ _ _ hsec (by omega))
          (nlfsFits_false_none o f.2.2 st1.lastLengthField hllf1)
          (by
            intro hq
            rw [hntw] at hq
            exact Bool.noConfusion hq)
        rw [← List.append_assoc] at hdv
        rw [hdv]
        dsimp only
        have hdr := hdeF2 fuel tail (secConsume B1.length secs) (by omega)
          (by
            apply secOk_after
            simp only [List.length_append] at hsec
            exact secOk_mono _ _ _ hsec (by omega))
        rw [hdr]
        rw [secConsume_add]
        have harg : ∀ x y : Nat, x = y →
            (Except.ok (v :: vr, (⟨tail, secConsume x secs⟩ : DeState)) :
              Except Error (List Value × DeState))
            = .ok (v :: vr, ⟨tail, secConsume y secs⟩) := by
          intro x y h
          rw [h]
        exact harg _ _ (by simp)


/-- A TLV tag fits in sixteen bits. -/
theorem tag_lt (wt : WireType) (id : Nat) (hid : id < 4096) :
    wt.toU16 ||| id < 65536 := by
  have hor : ∀ k : Nat, k * 4096 ||| id = k * 4096 + id := fun k => by
    have h := shl_or_eq_add k id 12 (by norm_num; omega)
    rw [Nat.shiftLeft_eq] at h
    norm_num at h ⊢
    exact h
  cases wt <;> simp only [WireType.toU16] <;>
    first
    | (rw [Nat.zero_or]; omega)
    | (have h := hor 1; norm_num at h; rw [h]; omega)
    | (have h := hor 2; norm_num at h; rw [h]; omega)
    | (have h := hor 3; norm_num at h; rw [h]; omega)
    | (have h := hor 4; norm_num at h; rw [h]; omega)
    | (have h := hor 5; norm_num at h; rw [h]; omega)
    | (have h := hor 6; norm_num at h; rw [h]; omega)
    | (have h := hor 7; norm_num at h; rw [h]; omega)

/-- The wire type a schema type declares never carries an explicit length
field width. -/
theorem getWireType_getLfs (t : SomeIpType) :
    (SomeIpType.getWireType t).getLengthFieldSize = none := by
  cases t with
  | primitive p => cases p <;> rfl
  | enum n rawType vs => cases rawType <;> rfl
  | string a b c => rfl
  | sequence a b c d => rfl
  | struct a b c d e => rfl

/-- Types with a fixed width wire type want no length field. -/
theorem wanted_true_none_of_not_ld (o : SomeIpOptions) (t : SomeIpType)
    (hwt : (SomeIpType.getWireType t == WireType.lengthDelimitedFromConfig) = false) :
    SomeIpType.wantedLengthField o t true = .ok none := by
  cases t with
  | primitive p => rfl
  | enum n rawType vs => rfl
  | string a b c =>
    exfalso
    simp [SomeIpType.getWireType] at hwt
  | sequence a b c d =>
    exfalso
    simp [SomeIpType.getWireType] at hwt
  | struct a b c d e =>
    exfalso
    simp [SomeIpType.getWireType] at hwt

/-- A length delimited non wrapper type inside a TLV struct never resolves
to "no length field": either a width is configured or the lookup fails. -/
theorem wanted_ld_tlv_not_none (o : SomeIpOptions) (t : SomeIpType)
    (hwt : (SomeIpType.getWireType t == WireType.lengthDelimitedFromConfig) = true)
    (hnw : isMsgWrapper t = false) :
    SomeIpType.wantedLengthField o t true ≠ .ok none := by
  intro h
  cases t with
  | primitive p =>
    cases p <;> simp [SomeIpType.getWireType, SomeIpPrimitive.getWireType] at hwt
  | enum n rawType vs =>
    cases rawType <;> simp [SomeIpType.getWireType, SomeIpPrimitive.getWireType] at hwt
  | string a b c =>
    cases ho : o.overwriteLfs c <;>
      simp [SomeIpType.wantedLengthField, ho] at h
  | sequence a b c d =>
    cases ho : o.overwriteLfs d <;>
      simp [SomeIpType.wantedLengthField, ho] at h
  | struct name fs u m lf =>
    simp only [isMsgWrapper] at hnw
    subst hnw
    cases ho : o.overwriteLfs lf <;>
      simp [SomeIpType.wantedLengthField, ho] at h

/-- A length delimited non wrapper value that serialized successfully
inside a TLV struct had a configured length field width. -/
theorem serValue_ld_wanted (o : SomeIpOptions) (isOpt : String → String → Bool)
    (t : SomeIpType) (w : Value) (st st' : SerState)
    (hwt : (SomeIpType.getWireType t == WireType.lengthDelimitedFromConfig) = true)
    (hnw : isMsgWrapper t = false) (hb : st.isInTlvStruct = true)
    (hrw : rtValid o isOpt true t w = true)
    (hser : serValue o t w st = .ok st') :
    ∃ cfg, SomeIpType.wantedLengthField o t true = .ok (some cfg) := by
  cases hw : SomeIpType.wantedLengthField o t true with
  | ok lfs =>
    cases lfs with
    | some cfg => exact ⟨cfg, rfl⟩
    | none => exact absurd hw (wanted_ld_tlv_not_none o t hwt hnw)
  | error e =>
    exfalso
    cases t with
    | primitive p =>
      cases p <;> simp [SomeIpType.getWireType, SomeIpPrimitive.getWireType] at hwt
    | enum n rawType vs =>
      cases rawType <;> simp [SomeIpType.getWireType, SomeIpPrimitive.getWireType] at hwt
    | string a b c =>
      cases w <;> try (unfold rtValid at hrw; exact Bool.noConfusion hrw)
      simp only [serValue] at hser
      rw [hb, hw] at hser
      split at hser
      · exact Except.noConfusion hser
      · simp [Except.bind, Bind.bind, Except.instMonad] at hser
    | sequence a b c d =>
      cases w <;> try (unfold rtValid at hrw; exact Bool.noConfusion hrw)
      simp only [serValue] at hser
      rw [hb, hw] at hser
      split at hser
      · exact Except.noConfusion hser
      · split at hser
        · exact Except.noConfusion hser
        · simp [Except.bind, Bind.bind, Except.instMonad] at hser
    | struct name fs u m lf =>
      cases w <;> try (unfold rtValid at hrw; exact Bool.noConfusion hrw)
      simp only [serValue] at hser
      rw [hb, hw] at hser
      split at hser
      · exact Except.noConfusion hser
      · simp [Except.bind, Bind.bind, Except.instMonad] at hser

/-- Inside a TLV struct an optional `Some` serializes as its payload. -/
theorem serValue_opt_some (o : SomeIpOptions) (t : SomeIpType) (w : Value)
    (st : SerState) (hb : st.isInTlvStruct = true) :
    serValue o t (.opt (some w)) st = serValue o t w st := by
  conv_lhs => rw [serValue]
  rw [hb]
  simp

/-- Inside a TLV struct an optional `None` retracts the pre-written tag. -/
theorem serValue_opt_none (o : SomeIpOptions) (t : SomeIpType)
    (st : SerState) (hb : st.isInTlvStruct = true) :
    serValue o t (.opt none) st
      = .ok { st with buf := st.buf.take (st.buf.length - 2) } := by
  conv_lhs => rw [serValue]
  rw [hb]
  simp

/-- The TLV pair collection keeps every present field. -/
theorem tlvPairs_cons_ne (f : SomeIpField) (fr : List SomeIpField) (v : Value)
    (vr : List Value)
    (h : notOptNone v = true) :
    tlvPairs (f :: fr) (v :: vr) = (f.1, v) :: tlvPairs fr vr := by
  cases v with
  | opt ov =>
    cases ov with
    | none => exact Bool.noConfusion h
    | some w => rfl
  | bool bb => rfl
  | prim a b => rfl
  | str s => rfl
  | enumv s => rfl
  | seq vs => rfl
  | vstruct vs => rfl

/-- A non message wrapper is never a TLV message wrapper. -/
theorem isTlvWrapper_of_not_msg (t : SomeIpType) (h : isMsgWrapper t = false) :
    isTlvWrapper t = false := by
  cases t with
  | primitive p => rfl
  | enum n rawType vs => rfl
  | string a b c => rfl
  | sequence a b c d => rfl
  | struct n fs u m lf =>
    simp only [isMsgWrapper] at h
    subst h
    cases u <;> rfl

/-- One iteration of the TLV field loop of de.rs over the tag and value
bytes of a known field. -/
theorem deTlv_step (o : SomeIpOptions) (isOpt : String → String → Bool)
    (name : String) (allFields : List SomeIpField)
    (structLfs : Option LengthFieldSize) (fuel : Nat) (f : SomeIpField)
    (id : Nat) (wt : WireType) (w v : Value) (Bv R : List Nat)
    (secs0 secs2 : List Nat) (prs : List (String × Value)) (stF : DeState)
    (hidlt : id < 4096)
    (hfid2 : fieldById allFields id = some f)
    (hchk : WireType.check (SomeIpType.getWireType f.2.2) wt = .ok ())
    (hrem : ¬ DeState.remaining
      ⟨uxBytes 2 (wt.toU16 ||| id) o.byteOrder ++ (Bv ++ R), secs0⟩ = 0)
    (hs2 : secOk 2 secs0)
    (hdv : deValue o isOpt fuel f.2.2 true wt.getLengthFieldSize
        ⟨Bv ++ R, secConsume 2 secs0⟩ = .ok (w, ⟨R, secs2⟩))
    (hwrap : (if isOpt name f.1 then Value.opt (some w) else w) = v)
    (hcont : deTlvFields o isOpt fuel name allFields structLfs ⟨R, secs2⟩
        = .ok (prs, stF)) :
    deTlvFields o isOpt (fuel + 1) name allFields structLfs
      ⟨uxBytes 2 (wt.toU16 ||| id) o.byteOrder ++ (Bv ++ R), secs0⟩
      = .ok ((f.1, v) :: prs, stF) := by
  rw [deTlvFields]
  rw [if_neg hrem]
  simp only [Except.bind, Bind.bind, Except.instMonad]
  rw [readUx_split o o.byteOrder 2 (wt.toU16 ||| id)
    (by
      have h := tag_lt wt id hidlt
      norm_num
      exact h)
    (Bv ++ R) secs0 hs2]
  dsimp only
  rw [ofU16_tag wt id hidlt]
  dsimp only
  rw [and_tag wt id hidlt]
  rw [hfid2]
  dsimp only
  rw [hchk]
  dsimp only
  rw [hdv]
  dsimp only
  rw [hwrap]
  rw [hcont]

/-- An empty TLV field list appends nothing and reads back as no pairs. -/
theorem serFieldsG_nil (o : SomeIpOptions) (isOpt : String → String → Bool)
    (name : String) (allFields : List SomeIpField) (st st' : SerState)
    (hser : serFields o allFields true [] [] st = .ok st') :
    SerTlvFieldsOk o isOpt name allFields [] [] st st' := by
  have hst : st' = st := (Except.ok.inj hser).symm
  subst hst
  refine ⟨[], by simp, rfl, ?_, ?_⟩
  · intro fuel structLfs tail rest hfuel
    match fuel, hfuel with
    | fuel + 1, _ =>
      rw [deTlvFields]
      rw [if_pos (by simp [DeState.remaining])]
      simp [tlvPairs]
  · intro fuel structLfs hfuel
    match fuel, hfuel with
    | fuel + 1, _ =>
      rw [deTlvFields]
      rw [if_pos (by simp [DeState.remaining])]
      simp [tlvPairs]

/-- Assemble the TLV field loop bundle for one present field from the tag
bytes, the value bytes and the recursion's bundle. -/
theorem serTlv_finish (o : SomeIpOptions) (isOpt : String → String → Bool)
    (name : String) (allFields : List SomeIpField) (f : SomeIpField)
    (fr : List SomeIpField) (v w : Value) (vr : List Value) (st st' : SerState)
    (wt : WireType) (id : Nat) (Bv B2 : List Nat)
    (llf : Option (LengthFieldSize × Bool))
    (hidlt : id < 4096)
    (hfid2 : fieldById allFields id = some f)
    (hchk : WireType.check (SomeIpType.getWireType f.2.2) wt = .ok ())
    (hfits : nlfsFits o f.2.2 true llf wt.getLengthFieldSize)
    (hntw : isTlvWrapper f.2.2 = false)
    (hdev : DeMatches o isOpt f.2.2 true llf Bv w)
    (hnoptv : notOptNone v = true)
    (hwrap : (if isOpt name f.1 then Value.opt (some w) else w) = v)
    (hfw : valueFuel w ≤ valueFuel v)
    (hbufS : st'.buf = st.buf ++ (uxBytes 2 (wt.toU16 ||| id) o.byteOrder ++ (Bv ++ B2)))
    (hsecsS : st'.sections = st.sections)
    (hdeT2 : ∀ fuel structLfs tail rest, listFuel vr ≤ fuel →
      deTlvFields o isOpt fuel name allFields structLfs ⟨B2 ++ tail, B2.length :: rest⟩
        = .ok (tlvPairs fr vr, ⟨tail, 0 :: rest⟩))
    (hdeG2 : ∀ fuel structLfs, listFuel vr ≤ fuel →
      deTlvFields o isOpt fuel name allFields structLfs ⟨B2, []⟩
        = .ok (tlvPairs fr vr, ⟨[], []⟩)) :
    SerTlvFieldsOk o isOpt name allFields (f :: fr) (v :: vr) st st' := by
  refine ⟨uxBytes 2 (wt.toU16 ||| id) o.byteOrder ++ (Bv ++ B2), hbufS, hsecsS, ?_, ?_⟩
  · intro fuel structLfs tail rest hfuel
    rw [listFuel_cons] at hfuel
    match fuel, hfuel with
    | 0, hfuel =>
      have := valueFuel_pos v
      have := listFuel_pos vr
      omega
    | fuel + 1, hfuel =>
      have hT2 : (uxBytes 2 (wt.toU16 ||| id) o.byteOrder).length = 2 :=
        uxBytes_length 2 _ _
      have hfv : valueFuel w ≤ fuel := by
        have := listFuel_pos vr
        omega
      have hL : (uxBytes 2 (wt.toU16 ||| id) o.byteOrder ++ (Bv ++ B2)).length
          = 2 + (Bv.length + B2.length) := by
        simp [hT2]
      rw [tlvPairs_cons_ne f fr v vr hnoptv]
      rw [show (uxBytes 2 (wt.toU16 ||| id) o.byteOrder ++ (Bv ++ B2)) ++ tail
          = uxBytes 2 (wt.toU16 ||| id) o.byteOrder ++ (Bv ++ (B2 ++ tail)) from by simp]
      apply deTlv_step o isOpt name allFields structLfs fuel f id wt w v Bv (B2 ++ tail)
        ((uxBytes 2 (wt.toU16 ||| id) o.byteOrder ++ (Bv ++ B2)).length :: rest)
        (secConsume Bv.length (secConsume 2
          ((uxBytes 2 (wt.toU16 ||| id) o.byteOrder ++ (Bv ++ B2)).length :: rest)))
        (tlvPairs fr vr) ⟨tail, 0 :: rest⟩ hidlt hfid2 hchk ?_ ?_ ?_ hwrap ?_
      · simp only [DeState.remaining, List.head?_cons, Option.getD_some]
        rw [hL]
        omega
      · simp only [secOk]
        rw [hL]
        omega
      · exact hdev fuel wt.getLengthFieldSize (B2 ++ tail)
          (secConsume 2
            ((uxBytes 2 (wt.toU16 ||| id) o.byteOrder ++ (Bv ++ B2)).length :: rest))
          hfv
          (by
            simp only [secConsume, secOk]
            rw [hL]
            omega)
          hfits
          (by
            intro hq
            rw [hntw] at hq
            exact Bool.noConfusion hq)
      · have hxx : secConsume Bv.length (secConsume 2
            ((uxBytes 2 (wt.toU16 ||| id) o.byteOrder ++ (Bv ++ B2)).length :: rest))
            = B2.length :: rest := by
          simp only [secConsume]
          congr 1
          rw [hL]
          omega
        rw [hxx]
        exact hdeT2 fuel structLfs tail rest (by omega)
  · intro fuel structLfs hfuel
    rw [listFuel_cons] at hfuel
    match fuel, hfuel with
    | 0, hfuel =>
      have := valueFuel_pos v
      have := listFuel_pos vr
      omega
    | fuel + 1, hfuel =>
      have hT2 : (uxBytes 2 (wt.toU16 ||| id) o.byteOrder).length = 2 :=
        uxBytes_length 2 _ _
      have hfv : valueFuel w ≤ fuel := by
        have := listFuel_pos vr
        omega
      rw [tlvPairs_cons_ne f fr v vr hnoptv]
      apply deTlv_step o isOpt name allFields structLfs fuel f id wt w v Bv B2 []
        (secConsume Bv.length (secConsume 2 []))
        (tlvPairs fr vr) ⟨[], []⟩ hidlt hfid2 hchk ?_ trivial ?_ hwrap ?_
      · simp only [DeState.remaining, List.head?_nil, Option.getD_none,
          List.length_append, hT2]
        omega
      · exact hdev fuel wt.getLengthFieldSize B2 [] hfv trivial hfits
          (by
            intro hq
            rw [hntw] at hq
            exact Bool.noConfusion hq)
      · exact hdeG2 fuel structLfs (by omega)

/-- One TLV field whose value is present on the wire: the tag and value
bytes are appended (with the tag possibly rewritten for length delimited
wire types) and the TLV loop reads the pair back. -/
theorem serFieldsG_step (o : SomeIpOptions) (isOpt : String → String → Bool)
    (name : String) (allFields : List SomeIpField) (f : SomeIpField)
    (fr : List SomeIpField) (v w : Value) (vr : List Value) (st st' : SerState)
    (id : Nat)
    (hfind : fieldByName allFields f.1 = some f)
    (hid : f.2.1 = some id)
    (hidlt : id < 4096)
    (hfid2 : fieldById allFields id = some f)
    (hnomw : isMsgWrapper f.2.2 = false)
    (hnoptv : notOptNone v = true)
    (hwrap : (if isOpt name f.1 then Value.opt (some w) else w) = v)
    (hrw : rtValid o isOpt true f.2.2 w = true)
    (hfw : valueFuel w ≤ valueFuel v)
    (IHval : ∀ (st2 st2' : SerState), st2.isInTlvStruct = true →
        serValue o f.2.2 w st2 = .ok st2' →
        SerOk o isOpt f.2.2 w st2 st2' true)
    (IHr : ∀ st1 st1', serFields o allFields true fr vr st1 = .ok st1' →
        SerTlvFieldsOk o isOpt name allFields fr vr st1 st1')
    (hser : serFields o allFields true (f :: fr) (v :: vr) st = .ok st') :
    SerTlvFieldsOk o isOpt name allFields (f :: fr) (v :: vr) st st' := by
  rw [serFields, hfind] at hser
  dsimp only at hser
  rw [hid] at hser
  dsimp only [SerState.writeUx] at hser
  simp only [Except.bind, Bind.bind, Except.instMonad] at hser
  rw [if_pos trivial] at hser
  have hsv : serValue o f.2.2 v
      { buf := st.buf ++ uxBytes 2 ((SomeIpType.getWireType f.2.2).toU16 ||| id) o.byteOrder,
        isInTlvStruct := true, lastLengthField := st.lastLengthField,
        sections := st.sections }
      = serValue o f.2.2 w
      { buf := st.buf ++ uxBytes 2 ((SomeIpType.getWireType f.2.2).toU16 ||| id) o.byteOrder,
        isInTlvStruct := true, lastLengthField := st.lastLengthField,
        sections := st.sections } := by
    cases hq : isOpt name f.1 with
    | false =>
      rw [hq] at hwrap
      simp only [Bool.false_eq_true, if_false] at hwrap
      rw [hwrap]
    | true =>
      rw [hq] at hwrap
      simp only [if_true] at hwrap
      rw [← hwrap]
      exact serValue_opt_some o f.2.2 w _ rfl
  rw [hsv] at hser
  cases hV : serValue o f.2.2 w
      { buf := st.buf ++ uxBytes 2 ((SomeIpType.getWireType f.2.2).toU16 ||| id) o.byteOrder,
        isInTlvStruct := true, lastLengthField := st.lastLengthField,
        sections := st.sections } with
  | error e =>
    rw [hV] at hser
    exact Except.noConfusion hser
  | ok st1 =>
    rw [hV] at hser
    dsimp only at hser
    obtain ⟨Bv, hbufv, hsecsv, _hc, _hp, hllfv, hdev⟩ := IHval _ st1 rfl hV
    dsimp only at hbufv hsecsv
    have hb1 : st1.buf
        = st.buf ++ (uxBytes 2 ((SomeIpType.getWireType f.2.2).toU16 ||| id) o.byteOrder ++ Bv) := by
      rw [hbufv, List.append_assoc]
    by_cases hwt : (SomeIpType.getWireType f.2.2 == WireType.lengthDelimitedFromConfig) = true
    · -- length delimited: the recorded width exists and the tag may be rewritten
      rw [if_pos hwt] at hser
      obtain ⟨cfg, hw⟩ := serValue_ld_wanted o isOpt f.2.2 w _ st1 hwt hnomw rfl hrw hV
      rw [hw] at hllfv
      obtain ⟨a, hllf1, _⟩ := hllfv
      rw [hllf1] at hser
      dsimp only at hser
      have hgw : SomeIpType.getWireType f.2.2 = WireType.lengthDelimitedFromConfig :=
        of_decide_eq_true hwt
      by_cases hcond : (!(a == cfg) || !o.serializerUseLegacyWireType) = true
      · -- the tag is rewritten to the used width
        rw [if_pos hcond] at hser
        simp only [SerState.writeAtPreviousPos] at hser
        have hlt : st.buf.length < st1.buf.length := by
          rw [hb1]
          simp [uxBytes_length]
        rw [if_pos hlt] at hser
        dsimp only at hser
        obtain ⟨B2, hbuf2, hsecs2, hdeT2, hdeG2⟩ := IHr _ st' hser
        dsimp only at hbuf2 hsecs2
        have htake : st1.buf.take st.buf.length = st.buf := by
          rw [hb1]
          exact List.take_left st.buf _
        have hdrop : st1.buf.drop (st.buf.length
            + (uxBytes 2 ((WireType.ofLengthFieldSize a).toU16 ||| id) o.byteOrder).length)
            = Bv := by
          rw [hb1, ← List.append_assoc]
          rw [show st.buf.length
              + (uxBytes 2 ((WireType.ofLengthFieldSize a).toU16 ||| id) o.byteOrder).length
              = (st.buf ++ uxBytes 2 ((SomeIpType.getWireType f.2.2).toU16 ||| id) o.byteOrder).length
            from by simp [uxBytes_length]]
          exact List.drop_left _ _
        apply serTlv_finish o isOpt name allFields f fr v w vr st st'
          (WireType.ofLengthFieldSize a) id Bv B2 st1.lastLengthField hidlt hfid2
          (by rw [hgw]; exact check_ofLfs a)
          (by
            unfold nlfsFits
            rw [hw]
            exact ⟨a, a == cfg, hllf1, Or.inl (by rw [getLfs_ofLfs])⟩)
          (isTlvWrapper_of_not_msg f.2.2 hnomw)
          hdev hnoptv hwrap hfw
          (by
            rw [hbuf2, htake, hdrop]
            simp [List.append_assoc])
          (by rw [hsecs2, hsecsv])
          hdeT2 hdeG2
      · -- legacy wire types with the configured width: the tag stays
        rw [if_neg hcond] at hser
        have hac : (a == cfg) = true ∧ o.serializerUseLegacyWireType = true := by
          revert hcond
          cases h1 : (a == cfg) <;> cases h2 : o.serializerUseLegacyWireType <;> simp
        obtain ⟨B2, hbuf2, hsecs2, hdeT2, hdeG2⟩ := IHr _ st' hser
        dsimp only at hbuf2 hsecs2
        apply serTlv_finish o isOpt name allFields f fr v w vr st st'
          (SomeIpType.getWireType f.2.2) id Bv B2 st1.lastLengthField hidlt hfid2
          (check_self _)
          (by
            rw [getWireType_getLfs]
            unfold nlfsFits
            rw [hw]
            exact ⟨a, a == cfg, hllf1, Or.inr ⟨rfl, hac.1⟩⟩)
          (isTlvWrapper_of_not_msg f.2.2 hnomw)
          hdev hnoptv hwrap hfw
          (by
            rw [hbuf2, hb1]
            simp [List.append_assoc])
          (by rw [hsecs2, hsecsv])
          hdeT2 hdeG2
    · -- fixed width wire type: nothing to rewrite
      simp only [hwt, Bool.false_eq_true, if_false] at hser
      have hwtf : (SomeIpType.getWireType f.2.2 == WireType.lengthDelimitedFromConfig)
          = false := by
        revert hwt
        cases h : (SomeIpType.getWireType f.2.2 == WireType.lengthDelimitedFromConfig) <;> simp
      obtain ⟨B2, hbuf2, hsecs2, hdeT2, hdeG2⟩ := IHr st1 st' hser
      apply serTlv_finish o isOpt name allFields f fr v w vr st st'
        (SomeIpType.getWireType f.2.2) id Bv B2 st1.lastLengthField hidlt hfid2
        (check_self _)
        (by
          rw [getWireType_getLfs]
          unfold nlfsFits
          rw [wanted_true_none_of_not_ld o f.2.2 hwtf])
        (isTlvWrapper_of_not_msg f.2.2 hnomw)
        hdev hnoptv hwrap hfw
        (by
          rw [hbuf2, hb1]
          simp [List.append_assoc])
        (by rw [hsecs2, hsecsv])
        hdeT2 hdeG2


/-- A value that is no optional at all is in particular not an absent
optional. -/
theorem not_opt_none_of_not_opt (v : Value)
    (h : (match v with | Value.opt _ => false | _ => true) = true) :
    notOptNone v = true := by
  cases v <;> first | rfl | exact Bool.noConfusion h

/-- One more TLV field appends its tag and value bytes (or nothing for an
absent optional) and the TLV loop reads the present pairs back. -/
theorem serFieldsG_cons (o : SomeIpOptions) (isOpt : String → String → Bool)
    (name : String) (allFields : List SomeIpField) (f : SomeIpField)
    (fr : List SomeIpField) (v : Value) (vr : List Value) (st st' : SerState)
    (hfind : fieldByName allFields f.1 = some f)
    (hfid : ∀ idx, f.2.1 = some idx → fieldById allFields idx = some f)
    (hidok : ∃ idx, f.2.1 = some idx ∧ idx < 4096)
    (hnomw : isMsgWrapper f.2.2 = false)
    (hvh : rtValidFields o isOpt name true (f :: fr) (v :: vr) = true)
    (IHval : ∀ (u : Value) (st2 st2' : SerState), valueFuel u ≤ valueFuel v →
        rtValid o isOpt true f.2.2 u = true →
        st2.isInTlvStruct = true →
        serValue o f.2.2 u st2 = .ok st2' →
        SerOk o isOpt f.2.2 u st2 st2' true)
    (IHr : ∀ st1 st1', serFields o allFields true fr vr st1 = .ok st1' →
        SerTlvFieldsOk o isOpt name allFields fr vr st1 st1')
    (hser : serFields o allFields true (f :: fr) (v :: vr) st = .ok st') :
    SerTlvFieldsOk o isOpt name allFields (f :: fr) (v :: vr) st st' := by
  obtain ⟨id, hid, hidlt⟩ := hidok
  have hfid2 := hfid id hid
  unfold rtValidFields at hvh
  rw [Bool.and_eq_true] at hvh
  obtain ⟨hvh, -⟩ := hvh
  simp only [Bool.true_and] at hvh
  cases hio : isOpt name f.1 with
  | false =>
    rw [hio] at hvh
    simp only [Bool.false_eq_true, if_false, Bool.and_eq_true] at hvh
    obtain ⟨hnopt, hrv⟩ := hvh
    have hnoptv := not_opt_none_of_not_opt v hnopt
    have hwrap : (if isOpt name f.1 then Value.opt (some v) else v) = v := by
      rw [hio]
      simp
    exact serFieldsG_step o isOpt name allFields f fr v v vr st st' id hfind hid
      hidlt hfid2 hnomw hnoptv hwrap hrv (le_refl _)
      (fun st2 st2' hb hs => IHval v st2 st2' (le_refl _) hrv hb hs) IHr hser
  | true =>
    rw [hio] at hvh
    simp only [if_true] at hvh
    cases v with
    | bool bb => exact Bool.noConfusion hvh
    | prim a b => exact Bool.noConfusion hvh
    | str s => exact Bool.noConfusion hvh
    | enumv s => exact Bool.noConfusion hvh
    | seq vs => exact Bool.noConfusion hvh
    | vstruct vs => exact Bool.noConfusion hvh
    | opt ov =>
      cases ov with
      | some w =>
        rw [Bool.and_eq_true] at hvh
        obtain ⟨hrw, hni⟩ := hvh
        have hwrap : (if isOpt name f.1 then Value.opt (some w) else w)
            = Value.opt (some w) := by
          rw [hio]
          simp
        have hfw : valueFuel w ≤ valueFuel (Value.opt (some w)) := by
          rw [valueFuel_opt_some]
          omega
        exact serFieldsG_step o isOpt name allFields f fr (Value.opt (some w)) w vr
          st st' id hfind hid hidlt hfid2 hnomw rfl hwrap hrw hfw
          (fun st2 st2' hb hs => IHval w st2 st2' hfw hrw hb hs) IHr hser
      | none =>
        rw [serFields, hfind] at hser
        dsimp only at hser
        rw [hid] at hser
        dsimp only [SerState.writeUx] at hser
        simp only [Except.bind, Bind.bind, Except.instMonad] at hser
        rw [if_pos trivial] at hser
        have hnone : serValue o f.2.2 (Value.opt none)
            { buf := st.buf ++ uxBytes 2 ((SomeIpType.getWireType f.2.2).toU16 ||| id) o.byteOrder,
              isInTlvStruct := true, lastLengthField := st.lastLengthField,
              sections := st.sections }
            = .ok { buf := st.buf, isInTlvStruct := true,
                    lastLengthField := st.lastLengthField, sections := st.sections } := by
          rw [serValue_opt_none o f.2.2 _ rfl]
          dsimp only
          rw [List.length_append, uxBytes_length, Nat.add_sub_cancel, List.take_left]
        rw [hnone] at hser
        dsimp only at hser
        by_cases hwt : (SomeIpType.getWireType f.2.2
            == WireType.lengthDelimitedFromConfig) = true
        · rw [if_pos hwt] at hser
          cases hllf0 : st.lastLengthField with
          | none =>
            rw [hllf0] at hser
            exact Except.noConfusion hser
          | some al =>
            rw [hllf0] at hser
            dsimp only at hser
            by_cases hcond : (!al.2 || !o.serializerUseLegacyWireType) = true
            · rw [if_pos hcond] at hser
              simp only [SerState.writeAtPreviousPos] at hser
              rw [if_neg (by exact Nat.lt_irrefl _)] at hser
              exact Except.noConfusion hser
            · rw [if_neg hcond] at hser
              obtain ⟨B2, hbuf2, hsecs2, hdeT2, hdeG2⟩ := IHr _ st' hser
              dsimp only at hbuf2 hsecs2
              refine ⟨B2, by rw [hbuf2], by rw [hsecs2], ?_, ?_⟩
              · intro fuel structLfs tail rest hfuel
                rw [listFuel_cons] at hfuel
                rw [show tlvPairs (f :: fr) (Value.opt none :: vr) = tlvPairs fr vr
                  from rfl]
                exact hdeT2 fuel structLfs tail rest (by omega)
              · intro fuel structLfs hfuel
                rw [listFuel_cons] at hfuel
                rw [show tlvPairs (f :: fr) (Value.opt none :: vr) = tlvPairs fr vr
                  from rfl]
                exact hdeG2 fuel structLfs (by omega)
        · simp only [hwt, Bool.false_eq_true, if_false] at hser
          obtain ⟨B2, hbuf2, hsecs2, hdeT2, hdeG2⟩ := IHr _ st' hser
          dsimp only at hbuf2 hsecs2
          refine ⟨B2, by rw [hbuf2], by rw [hsecs2], ?_, ?_⟩
          · intro fuel structLfs tail rest hfuel
            rw [listFuel_cons] at hfuel
            rw [show tlvPairs (f :: fr) (Value.opt none :: vr) = tlvPairs fr vr
              from rfl]
            exact hdeT2 fuel structLfs tail rest (by omega)
          · intro fuel structLfs hfuel
            rw [listFuel_cons] at hfuel
            rw [show tlvPairs (f :: fr) (Value.opt none :: vr) = tlvPairs fr vr
              from rfl]
            exact hdeG2 fuel structLfs (by omega)

/-- The master forward simulation, by induction on the deserializer fuel
the serialized value needs: every successful `serValue`, `serElems` and
`serFields` run on a round trip safe schema and value pair satisfies its
round trip bundle. -/
theorem serMaster (o : SomeIpOptions) (isOpt : String → String → Bool)
    (N : Nat) :
    (∀ (t : SomeIpType) (v : Value) (st st' : SerState) (b : Bool),
      valueFuel v ≤ N →
      rtValid o isOpt b t v = true →
      st.isInTlvStruct = b →
      serValue o t v st = .ok st' →
      SerOk o isOpt t v st st' b)
    ∧ (∀ (elementType : SomeIpType) (vs : List Value) (st st' : SerState),
      listFuel vs ≤ N →
      posSize o elementType = true →
      isTlvWrapper elementType = false →
      rtValidElems o isOpt elementType vs = true →
      serElems o elementType vs st = .ok st' →
      SerElemsOk o isOpt elementType vs st st')
    ∧ (∀ (structName : String) (allFields fields : List SomeIpField)
        (vals : List Value) (st st' : SerState),
      listFuel vals ≤ N →
      (∀ g, g ∈ fields → fieldByName allFields g.1 = some g) →
      fields.all (fun g => ! (isTlvWrapper g.2.2)) = true →
      rtValidFields o isOpt structName false fields vals = true →
      serFields o allFields false fields vals st = .ok st' →
      SerFieldsOk o isOpt allFields fields vals st st')
    ∧ (∀ (structName : String) (allFields fields : List SomeIpField)
        (vals : List Value) (st st' : SerState),
      listFuel vals ≤ N →
      (∀ g, g ∈ fields → fieldByName allFields g.1 = some g) →
      (∀ g, g ∈ fields → ∀ idx, g.2.1 = some idx → fieldById allFields idx = some g) →
      fields.all (fun g => match g.2.1 with
        | some idx => decide (idx < 0x1000)
        | none => false) = true →
      fields.all (fun g => ! (isMsgWrapper g.2.2)) = true →
      rtValidFields o isOpt structName true fields vals = true →
      serFields o allFields true fields vals st = .ok st' →
      SerTlvFieldsOk o isOpt structName allFields fields vals st st') := by
  induction N with
  | zero =>
    refine ⟨?_, ?_, ?_, ?_⟩
    · intro t v st st' b hfuel
      have := valueFuel_pos v
      omega
    · intro elementType vs st st' hfuel
      have := listFuel_pos vs
      omega
    · intro structName allFields fields vals st st' hfuel
      have := listFuel_pos vals
      omega
    · intro structName allFields fields vals st st' hfuel
      have := listFuel_pos vals
      omega
  | succ N ih =>
    obtain ⟨ihA, ihE, ihF, ihG⟩ := ih
    refine ⟨?_, ?_, ?_, ?_⟩
    · -- the value dispatch
      intro t v st st' b hfuel hv hb hser
      cases v with
      | bool bb =>
        cases t with
        | primitive p =>
          cases p with
          | bool => exact serValue_bool o isOpt bb st st' b hser
          | u8 => unfold rtValid at hv; exact Bool.noConfusion hv
          | u16 => unfold rtValid at hv; exact Bool.noConfusion hv
          | u32 => unfold rtValid at hv; exact Bool.noConfusion hv
          | u64 => unfold rtValid at hv; exact Bool.noConfusion hv
          | i8 => unfold rtValid at hv; exact Bool.noConfusion hv
          | i16 => unfold rtValid at hv; exact Bool.noConfusion hv
          | i32 => unfold rtValid at hv; exact Bool.noConfusion hv
          | i64 => unfold rtValid at hv; exact Bool.noConfusion hv
          | f32 => unfold rtValid at hv; exact Bool.noConfusion hv
          | f64 => unfold rtValid at hv; exact Bool.noConfusion hv
        | enum n rawType vs => unfold rtValid at hv; exact Bool.noConfusion hv
        | string a c d => unfold rtValid at hv; exact Bool.noConfusion hv
        | sequence a c d e => unfold rtValid at hv; exact Bool.noConfusion hv
        | struct a c d e g => unfold rtValid at hv; exact Bool.noConfusion hv
      | prim width bits =>
        cases t with
        | primitive p => exact serValue_prim o isOpt p width bits st st' b hv hser
        | enum n rawType vs => unfold rtValid at hv; exact Bool.noConfusion hv
        | string a c d => unfold rtValid at hv; exact Bool.noConfusion hv
        | sequence a c d e => unfold rtValid at hv; exact Bool.noConfusion hv
        | struct a c d e g => unfold rtValid at hv; exact Bool.noConfusion hv
      | enumv variant =>
        cases t with
        | primitive p => cases p <;> (unfold rtValid at hv; exact Bool.noConfusion hv)
        | enum n rawType vs =>
          exact serValue_enum o isOpt n rawType vs variant st st' b hv hser
        | string a c d => unfold rtValid at hv; exact Bool.noConfusion hv
        | sequence a c d e => unfold rtValid at hv; exact Bool.noConfusion hv
        | struct a c d e g => unfold rtValid at hv; exact Bool.noConfusion hv
      | str s =>
        cases t with
        | primitive p => cases p <;> (unfold rtValid at hv; exact Bool.noConfusion hv)
        | enum n rawType vs => unfold rtValid at hv; exact Bool.noConfusion hv
        | string a c d => exact serValue_str o isOpt a c d s st st' b hb hser
        | sequence a c d e => unfold rtValid at hv; exact Bool.noConfusion hv
        | struct a c d e g => unfold rtValid at hv; exact Bool.noConfusion hv
      | seq vs =>
        cases t with
        | primitive p => cases p <;> (unfold rtValid at hv; exact Bool.noConfusion hv)
        | enum n rawType vals => unfold rtValid at hv; exact Bool.noConfusion hv
        | string a c d => unfold rtValid at hv; exact Bool.noConfusion hv
        | sequence minE maxE elementType lfsT =>
          have hv2 := hv
          unfold rtValid at hv2
          simp only [Bool.and_eq_true] at hv2
          obtain ⟨⟨⟨hpose, hntw⟩, _⟩, hrve⟩ := hv2
          have hntw2 : isTlvWrapper elementType = false := by
            cases hq : isTlvWrapper elementType
            · rfl
            · rw [hq] at hntw
              exact Bool.noConfusion hntw
          rw [valueFuel_seq] at hfuel
          exact serValue_seq o isOpt minE maxE elementType lfsT vs st st' b hb hv
            (fun st2 st2' h =>
              ihE elementType vs st2 st2' (by omega) hpose hntw2 hrve h)
            hser
        | struct a c d e g => unfold rtValid at hv; exact Bool.noConfusion hv
      | vstruct vals =>
        cases t with
        | primitive p => cases p <;> (unfold rtValid at hv; exact Bool.noConfusion hv)
        | enum n rawType vs => unfold rtValid at hv; exact Bool.noConfusion hv
        | string a c d => unfold rtValid at hv; exact Bool.noConfusion hv
        | sequence a c d e => unfold rtValid at hv; exact Bool.noConfusion hv
        | struct name fields usesTlv isMessageWrapper lfsT =>
          have hv2 := hv
          unfold rtValid at hv2
          simp only [Bool.and_eq_true] at hv2
          obtain ⟨⟨hdn, hbr⟩, hrvf⟩ := hv2
          rw [valueFuel_vstruct] at hfuel
          cases husetlv : usesTlv with
          | false =>
            subst husetlv
            simp only [Bool.false_eq_true, if_false, Bool.and_eq_true] at hbr
            obtain ⟨hntwAll, -⟩ := hbr
            refine serValue_struct o isOpt name fields false isMessageWrapper lfsT
              vals st st' b hb hv ?_ ?_ hser
            · intro _ st2 st2' h
              exact ihF name fields fields vals st2 st2' (by omega)
                (fun g hg => fieldByName_mem fields g hdn hg)
                hntwAll hrvf h
            · intro huse
              exact Bool.noConfusion huse
          | true =>
            subst husetlv
            rw [if_pos rfl] at hbr
            simp only [Bool.and_eq_true] at hbr
            obtain ⟨⟨hidsAll, hdid⟩, hnomwAll⟩ := hbr
            refine serValue_struct o isOpt name fields true isMessageWrapper lfsT
              vals st st' b hb hv ?_ ?_ hser
            · intro huse
              exact Bool.noConfusion huse
            · intro _ st2 st2' h
              exact ihG name fields fields vals st2 st2' (by omega)
                (fun g hg => fieldByName_mem fields g hdn hg)
                (fun g hg idx hidx => fieldById_mem fields g idx hdid hg hidx)
                hidsAll hnomwAll hrvf h
      | opt ov =>
        exfalso
        cases ov with
        | none =>
          cases t <;>
            first
            | (unfold rtValid at hv; exact Bool.noConfusion hv)
            | (rename_i p; cases p <;> (unfold rtValid at hv; exact Bool.noConfusion hv))
        | some w =>
          cases t <;>
            first
            | (unfold rtValid at hv; exact Bool.noConfusion hv)
            | (rename_i p; cases p <;> (unfold rtValid at hv; exact Bool.noConfusion hv))
    · -- the sequence element loop
      intro elementType vs st st' hfuel hpose hntw hrve hser
      cases vs with
      | nil => exact serElems_nil o isOpt elementType st st' hser
      | cons v rest =>
        unfold rtValidElems at hrve
        rw [Bool.and_eq_true] at hrve
        obtain ⟨hrv1, hrvr⟩ := hrve
        rw [listFuel_cons] at hfuel
        exact serElems_cons o isOpt elementType v rest st st' hpose hntw
          (fun st1' h => ihA elementType v _ st1' false (by omega) hrv1 rfl h)
          (fun st1 st1' h =>
            ihE elementType rest st1 st1' (by omega) hpose hntw hrvr h)
          hser
    · -- the plain struct field loop
      intro structName allFields fields vals st st' hfuel hfindAll hntwAll hrvf hser
      cases fields with
      | nil =>
        cases vals with
        | nil => exact serFieldsF_nil o isOpt allFields st st' hser
        | cons v vr =>
          unfold rtValidFields at hrvf
          exact Bool.noConfusion hrvf
      | cons f fr =>
        cases vals with
        | nil =>
          unfold rtValidFields at hrvf
          exact Bool.noConfusion hrvf
        | cons v vr =>
          unfold rtValidFields at hrvf
          rw [Bool.and_eq_true] at hrvf
          obtain ⟨hhead, htail⟩ := hrvf
          simp only [Bool.false_and, Bool.false_eq_true, if_false,
            Bool.and_eq_true] at hhead
          obtain ⟨hnopt, hrv1⟩ := hhead
          simp only [List.all_cons, Bool.and_eq_true] at hntwAll
          obtain ⟨hntw1, hntwR⟩ := hntwAll
          rw [listFuel_cons] at hfuel
          exact serFieldsF_cons o isOpt allFields f fr v vr st st'
            (hfindAll f (List.mem_cons_self f fr))
            (by
              cases hq : isTlvWrapper f.2.2
              · rfl
              · rw [hq] at hntw1
                exact Bool.noConfusion hntw1)
            (fun st1' h => ihA f.2.2 v _ st1' false (by omega) hrv1 rfl h)
            (fun st1 st1' h =>
              ihF structName allFields fr vr st1 st1' (by omega)
                (fun g hg => hfindAll g (List.mem_cons_of_mem f hg))
                hntwR htail h)
            hser
    · -- the TLV struct field loop
      intro structName allFields fields vals st st' hfuel hfindAll hfidAll
        hidsAll hnomwAll hrvf hser
      cases fields with
      | nil =>
        cases vals with
        | nil => exact serFieldsG_nil o isOpt structName allFields st st' hser
        | cons v vr =>
          unfold rtValidFields at hrvf
          exact Bool.noConfusion hrvf
      | cons f fr =>
        cases vals with
        | nil =>
          unfold rtValidFields at hrvf
          exact Bool.noConfusion hrvf
        | cons v vr =>
          have hrvf2 := hrvf
          unfold rtValidFields at hrvf2
          rw [Bool.and_eq_true] at hrvf2
          obtain ⟨-, htail⟩ := hrvf2
          simp only [List.all_cons, Bool.and_eq_true] at hidsAll hnomwAll
          obtain ⟨hid1, hidR⟩ := hidsAll
          obtain ⟨hnomw1, hnomwR⟩ := hnomwAll
          rw [listFuel_cons] at hfuel
          exact serFieldsG_cons o isOpt structName allFields f fr v vr st st'
            (hfindAll f (List.mem_cons_self f fr))
            (fun idx hidx => hfidAll f (List.mem_cons_self f fr) idx hidx)
            (by
              cases hq : f.2.1 with
              | none =>
                rw [hq] at hid1
                exact Bool.noConfusion hid1
              | some idx =>
                rw [hq] at hid1
                exact ⟨idx, rfl, of_decide_eq_true hid1⟩)
            (by
              cases hq : isMsgWrapper f.2.2
              · rfl
              · rw [hq] at hnomw1
                exact Bool.noConfusion hnomw1)
            hrvf
            (fun u st2 st2' hfu hru hb2 hs2 =>
              ihA f.2.2 u st2 st2' true (by omega) hru hb2 hs2)
            (fun st1 st1' h =>
              ihG structName allFields fr vr st1 st1' (by omega)
                (fun g hg => hfindAll g (List.mem_cons_of_mem f hg))
                (fun g hg idx hidx =>
                  hfidAll g (List.mem_cons_of_mem f hg) idx hidx)
                hidR hnomwR htail h)
            hser


/-- C1 (counterexample): the round trip claim fails without side
conditions: a sequence of zero byte elements loses its element count (two
empty structs read back as zero), an enum with two variants sharing a raw
value reads back as the wrong variant, and a length delimited struct whose
fields occupy zero bytes fails to deserialize outright. -/
theorem claimC1_counterexample :
    (toVec exampleOptions c1SeqT c1SeqV = .ok [0, 0, 0, 0] ∧
      fromSlice exampleOptions noOptFn c1SeqT 100 [0, 0, 0, 0] = .ok (.seq []) ∧
      Value.seq [] ≠ c1SeqV) ∧
    (toVec exampleOptions c1EnumT (.enumv "B") = .ok [0] ∧
      fromSlice exampleOptions noOptFn c1EnumT 100 [0] = .ok (.enumv "A") ∧
      Value.enumv "A" ≠ .enumv "B") ∧
    (toVec exampleOptions c1StructT (.vstruct [.vstruct []]) = .ok [0] ∧
      fromSlice exampleOptions noOptFn c1StructT 100 [0] =
        .error (.message "invalid length while deserializing struct")) :=
  ⟨⟨rfl, rfl, by simp [c1SeqV]⟩, ⟨rfl, rfl, by simp⟩, rfl, rfl⟩

/-- C1 (amended): for every schema and value pair that is round trip safe
(`rtValid`: the value matches the schema shape, sequence elements have
positive serialized size and are no TLV message wrappers with a computable
max length, enum raw values are distinct, plain structs carrying a length
field have only positive size fields, TLV ids are distinct and fit the 12
tag bits, no message wrapper fields inside TLV structs, `Option` values
exactly at the optional TLV fields), a successful `to_vec` serialization is
read back by `from_slice` (with sufficient fuel for the deserializer
recursion) to the original value. -/
theorem claimC1_amended (o : SomeIpOptions) (isOpt : String → String → Bool)
    (t : SomeIpType) (v : Value) (bytes : List Nat) (fuel : Nat)
    (hvalid : rtValid o isOpt false t v = true)
    (hser : toVec o t v = .ok bytes)
    (hfuel : valueFuel v ≤ fuel) :
    fromSlice o isOpt t fuel bytes = .ok v := by
  unfold toVec at hser
  simp only [Except.bind, Bind.bind, Except.instMonad] at hser
  cases hV : serValue o t v ⟨[], false, none, []⟩ with
  | error e =>
    rw [hV] at hser
    exact Except.noConfusion hser
  | ok st1 =>
    rw [hV] at hser
    dsimp only at hser
    have hbytes : bytes = st1.buf := (Except.ok.inj hser).symm
    subst hbytes
    obtain ⟨B, hbuf, hsecs, -, -, hllf, hdev⟩ :=
      (serMaster o isOpt (valueFuel v)).1 t v ⟨[], false, none, []⟩ st1 false
        (le_refl _) hvalid rfl hV
    have hdv := hdev fuel none [] [] hfuel trivial
      (nlfsFits_false_none o t st1.lastLengthField hllf)
      (fun _ => ⟨rfl, rfl⟩)
    simp only [List.append_nil] at hdv
    unfold fromSlice
    rw [hbuf]
    simp only [List.nil_append]
    simp only [Except.bind, Bind.bind, Except.instMonad]
    rw [hdv]

/-- C1 witness: the round trip at the byte 5 as a u8. -/
theorem claimC1_witness :
    rtValid exampleOptions noOptFn false (.primitive .u8) (.prim 1 5) = true
    ∧ toVec exampleOptions (.primitive .u8) (.prim 1 5) = .ok [5]
    ∧ fromSlice exampleOptions noOptFn (.primitive .u8) 1 [5] = .ok (.prim 1 5) := by
  have h1 : rtValid exampleOptions noOptFn false (.primitive .u8) (.prim 1 5) = true := by
    rfl
  have h2 : toVec exampleOptions (.primitive .u8) (.prim 1 5) = .ok [5] := rfl
  exact ⟨h1, h2, claimC1_amended exampleOptions noOptFn (.primitive .u8) (.prim 1 5)
    [5] 1 h1 h2 (by simp [valueFuel])⟩

end SerdeSomeIp
